import Mathlib

/-!
# Gray Wolf Optimizer: a shallow embedding of `GrayWolfOptimizer.hpp`

The C++ class `GrayWolfOptimizer` is embedded as a record of its data members and
one Lean function per member function.

* `Dbl` stands for the C++ type `double`: the finite values (carried as exact
  rationals), the two infinities and NaN.  Comparisons follow IEEE 754 (every
  comparison with NaN is false), and the two zeros are one value.
* Arithmetic comes in two forms.  The operations `Dbl.add`, `Dbl.sub`, `Dbl.mul` and
  `Dbl.div` follow the IEEE 754 rules for the special values and are *exact* on finite
  operands: they do not round, overflow or underflow.  The member functions written
  with them (`objectiveFunction`, `optimize`, ...) describe the structure of a run:
  which draws are used, which positions are scored, in what order the leaders are
  ranked.  The arithmetic of the machine is `Arith.binary64`: each operation returns
  its exact result rounded by `Dbl.round64` to the nearest binary64 number, ties to
  even, with overflow to an infinity and gradual underflow to zero.  The member
  functions with the arithmetic as a parameter (`objectiveFunctionIn`, `optimizeIn`,
  ...) are the same code over either arithmetic (`Arith.rational` gives back the exact
  functions), and the statements about the values of scores are made for them.
  Each operation is rounded on its own: no fused multiply-add and no extended
  precision.  The conversion of an `int` to `double` is exact.
* `std::vector` is a `List`; reading `v[j]` is `List.getD`, writing `v[j] = x` is
  `List.set`.
* `std::mt19937 rng` together with the `uniform_real_distribution` objects is a
  stream `draws : ℕ → ℚ` of the values returned by successive distribution calls;
  the member `rng` of the record is the number of calls made so far.  The values
  a generator returns are binary64 numbers (`Dbl.representable`); the theorems hold
  for every stream, and the draws of the binary64 counterexamples are checked to be
  representable.
* `std::cout` is the list of `(iter, alphaScore)` pairs printed so far.
-/

/-- The values of the C++ type `double`. -/
inductive Dbl where
  | nan : Dbl
  | negInf : Dbl
  | fin (q : ℚ) : Dbl
  | posInf : Dbl
deriving DecidableEq

namespace Dbl

/-- The comparison `x < y` of two doubles. -/
def blt : Dbl → Dbl → Bool
  | fin a, fin b => decide (a < b)
  | negInf, fin _ => true
  | negInf, posInf => true
  | fin _, posInf => true
  | _, _ => false

/-- The comparison `x <= y` of two doubles. -/
def ble : Dbl → Dbl → Bool
  | fin a, fin b => decide (a ≤ b)
  | negInf, negInf => true
  | negInf, fin _ => true
  | negInf, posInf => true
  | fin _, posInf => true
  | posInf, posInf => true
  | _, _ => false

/-- The sum `x + y`, exact on finite operands (`Arith.binary64` rounds it). -/
def add : Dbl → Dbl → Dbl
  | fin a, fin b => fin (a + b)
  | fin _, posInf => posInf
  | fin _, negInf => negInf
  | posInf, fin _ => posInf
  | posInf, posInf => posInf
  | negInf, fin _ => negInf
  | negInf, negInf => negInf
  | _, _ => nan

/-- The negation `-x`. -/
def neg : Dbl → Dbl
  | nan => nan
  | negInf => posInf
  | fin a => fin (-a)
  | posInf => negInf

/-- The difference `x - y`, exact on finite operands (`Arith.binary64` rounds it). -/
def sub (x y : Dbl) : Dbl := add x (neg y)

/-- The infinity of the given sign. -/
def signedInf (positive : Bool) : Dbl := if positive then posInf else negInf

/-- The product `x * y`, exact on finite operands (`Arith.binary64` rounds it). -/
def mul : Dbl → Dbl → Dbl
  | fin a, fin b => fin (a * b)
  | fin a, posInf => if a = 0 then nan else signedInf (decide (0 < a))
  | fin a, negInf => if a = 0 then nan else signedInf (decide (a < 0))
  | posInf, fin b => if b = 0 then nan else signedInf (decide (0 < b))
  | negInf, fin b => if b = 0 then nan else signedInf (decide (b < 0))
  | posInf, posInf => posInf
  | posInf, negInf => negInf
  | negInf, posInf => negInf
  | negInf, negInf => posInf
  | _, _ => nan

/-- The quotient `x / y`, exact on finite operands (`Arith.binary64` rounds it); a zero
divisor is the positive zero. -/
def div : Dbl → Dbl → Dbl
  | fin a, fin b =>
    if b = 0 then (if a = 0 then nan else signedInf (decide (0 < a))) else fin (a / b)
  | fin _, posInf => fin 0
  | fin _, negInf => fin 0
  | posInf, fin b => signedInf (decide (0 ≤ b))
  | negInf, fin b => signedInf (decide (b < 0))
  | _, _ => nan

/-- The absolute value `std::abs(x)`. -/
def abs : Dbl → Dbl
  | nan => nan
  | negInf => posInf
  | fin a => fin |a|
  | posInf => posInf

/-- The conversion of an `int` to `double`. -/
def ofInt (n : Int) : Dbl := fin (n : ℚ)

instance : Add Dbl := ⟨add⟩
instance : Sub Dbl := ⟨sub⟩
instance : Mul Dbl := ⟨mul⟩
instance : Div Dbl := ⟨div⟩
instance : Neg Dbl := ⟨neg⟩
instance : LT Dbl := ⟨fun x y => blt x y = true⟩
instance : LE Dbl := ⟨fun x y => ble x y = true⟩
instance (n : Nat) : OfNat Dbl n := ⟨fin (n : ℚ)⟩
instance (x y : Dbl) : Decidable (x < y) := inferInstanceAs (Decidable (blt x y = true))
instance (x y : Dbl) : Decidable (x ≤ y) := inferInstanceAs (Decidable (ble x y = true))

end Dbl

/-- The data members of the class `GrayWolfOptimizer`. -/
structure GrayWolfOptimizer where
  numWolves : Int
  dim : Int
  maxIter : Int
  wolves : List (List Dbl)
  alphaWolf : List Dbl
  alphaScore : Dbl
  betaWolf : List Dbl
  betaScore : Dbl
  deltaWolf : List Dbl
  deltaScore : Dbl
  lowerBound : Dbl
  upperBound : Dbl
  rng : Nat
deriving DecidableEq

/-- The loop `for (int i = 0; i < n; i++) body(i)` acting on a state. -/
def forLoop {σ : Type} (n : Nat) (body : Nat → σ → σ) (s : σ) : σ :=
  (List.range n).foldl (fun acc i => body i acc) s

/-- The loop `for (int j = 0; j < k; j++) row[j] = val(j, row[j])` on one row. -/
def rowLoop (val : Nat → Dbl → Dbl) (k : Nat) (row : List Dbl) : List Dbl :=
  forLoop k (fun j r => r.set j (val j (r.getD j (Dbl.fin 0)))) row

namespace GrayWolfOptimizer

/-- The member function `objectiveFunction`: the running sum of `val * val`. -/
def objectiveFunction (position : List Dbl) : Dbl :=
  position.foldl (fun sum val => sum + val * val) (Dbl.fin 0)

/-- The member function `updateAlphaBetaDelta`. -/
def updateAlphaBetaDelta (s : GrayWolfOptimizer) (position : List Dbl) (score : Dbl) :
    GrayWolfOptimizer :=
  if score < s.alphaScore then
    { s with alphaScore := score, alphaWolf := position }
  else if score < s.betaScore then
    { s with betaScore := score, betaWolf := position }
  else if score < s.deltaScore then
    { s with deltaScore := score, deltaWolf := position }
  else s

/-- The constructor.  The member initialisers copy the arguments, build `wolves` as
`numWolves` rows of `dim` zeros and the three leader positions as `dim` zeros, and
set the three scores to `+infinity`; the body is empty and checks nothing.  A
negative `int` count converts to a `size_type` above `max_size()`, for which the
`std::vector` constructor throws `std::length_error`: that is the only way the
constructor can fail, and it is the result `none`. -/
def construct (numWolves dim maxIter : Int) (lowerBound upperBound : Dbl) :
    Option GrayWolfOptimizer :=
  if numWolves < 0 ∨ dim < 0 then none
  else some
    { numWolves := numWolves
      dim := dim
      maxIter := maxIter
      wolves := List.replicate numWolves.toNat (List.replicate dim.toNat (Dbl.fin 0))
      alphaWolf := List.replicate dim.toNat (Dbl.fin 0)
      alphaScore := Dbl.posInf
      betaWolf := List.replicate dim.toNat (Dbl.fin 0)
      betaScore := Dbl.posInf
      deltaWolf := List.replicate dim.toNat (Dbl.fin 0)
      deltaScore := Dbl.posInf
      lowerBound := lowerBound
      upperBound := upperBound
      rng := 0 }

/-- The read `wolves[i]`. -/
def wolf (s : GrayWolfOptimizer) (i : Nat) : List Dbl := s.wolves.getD i []

/-- The assignment `wolves[i][j] = v`. -/
def setWolf (s : GrayWolfOptimizer) (i j : Nat) (v : Dbl) : GrayWolfOptimizer :=
  { s with wolves := s.wolves.set i ((s.wolves.getD i []).set j v) }

/-- One call of a `uniform_real_distribution` on `rng`: the next value of the stream. -/
def nextDraw (draws : Nat → ℚ) (s : GrayWolfOptimizer) : Dbl × GrayWolfOptimizer :=
  (Dbl.fin (draws s.rng), { s with rng := s.rng + 1 })

/-- The body of the inner loop of `initializeWolves`: `wolves[i][j] = dist(rng)`. -/
def drawCoordinate (draws : Nat → ℚ) (i j : Nat) (s : GrayWolfOptimizer) : GrayWolfOptimizer :=
  let d := nextDraw draws s
  setWolf d.2 i j d.1

/-- The body of the outer loop of `initializeWolves`: fill row `i`, score it, rank it. -/
def initializeWolf (draws : Nat → ℚ) (i : Nat) (s : GrayWolfOptimizer) : GrayWolfOptimizer :=
  let s1 := forLoop s.dim.toNat (drawCoordinate draws i) s
  let score := objectiveFunction (s1.wolf i)
  updateAlphaBetaDelta s1 (s1.wolf i) score

/-- The member function `initializeWolves`. -/
def initializeWolves (draws : Nat → ℚ) (s : GrayWolfOptimizer) : GrayWolfOptimizer :=
  forLoop s.numWolves.toNat (initializeWolf draws) s

/-- The proposal `X = leader[j] - A * D` of one leader, with
`A = 2 * a * r1 - a`, `C = 2 * r2` and `D = |C * leader[j] - wolves[i][j]|`. -/
def proposal (a r1 r2 leader x : Dbl) : Dbl :=
  let A := 2 * a * r1 - a
  let C := 2 * r2
  let D := Dbl.abs (C * leader - x)
  leader - A * D

/-- The body of the loop over `j` in `optimize`: six draws, three proposals, and the
assignment `wolves[i][j] = (X1 + X2 + X3) / 3.0`. -/
def moveCoordinate (draws : Nat → ℚ) (a : Dbl) (i j : Nat) (s : GrayWolfOptimizer) :
    GrayWolfOptimizer :=
  let d1 := nextDraw draws s
  let d2 := nextDraw draws d1.2
  let X1 := proposal a d1.1 d2.1 (d2.2.alphaWolf.getD j (Dbl.fin 0)) ((d2.2.wolf i).getD j (Dbl.fin 0))
  let d3 := nextDraw draws d2.2
  let d4 := nextDraw draws d3.2
  let X2 := proposal a d3.1 d4.1 (d4.2.betaWolf.getD j (Dbl.fin 0)) ((d4.2.wolf i).getD j (Dbl.fin 0))
  let d5 := nextDraw draws d4.2
  let d6 := nextDraw draws d5.2
  let X3 := proposal a d5.1 d6.1 (d6.2.deltaWolf.getD j (Dbl.fin 0)) ((d6.2.wolf i).getD j (Dbl.fin 0))
  setWolf d6.2 i j ((X1 + X2 + X3) / 3)

/-- The body of the loop over `i` in `optimize`: move every coordinate of wolf `i`,
then score the new position and rank it. -/
def moveWolf (draws : Nat → ℚ) (a : Dbl) (i : Nat) (s : GrayWolfOptimizer) : GrayWolfOptimizer :=
  let s1 := forLoop s.dim.toNat (moveCoordinate draws a i) s
  let score := objectiveFunction (s1.wolf i)
  updateAlphaBetaDelta s1 (s1.wolf i) score

/-- The coefficient `a = 2.0 - iter * (2.0 / maxIter)`. -/
def decay (iter : Nat) (maxIter : Int) : Dbl :=
  2 - Dbl.ofInt iter * (2 / Dbl.ofInt maxIter)

/-- The body of the loop over `iter` in `optimize`, up to the output statement. -/
def iteration (draws : Nat → ℚ) (iter : Nat) (s : GrayWolfOptimizer) : GrayWolfOptimizer :=
  forLoop s.numWolves.toNat (moveWolf draws (decay iter s.maxIter)) s

/-- The member function `optimize`: the final object and the lines written to
`std::cout`, each as the pair of the printed `iter` and the printed `alphaScore`. -/
def optimize (draws : Nat → ℚ) (s : GrayWolfOptimizer) : GrayWolfOptimizer × List (Nat × Dbl) :=
  forLoop s.maxIter.toNat
    (fun iter acc =>
      let s1 := iteration draws iter acc.1
      (s1, acc.2 ++ [(iter, s1.alphaScore)]))
    (initializeWolves draws s, [])

/-- The alpha leader record: position and score. -/
def alphaRecord (s : GrayWolfOptimizer) : List Dbl × Dbl := (s.alphaWolf, s.alphaScore)

/-- The beta leader record: position and score. -/
def betaRecord (s : GrayWolfOptimizer) : List Dbl × Dbl := (s.betaWolf, s.betaScore)

/-- The delta leader record: position and score. -/
def deltaRecord (s : GrayWolfOptimizer) : List Dbl × Dbl := (s.deltaWolf, s.deltaScore)

/-- The leader ordering `alphaScore <= betaScore <= deltaScore`. -/
def leadersOrdered (s : GrayWolfOptimizer) : Prop :=
  s.alphaScore ≤ s.betaScore ∧ s.betaScore ≤ s.deltaScore

instance (s : GrayWolfOptimizer) : Decidable (leadersOrdered s) :=
  inferInstanceAs (Decidable (_ ∧ _))

/-- The three leader records together. -/
def leaders (s : GrayWolfOptimizer) : (List Dbl × Dbl) × (List Dbl × Dbl) × (List Dbl × Dbl) :=
  (s.alphaRecord, s.betaRecord, s.deltaRecord)

/-- The hyperparameters of the object. -/
def hyperparameters (s : GrayWolfOptimizer) : Int × Int × Int × Dbl × Dbl :=
  (s.numWolves, s.dim, s.maxIter, s.lowerBound, s.upperBound)

/-- The object after `t` complete iterations of `optimize` and the first `k` wolves of
the next one. -/
def midRun (draws : Nat → ℚ) (s : GrayWolfOptimizer) (t k : Nat) : GrayWolfOptimizer :=
  let cur := forLoop t (iteration draws) (initializeWolves draws s)
  forLoop k (moveWolf draws (decay t cur.maxIter)) cur

/-- The value that `moveCoordinate` assigns to `wolves[i][j]` when the generator has
made `r` calls so far and the coordinate holds `old`: the mean of the three proposals,
with the draws `r`, `r + 1` for alpha, `r + 2`, `r + 3` for beta and `r + 4`, `r + 5`
for delta. -/
def newCoordinate (draws : Nat → ℚ) (a : Dbl) (s : GrayWolfOptimizer) (r j : Nat) (old : Dbl) :
    Dbl :=
  (proposal a (Dbl.fin (draws r)) (Dbl.fin (draws (r + 1))) (s.alphaWolf.getD j (Dbl.fin 0)) old
    + proposal a (Dbl.fin (draws (r + 2))) (Dbl.fin (draws (r + 3)))
        (s.betaWolf.getD j (Dbl.fin 0)) old
    + proposal a (Dbl.fin (draws (r + 4))) (Dbl.fin (draws (r + 5)))
        (s.deltaWolf.getD j (Dbl.fin 0)) old) / 3

/-- The population has `n` wolves of `d` coordinates each. -/
def hasShape (s : GrayWolfOptimizer) (n d : Nat) : Prop :=
  s.wolves.length = n ∧ ∀ row ∈ s.wolves, row.length = d

/-- The position that `initializeWolves` gives to wolf `i` in dimension `d` when it
starts with a fresh generator: the draws `i * d`, ..., `i * d + d - 1`. -/
def initialPosition (draws : Nat → ℚ) (d i : Nat) : List Dbl :=
  (List.range d).map (fun j => Dbl.fin (draws (i * d + j)))

end GrayWolfOptimizer

/-- A pack of two wolves in one dimension with two iterations, as constructed with the
bounds `-10` and `10`. -/
def samplePack : GrayWolfOptimizer :=
  { numWolves := 2
    dim := 1
    maxIter := 2
    wolves := [[Dbl.fin 0], [Dbl.fin 0]]
    alphaWolf := [Dbl.fin 0]
    alphaScore := Dbl.posInf
    betaWolf := [Dbl.fin 0]
    betaScore := Dbl.posInf
    deltaWolf := [Dbl.fin 0]
    deltaScore := Dbl.posInf
    lowerBound := Dbl.fin (-10)
    upperBound := Dbl.fin 10
    rng := 0 }

/-- A pack of three wolves in one dimension with no iteration, as constructed with the
bounds `-10` and `10`. -/
def descendingPack : GrayWolfOptimizer :=
  { numWolves := 3
    dim := 1
    maxIter := 0
    wolves := [[Dbl.fin 0], [Dbl.fin 0], [Dbl.fin 0]]
    alphaWolf := [Dbl.fin 0]
    alphaScore := Dbl.posInf
    betaWolf := [Dbl.fin 0]
    betaScore := Dbl.posInf
    deltaWolf := [Dbl.fin 0]
    deltaScore := Dbl.posInf
    lowerBound := Dbl.fin (-10)
    upperBound := Dbl.fin 10
    rng := 0 }

/-- A stream of draws whose first three values are `3`, `2`, `1`: three initial
positions of scores `9`, `4`, `1`. -/
def descendingDraws : Nat → ℚ := fun n => 3 - n

/-- A stream of draws: `3` and `-2` for the two initial positions, then `1/2` throughout. -/
def sampleDraws : Nat → ℚ
  | 0 => 3
  | 1 => -2
  | _ => 1 / 2

/-- A stream that agrees with `sampleDraws` on the first `26` draws and differs after. -/
def sampleDrawsTail : Nat → ℚ := fun n => if n < 26 then sampleDraws n else 7

namespace GrayWolfOptimizer

/-- The population has `n` wolves of `d` coordinates each and each of the three leader
positions has `d` coordinates. -/
def wellShaped (s : GrayWolfOptimizer) (n d : Nat) : Prop :=
  hasShape s n d ∧ s.alphaWolf.length = d ∧ s.betaWolf.length = d ∧ s.deltaWolf.length = d

end GrayWolfOptimizer

/-- A pack of one wolf in one dimension with one iteration, as constructed with the
bounds `-10` and `10`. -/
def escapePack : GrayWolfOptimizer :=
  { numWolves := 1
    dim := 1
    maxIter := 1
    wolves := [[Dbl.fin 0]]
    alphaWolf := [Dbl.fin 0]
    alphaScore := Dbl.posInf
    betaWolf := [Dbl.fin 0]
    betaScore := Dbl.posInf
    deltaWolf := [Dbl.fin 0]
    deltaScore := Dbl.posInf
    lowerBound := Dbl.fin (-10)
    upperBound := Dbl.fin 10
    rng := 0 }

/-- A stream of draws: `9` for the initial position, then `0` throughout. -/
def escapeDraws : Nat → ℚ
  | 0 => 9
  | _ => 0

namespace GrayWolfOptimizer

/-- One call `updateAlphaBetaDelta(position, objectiveFunction(position))`, as the pair
of its two arguments. -/
def offer (position : List Dbl) : List Dbl × Dbl := (position, objectiveFunction position)

/-- The object after passing, in order, every pair of a list to `updateAlphaBetaDelta`. -/
def offerAll (s : GrayWolfOptimizer) (offers : List (List Dbl × Dbl)) : GrayWolfOptimizer :=
  offers.foldl (fun u o => updateAlphaBetaDelta u o.1 o.2) s

/-- The position of wolf `i` at the moment `initializeWolves` scores it. -/
def initialScored (draws : Nat → ℚ) (s : GrayWolfOptimizer) (i : Nat) : List Dbl :=
  (forLoop (i + 1) (initializeWolf draws) s).wolf i

/-- The position of wolf `i` at the moment iteration `t` of `optimize` scores it. -/
def movedScored (draws : Nat → ℚ) (s : GrayWolfOptimizer) (t i : Nat) : List Dbl :=
  (midRun draws s t (i + 1)).wolf i

/-- The calls of `updateAlphaBetaDelta` made for the first `k` wolves of
`initializeWolves`, in order. -/
def initialOffers (draws : Nat → ℚ) (s : GrayWolfOptimizer) (k : Nat) : List (List Dbl × Dbl) :=
  (List.range k).map (fun i => offer (initialScored draws s i))

/-- The calls of `updateAlphaBetaDelta` made for the first `k` wolves of iteration `t`,
in order. -/
def sweepOffers (draws : Nat → ℚ) (s : GrayWolfOptimizer) (t k : Nat) :
    List (List Dbl × Dbl) :=
  (List.range k).map (fun i => offer (movedScored draws s t i))

/-- The calls of `updateAlphaBetaDelta` made by `initializeWolves` and by the first `t`
iterations, in order. -/
def pastOffers (draws : Nat → ℚ) (s : GrayWolfOptimizer) : Nat → List (List Dbl × Dbl)
  | 0 => initialOffers draws s s.numWolves.toNat
  | t + 1 => pastOffers draws s t ++ sweepOffers draws s t s.numWolves.toNat

/-- Every call of `updateAlphaBetaDelta` made up to the point where `t` iterations are
complete and `k` wolves of the next one have been handled, in order. -/
def runOffers (draws : Nat → ℚ) (s : GrayWolfOptimizer) (t k : Nat) : List (List Dbl × Dbl) :=
  pastOffers draws s t ++ sweepOffers draws s t k

end GrayWolfOptimizer

namespace GrayWolfOptimizer

/-- The position `p` is one that some wolf held when it was scored, up to the point
where `t` iterations are complete and `k` wolves of the next one have been handled:
an initial position, a position moved in an earlier iteration, or a position already
moved in the current one. -/
def scoredSoFar (draws : Nat → ℚ) (s : GrayWolfOptimizer) (t k : Nat) (p : List Dbl) : Prop :=
  (∃ i, i < s.numWolves.toNat ∧ p = initialScored draws s i) ∨
    ∃ t' i, (t' < t ∧ i < s.numWolves.toNat ∨ t' = t ∧ i < k) ∧ p = movedScored draws s t' i

/-- The leader record `r` is the record as constructed (the zero position of length
`dim` with score `+infinity`) or a pair `(p, objectiveFunction p)` for a position `p`
scored so far. -/
def recordConsistent (draws : Nat → ℚ) (s : GrayWolfOptimizer) (t k : Nat)
    (r : List Dbl × Dbl) : Prop :=
  r = (List.replicate s.dim.toNat (Dbl.fin 0), Dbl.posInf) ∨
    ∃ p, r = (p, objectiveFunction p) ∧ scoredSoFar draws s t k p

/-- The leader record `r` is the record as constructed or a pair
`(p, objectiveFunction p)` for the position `p` scored for one of the first `k` wolves
of `initializeWolves`. -/
def recordConsistentInit (draws : Nat → ℚ) (s : GrayWolfOptimizer) (k : Nat)
    (r : List Dbl × Dbl) : Prop :=
  r = (List.replicate s.dim.toNat (Dbl.fin 0), Dbl.posInf) ∨
    ∃ i, i < k ∧ r = (initialScored draws s i, objectiveFunction (initialScored draws s i))

end GrayWolfOptimizer

namespace Dbl

/-- The index of the leading binary digit of `n`, found by halving at most `fuel` times. -/
def log2Fuel : Nat → Nat → Nat
  | 0, _ => 0
  | fuel + 1, n => if n < 2 then 0 else log2Fuel fuel (n / 2) + 1

/-- The index of the leading binary digit of `n > 0`: the `e` with `2 ^ e <= n < 2 ^ (e + 1)`. -/
def log2 (n : Nat) : Nat := log2Fuel n n

/-- The binary exponent of a rational `q > 0`: the `e` with `2 ^ e <= q < 2 ^ (e + 1)`.
The difference `k` of the leading digit positions of numerator and denominator is `e`
or `e + 1`. -/
def exponent (q : ℚ) : Int :=
  let k : Int := (log2 q.num.natAbs : Int) - (log2 q.den : Int)
  if (2 : ℚ) ^ k ≤ q then k else k - 1

/-- The natural number nearest to `x >= 0`, the even one when `x` is half way between two. -/
def roundHalfEven (x : ℚ) : Nat :=
  let f := (Int.floor x).toNat
  if x - f < 1 / 2 then f else if 1 / 2 < x - f then f + 1 else if f % 2 = 0 then f else f + 1

/-- The binary64 number nearest to a rational `q > 0`, ties to even.  A binary64 number
has 53 significant binary digits and an exponent of at least `-1022`, so near `q` the
binary64 numbers are the multiples of `2 ^ (max e (-1022) - 52)` where `e` is the
exponent of `q`; a result of `2 ^ 1024` or more is `+infinity`, and a `q` of at most
`2 ^ (-1075)` gives `0`. -/
def roundPos (q : ℚ) : Dbl :=
  let u := (2 : ℚ) ^ (max (exponent q) (-1022) - 52)
  let r := (roundHalfEven (q / u) : ℚ) * u
  if r < (2 : ℚ) ^ (1024 : Int) then fin r else posInf

/-- The rounding that IEEE 754 applies to the exact result of an operation on doubles:
to the nearest binary64 number, ties to even, overflow to the infinity of the same sign. -/
def round64 : Dbl → Dbl
  | fin q => if 0 < q then roundPos q else if q < 0 then neg (roundPos (-q)) else fin 0
  | x => x

/-- The rational `q` is a binary64 number. -/
def representable (q : ℚ) : Prop := round64 (fin q) = fin q

instance (q : ℚ) : Decidable (representable q) :=
  inferInstanceAs (Decidable (round64 (fin q) = fin q))

end Dbl

/-- An arithmetic on doubles: the four operations `+`, `-`, `*`, `/` that the class
applies to values of type `double`. -/
structure Arith where
  add : Dbl → Dbl → Dbl
  sub : Dbl → Dbl → Dbl
  mul : Dbl → Dbl → Dbl
  div : Dbl → Dbl → Dbl

namespace Arith

/-- The arithmetic without rounding: the operations of `Dbl`, exact on finite operands. -/
def rational : Arith :=
  { add := Dbl.add, sub := Dbl.sub, mul := Dbl.mul, div := Dbl.div }

/-- The arithmetic of the machine, IEEE 754 binary64 in the default rounding mode: each
operation returns its exact result rounded to the nearest binary64 number. -/
def binary64 : Arith :=
  { add := fun x y => Dbl.round64 (Dbl.add x y)
    sub := fun x y => Dbl.round64 (Dbl.sub x y)
    mul := fun x y => Dbl.round64 (Dbl.mul x y)
    div := fun x y => Dbl.round64 (Dbl.div x y) }

end Arith

namespace GrayWolfOptimizer

/-- The member function `objectiveFunction` in the arithmetic `ar`: `sum += val * val`
for each coordinate, from `sum = 0.0`. -/
def objectiveFunctionIn (ar : Arith) (position : List Dbl) : Dbl :=
  position.foldl (fun sum val => ar.add sum (ar.mul val val)) (Dbl.fin 0)

/-- The body of the outer loop of `initializeWolves` in the arithmetic `ar`. -/
def initializeWolfIn (ar : Arith) (draws : Nat → ℚ) (i : Nat) (s : GrayWolfOptimizer) :
    GrayWolfOptimizer :=
  let s1 := forLoop s.dim.toNat (drawCoordinate draws i) s
  let score := objectiveFunctionIn ar (s1.wolf i)
  updateAlphaBetaDelta s1 (s1.wolf i) score

/-- The member function `initializeWolves` in the arithmetic `ar`. -/
def initializeWolvesIn (ar : Arith) (draws : Nat → ℚ) (s : GrayWolfOptimizer) :
    GrayWolfOptimizer :=
  forLoop s.numWolves.toNat (initializeWolfIn ar draws) s

/-- The proposal `X = leader[j] - A * D` in the arithmetic `ar`, with
`A = 2 * a * r1 - a`, `C = 2 * r2` and `D = |C * leader[j] - wolves[i][j]|`. -/
def proposalIn (ar : Arith) (a r1 r2 leader x : Dbl) : Dbl :=
  let A := ar.sub (ar.mul (ar.mul 2 a) r1) a
  let C := ar.mul 2 r2
  let D := Dbl.abs (ar.sub (ar.mul C leader) x)
  ar.sub leader (ar.mul A D)

/-- The body of the loop over `j` in `optimize` in the arithmetic `ar`: six draws, three
proposals, and the assignment `wolves[i][j] = (X1 + X2 + X3) / 3.0`. -/
def moveCoordinateIn (ar : Arith) (draws : Nat → ℚ) (a : Dbl) (i j : Nat)
    (s : GrayWolfOptimizer) : GrayWolfOptimizer :=
  let d1 := nextDraw draws s
  let d2 := nextDraw draws d1.2
  let X1 := proposalIn ar a d1.1 d2.1 (d2.2.alphaWolf.getD j (Dbl.fin 0))
    ((d2.2.wolf i).getD j (Dbl.fin 0))
  let d3 := nextDraw draws d2.2
  let d4 := nextDraw draws d3.2
  let X2 := proposalIn ar a d3.1 d4.1 (d4.2.betaWolf.getD j (Dbl.fin 0))
    ((d4.2.wolf i).getD j (Dbl.fin 0))
  let d5 := nextDraw draws d4.2
  let d6 := nextDraw draws d5.2
  let X3 := proposalIn ar a d5.1 d6.1 (d6.2.deltaWolf.getD j (Dbl.fin 0))
    ((d6.2.wolf i).getD j (Dbl.fin 0))
  setWolf d6.2 i j (ar.div (ar.add (ar.add X1 X2) X3) 3)

/-- The body of the loop over `i` in `optimize` in the arithmetic `ar`. -/
def moveWolfIn (ar : Arith) (draws : Nat → ℚ) (a : Dbl) (i : Nat) (s : GrayWolfOptimizer) :
    GrayWolfOptimizer :=
  let s1 := forLoop s.dim.toNat (moveCoordinateIn ar draws a i) s
  let score := objectiveFunctionIn ar (s1.wolf i)
  updateAlphaBetaDelta s1 (s1.wolf i) score

/-- The coefficient `a = 2.0 - iter * (2.0 / maxIter)` in the arithmetic `ar`. -/
def decayIn (ar : Arith) (iter : Nat) (maxIter : Int) : Dbl :=
  ar.sub 2 (ar.mul (Dbl.ofInt iter) (ar.div 2 (Dbl.ofInt maxIter)))

/-- The body of the loop over `iter` in `optimize` in the arithmetic `ar`, up to the
output statement. -/
def iterationIn (ar : Arith) (draws : Nat → ℚ) (iter : Nat) (s : GrayWolfOptimizer) :
    GrayWolfOptimizer :=
  forLoop s.numWolves.toNat (moveWolfIn ar draws (decayIn ar iter s.maxIter)) s

/-- The member function `optimize` in the arithmetic `ar`: the final object and the
lines written to `std::cout`. -/
def optimizeIn (ar : Arith) (draws : Nat → ℚ) (s : GrayWolfOptimizer) :
    GrayWolfOptimizer × List (Nat × Dbl) :=
  forLoop s.maxIter.toNat
    (fun iter acc =>
      let s1 := iterationIn ar draws iter acc.1
      (s1, acc.2 ++ [(iter, s1.alphaScore)]))
    (initializeWolvesIn ar draws s, [])

/-- The object after `t` complete iterations of `optimize` and the first `k` wolves of
the next one, in the arithmetic `ar`. -/
def midRunIn (ar : Arith) (draws : Nat → ℚ) (s : GrayWolfOptimizer) (t k : Nat) :
    GrayWolfOptimizer :=
  let cur := forLoop t (iterationIn ar draws) (initializeWolvesIn ar draws s)
  forLoop k (moveWolfIn ar draws (decayIn ar t cur.maxIter)) cur

/-- One call `updateAlphaBetaDelta(position, objectiveFunction(position))` in the
arithmetic `ar`, as the pair of its two arguments. -/
def offerIn (ar : Arith) (position : List Dbl) : List Dbl × Dbl :=
  (position, objectiveFunctionIn ar position)

/-- The position of wolf `i` at the moment `initializeWolves` scores it. -/
def initialScoredIn (ar : Arith) (draws : Nat → ℚ) (s : GrayWolfOptimizer) (i : Nat) :
    List Dbl :=
  (forLoop (i + 1) (initializeWolfIn ar draws) s).wolf i

/-- The position of wolf `i` at the moment iteration `t` of `optimize` scores it. -/
def movedScoredIn (ar : Arith) (draws : Nat → ℚ) (s : GrayWolfOptimizer) (t i : Nat) :
    List Dbl :=
  (midRunIn ar draws s t (i + 1)).wolf i

/-- The calls of `updateAlphaBetaDelta` made for the first `k` wolves of
`initializeWolves`, in order. -/
def initialOffersIn (ar : Arith) (draws : Nat → ℚ) (s : GrayWolfOptimizer) (k : Nat) :
    List (List Dbl × Dbl) :=
  (List.range k).map (fun i => offerIn ar (initialScoredIn ar draws s i))

/-- The calls of `updateAlphaBetaDelta` made for the first `k` wolves of iteration `t`,
in order. -/
def sweepOffersIn (ar : Arith) (draws : Nat → ℚ) (s : GrayWolfOptimizer) (t k : Nat) :
    List (List Dbl × Dbl) :=
  (List.range k).map (fun i => offerIn ar (movedScoredIn ar draws s t i))

/-- The calls of `updateAlphaBetaDelta` made by `initializeWolves` and by the first `t`
iterations, in order. -/
def pastOffersIn (ar : Arith) (draws : Nat → ℚ) (s : GrayWolfOptimizer) :
    Nat → List (List Dbl × Dbl)
  | 0 => initialOffersIn ar draws s s.numWolves.toNat
  | t + 1 => pastOffersIn ar draws s t ++ sweepOffersIn ar draws s t s.numWolves.toNat

/-- Every call of `updateAlphaBetaDelta` made up to the point where `t` iterations are
complete and `k` wolves of the next one have been handled, in order. -/
def runOffersIn (ar : Arith) (draws : Nat → ℚ) (s : GrayWolfOptimizer) (t k : Nat) :
    List (List Dbl × Dbl) :=
  pastOffersIn ar draws s t ++ sweepOffersIn ar draws s t k

end GrayWolfOptimizer

namespace Dbl

/-- A possible non-negative result of a rounding: `+infinity`, `0`, or a finite value of
at least `2 ^ (-1074)`, the least positive binary64 number. -/
def grained (x : Dbl) : Prop :=
  x = posInf ∨ ∃ r, x = fin r ∧ (r = 0 ∨ (2 : ℚ) ^ (-1074 : ℤ) ≤ r)

end Dbl

/-- The binary64 number `0x1.cb30f83354ecbp-540`, about `4.98e-163`. -/
def tinyCoordinate : ℚ := 0x1cb30f83354ecb / 2 ^ 592

/-- The object constructed by `GrayWolfOptimizer(1, 1, 0, -0x1p700, 0x1p700)`: one wolf in
one dimension, no iteration, the bounds `-2 ^ 700` and `2 ^ 700`. -/
def overflowPack : GrayWolfOptimizer :=
  { numWolves := 1
    dim := 1
    maxIter := 0
    wolves := [[Dbl.fin 0]]
    alphaWolf := [Dbl.fin 0]
    alphaScore := Dbl.posInf
    betaWolf := [Dbl.fin 0]
    betaScore := Dbl.posInf
    deltaWolf := [Dbl.fin 0]
    deltaScore := Dbl.posInf
    lowerBound := Dbl.fin (-2 ^ 700)
    upperBound := Dbl.fin (2 ^ 700)
    rng := 0 }

/-- A stream of draws whose every value is `2 ^ 600`. -/
def overflowDraws : Nat → ℚ := fun _ => 2 ^ 600

/-- The object constructed by `GrayWolfOptimizer(1, 1, 2, 0.0, 0x1.8p1023)`: one wolf in
one dimension, two iterations, the bounds `0` and `1.5 * 2 ^ 1023`. -/
def nanPack : GrayWolfOptimizer :=
  { numWolves := 1
    dim := 1
    maxIter := 2
    wolves := [[Dbl.fin 0]]
    alphaWolf := [Dbl.fin 0]
    alphaScore := Dbl.posInf
    betaWolf := [Dbl.fin 0]
    betaScore := Dbl.posInf
    deltaWolf := [Dbl.fin 0]
    deltaScore := Dbl.posInf
    lowerBound := Dbl.fin 0
    upperBound := Dbl.fin (3 * 2 ^ 1022)
    rng := 0 }

/-- A stream of draws: `2 ^ 1023` for the initial position, `0` for the six draws of
iteration `0`, then `1/2` throughout. -/
def nanDraws : Nat → ℚ := fun n => if n = 0 then 2 ^ 1023 else if n ≤ 6 then 0 else 1 / 2

open GrayWolfOptimizer

/-! Rational arithmetic on literals is evaluated by unfolding. -/

unseal Rat.add Rat.mul Rat.sub Rat.inv

@[simp] theorem Dbl.fin_add_fin (a b : ℚ) : Dbl.fin a + Dbl.fin b = Dbl.fin (a + b) := rfl

@[simp] theorem Dbl.fin_mul_fin (a b : ℚ) : Dbl.fin a * Dbl.fin b = Dbl.fin (a * b) := rfl

@[simp] theorem Dbl.fin_sub_fin (a b : ℚ) : Dbl.fin a - Dbl.fin b = Dbl.fin (a - b) := by
  show Dbl.add (Dbl.fin a) (Dbl.neg (Dbl.fin b)) = _
  simp [Dbl.add, Dbl.neg, sub_eq_add_neg]

@[simp] theorem Dbl.fin_le_fin (a b : ℚ) : (Dbl.fin a ≤ Dbl.fin b) ↔ a ≤ b := by
  show Dbl.ble _ _ = true ↔ _
  simp [Dbl.ble]

@[simp] theorem Dbl.ofNat_eq_fin (n : Nat) : (OfNat.ofNat n : Dbl) = Dbl.fin (n : ℚ) := rfl


/-! ## Comparisons of doubles -/

theorem Dbl.lt_iff (x y : Dbl) : x < y ↔ Dbl.blt x y = true := Iff.rfl

theorem Dbl.le_iff (x y : Dbl) : x ≤ y ↔ Dbl.ble x y = true := Iff.rfl

theorem Dbl.le_of_lt {x y : Dbl} (h : x < y) : x ≤ y := by
  cases x <;> cases y <;> simp_all [Dbl.lt_iff, Dbl.le_iff, Dbl.blt, Dbl.ble]
  exact h.le

theorem Dbl.lt_of_lt_of_le {x y z : Dbl} (h : x < y) (h2 : y ≤ z) : x < z := by
  cases x <;> cases y <;> cases z <;> simp_all [Dbl.lt_iff, Dbl.le_iff, Dbl.blt, Dbl.ble]
  exact h.trans_le h2

theorem Dbl.le_trans {x y z : Dbl} (h : x ≤ y) (h2 : y ≤ z) : x ≤ z := by
  cases x <;> cases y <;> cases z <;> simp_all [Dbl.le_iff, Dbl.ble]
  exact h.trans h2

/-- A failed `x < y` between two doubles that are not NaN gives `y <= x`. -/
theorem Dbl.le_of_not_lt {x y : Dbl} (h : ¬ x < y) (hx : x ≤ x) (hy : y ≤ y) : y ≤ x := by
  cases x <;> cases y <;> simp_all [Dbl.lt_iff, Dbl.le_iff, Dbl.blt, Dbl.ble]

theorem Dbl.le_refl_of_lt_left {x y : Dbl} (h : x < y) : x ≤ x := by
  cases x <;> cases y <;> simp_all [Dbl.lt_iff, Dbl.le_iff, Dbl.blt, Dbl.ble]

theorem Dbl.le_refl_of_le_left {x y : Dbl} (h : x ≤ y) : x ≤ x := by
  cases x <;> cases y <;> simp_all [Dbl.le_iff, Dbl.ble]

theorem Dbl.le_refl_of_le_right {x y : Dbl} (h : x ≤ y) : y ≤ y := by
  cases x <;> cases y <;> simp_all [Dbl.le_iff, Dbl.ble]

/-! ## Loops -/

theorem forLoop_zero {σ : Type} (body : Nat → σ → σ) (s : σ) : forLoop 0 body s = s := by
  simp [forLoop]

theorem forLoop_succ {σ : Type} (n : Nat) (body : Nat → σ → σ) (s : σ) :
    forLoop (n + 1) body s = body n (forLoop n body s) := by
  simp [forLoop, List.range_succ]

theorem forLoop_invariant {σ : Type} (P : σ → Prop) (body : Nat → σ → σ)
    (step : ∀ i s, P s → P (body i s)) (n : Nat) (s : σ) (h : P s) : P (forLoop n body s) := by
  induction n with
  | zero => simpa [forLoop_zero] using h
  | succ n ih => rw [forLoop_succ]; exact step n _ ih

theorem forLoop_preserved {σ α : Type} (f : σ → α) (body : Nat → σ → σ)
    (step : ∀ i s, f (body i s) = f s) (n : Nat) (s : σ) : f (forLoop n body s) = f s :=
  forLoop_invariant (fun t => f t = f s) body (fun i t h => (step i t).trans h) n s rfl

/-! ## What the coordinate loops leave alone -/

theorem drawCoordinate_leaders (draws : Nat → ℚ) (i j : Nat) (s : GrayWolfOptimizer) :
    (drawCoordinate draws i j s).leaders = s.leaders := rfl

theorem drawCoordinate_hyperparameters (draws : Nat → ℚ) (i j : Nat) (s : GrayWolfOptimizer) :
    (drawCoordinate draws i j s).hyperparameters = s.hyperparameters := rfl

theorem setWolf_leaders (s : GrayWolfOptimizer) (i j : Nat) (v : Dbl) :
    (setWolf s i j v).leaders = s.leaders := rfl

theorem setWolf_hyperparameters (s : GrayWolfOptimizer) (i j : Nat) (v : Dbl) :
    (setWolf s i j v).hyperparameters = s.hyperparameters := rfl

theorem nextDraw_leaders (draws : Nat → ℚ) (s : GrayWolfOptimizer) :
    (nextDraw draws s).2.leaders = s.leaders := rfl

theorem nextDraw_hyperparameters (draws : Nat → ℚ) (s : GrayWolfOptimizer) :
    (nextDraw draws s).2.hyperparameters = s.hyperparameters := rfl

theorem moveCoordinate_leaders (draws : Nat → ℚ) (a : Dbl) (i j : Nat) (s : GrayWolfOptimizer) :
    (moveCoordinate draws a i j s).leaders = s.leaders := by
  unfold moveCoordinate
  simp only [setWolf_leaders, nextDraw_leaders]

theorem moveCoordinate_hyperparameters (draws : Nat → ℚ) (a : Dbl) (i j : Nat)
    (s : GrayWolfOptimizer) :
    (moveCoordinate draws a i j s).hyperparameters = s.hyperparameters := by
  unfold moveCoordinate
  simp only [setWolf_hyperparameters, nextDraw_hyperparameters]

theorem updateAlphaBetaDelta_hyperparameters (s : GrayWolfOptimizer) (position : List Dbl)
    (score : Dbl) : (updateAlphaBetaDelta s position score).hyperparameters = s.hyperparameters := by
  unfold updateAlphaBetaDelta
  split_ifs <;> rfl

theorem updateAlphaBetaDelta_wolves (s : GrayWolfOptimizer) (position : List Dbl)
    (score : Dbl) : (updateAlphaBetaDelta s position score).wolves = s.wolves := by
  unfold updateAlphaBetaDelta
  split_ifs <;> rfl

theorem updateAlphaBetaDelta_rng (s : GrayWolfOptimizer) (position : List Dbl)
    (score : Dbl) : (updateAlphaBetaDelta s position score).rng = s.rng := by
  unfold updateAlphaBetaDelta
  split_ifs <;> rfl

theorem leadersOrdered_of_leaders {s t : GrayWolfOptimizer} (h : t.leaders = s.leaders)
    (hs : leadersOrdered s) : leadersOrdered t := by
  simp only [leaders, alphaRecord, betaRecord, deltaRecord, Prod.mk.injEq] at h
  obtain ⟨⟨-, ha⟩, ⟨-, hb⟩, -, hd⟩ := h
  simpa [leadersOrdered, ha, hb, hd] using hs

/-! ## The leader ordering -/

theorem updateAlphaBetaDelta_ordered (s : GrayWolfOptimizer) (position : List Dbl) (score : Dbl)
    (h : leadersOrdered s) : leadersOrdered (updateAlphaBetaDelta s position score) := by
  obtain ⟨hab, hbd⟩ := h
  unfold updateAlphaBetaDelta
  split_ifs with h1 h2 h3
  · exact ⟨Dbl.le_of_lt (Dbl.lt_of_lt_of_le h1 hab), hbd⟩
  · exact ⟨Dbl.le_of_not_lt h1 (Dbl.le_refl_of_lt_left h2) (Dbl.le_refl_of_le_left hab),
      Dbl.le_of_lt (Dbl.lt_of_lt_of_le h2 hbd)⟩
  · exact ⟨hab, Dbl.le_of_not_lt h2 (Dbl.le_refl_of_lt_left h3) (Dbl.le_refl_of_le_right hab)⟩
  · exact ⟨hab, hbd⟩

theorem initializeWolf_ordered (draws : Nat → ℚ) (i : Nat) (s : GrayWolfOptimizer)
    (h : leadersOrdered s) : leadersOrdered (initializeWolf draws i s) := by
  unfold initializeWolf
  apply updateAlphaBetaDelta_ordered
  exact leadersOrdered_of_leaders
    (forLoop_preserved leaders _ (drawCoordinate_leaders draws i) _ s) h

theorem moveWolf_ordered (draws : Nat → ℚ) (a : Dbl) (i : Nat) (s : GrayWolfOptimizer)
    (h : leadersOrdered s) : leadersOrdered (moveWolf draws a i s) := by
  unfold moveWolf
  apply updateAlphaBetaDelta_ordered
  exact leadersOrdered_of_leaders
    (forLoop_preserved leaders _ (moveCoordinate_leaders draws a i) _ s) h

theorem iteration_ordered (draws : Nat → ℚ) (iter : Nat) (s : GrayWolfOptimizer)
    (h : leadersOrdered s) : leadersOrdered (iteration draws iter s) :=
  forLoop_invariant leadersOrdered _ (moveWolf_ordered draws _) _ s h

theorem construct_ordered {numWolves dim maxIter : Int} {lowerBound upperBound : Dbl}
    {s : GrayWolfOptimizer} (h : construct numWolves dim maxIter lowerBound upperBound = some s) :
    leadersOrdered s := by
  unfold construct at h
  split_ifs at h
  simp only [Option.some.injEq] at h
  subst h
  exact ⟨rfl, rfl⟩

/-- The first component of `optimize` is the object after `maxIter` iterations. -/
theorem optimize_fst (draws : Nat → ℚ) (s : GrayWolfOptimizer) :
    (optimize draws s).1 = forLoop s.maxIter.toNat (iteration draws) (initializeWolves draws s) := by
  unfold optimize
  generalize s.maxIter.toNat = n
  induction n with
  | zero => simp [forLoop_zero]
  | succ n ih => simp only [forLoop_succ, ih]

/-! ## The best score never increases -/

theorem alphaScore_of_leaders {s t : GrayWolfOptimizer} (h : t.leaders = s.leaders) :
    t.alphaScore = s.alphaScore := by
  simp only [leaders, alphaRecord, betaRecord, deltaRecord, Prod.mk.injEq] at h
  exact h.1.2

theorem updateAlphaBetaDelta_alphaScore_cases (s : GrayWolfOptimizer) (position : List Dbl)
    (score : Dbl) :
    (updateAlphaBetaDelta s position score).alphaScore = s.alphaScore ∨
      (updateAlphaBetaDelta s position score).alphaScore < s.alphaScore := by
  unfold updateAlphaBetaDelta
  split_ifs with h1 h2 h3
  · exact Or.inr h1
  · exact Or.inl rfl
  · exact Or.inl rfl
  · exact Or.inl rfl

theorem updateAlphaBetaDelta_alphaScore_le (s : GrayWolfOptimizer) (position : List Dbl)
    (score : Dbl) (h : s.alphaScore ≤ s.alphaScore) :
    (updateAlphaBetaDelta s position score).alphaScore ≤ s.alphaScore := by
  rcases updateAlphaBetaDelta_alphaScore_cases s position score with h1 | h1
  · rw [h1]; exact h
  · exact Dbl.le_of_lt h1

theorem moveWolf_alphaScore_le (draws : Nat → ℚ) (a : Dbl) (i : Nat) (s : GrayWolfOptimizer)
    (h : s.alphaScore ≤ s.alphaScore) : (moveWolf draws a i s).alphaScore ≤ s.alphaScore := by
  have e : (forLoop s.dim.toNat (moveCoordinate draws a i) s).alphaScore = s.alphaScore :=
    alphaScore_of_leaders (forLoop_preserved leaders _ (moveCoordinate_leaders draws a i) _ s)
  unfold moveWolf
  have := updateAlphaBetaDelta_alphaScore_le (forLoop s.dim.toNat (moveCoordinate draws a i) s)
    ((forLoop s.dim.toNat (moveCoordinate draws a i) s).wolf i)
    (objectiveFunction ((forLoop s.dim.toNat (moveCoordinate draws a i) s).wolf i))
    (by rw [e]; exact h)
  rw [e] at this
  exact this

theorem iteration_alphaScore_le (draws : Nat → ℚ) (iter : Nat) (s : GrayWolfOptimizer)
    (h : s.alphaScore ≤ s.alphaScore) : (iteration draws iter s).alphaScore ≤ s.alphaScore := by
  unfold iteration
  exact forLoop_invariant (fun t => t.alphaScore ≤ s.alphaScore) _
    (fun i t ht => Dbl.le_trans (moveWolf_alphaScore_le draws _ i t (Dbl.le_refl_of_le_left ht)) ht)
    _ s h

theorem iterations_alphaScore_le (draws : Nat → ℚ) (s : GrayWolfOptimizer)
    (h : s.alphaScore ≤ s.alphaScore) (m n : Nat) (hmn : m ≤ n) :
    (forLoop n (iteration draws) s).alphaScore ≤ (forLoop m (iteration draws) s).alphaScore := by
  have base : ∀ k, (forLoop k (iteration draws) s).alphaScore ≤ s.alphaScore := fun k =>
    forLoop_invariant (fun t => t.alphaScore ≤ s.alphaScore) _
      (fun i t ht => Dbl.le_trans (iteration_alphaScore_le draws i t (Dbl.le_refl_of_le_left ht)) ht)
      k s h
  induction n with
  | zero =>
    obtain rfl : m = 0 := Nat.le_zero.mp hmn
    simpa [forLoop_zero] using h
  | succ n ih =>
    rcases Nat.lt_or_ge m (n + 1) with hlt | hge
    · rw [forLoop_succ]
      exact Dbl.le_trans
        (iteration_alphaScore_le draws n _ (Dbl.le_refl_of_le_left (base n)))
        (ih (Nat.lt_succ_iff.mp hlt))
    · obtain rfl : m = n + 1 := Nat.le_antisymm hmn hge
      exact Dbl.le_refl_of_le_left (base (n + 1))

/-- The second component of `optimize`: one line per iteration, carrying the iteration
index and the best score at the end of that iteration. -/
theorem optimize_snd (draws : Nat → ℚ) (s : GrayWolfOptimizer) :
    (optimize draws s).2 = (List.range s.maxIter.toNat).map (fun t =>
      (t, (forLoop (t + 1) (iteration draws) (initializeWolves draws s)).alphaScore)) := by
  have key : ∀ n, forLoop n
      (fun iter (acc : GrayWolfOptimizer × List (Nat × Dbl)) =>
        (iteration draws iter acc.1, acc.2 ++ [(iter, (iteration draws iter acc.1).alphaScore)]))
      (initializeWolves draws s, []) =
      (forLoop n (iteration draws) (initializeWolves draws s),
        (List.range n).map (fun t =>
          (t, (forLoop (t + 1) (iteration draws) (initializeWolves draws s)).alphaScore))) := by
    intro n
    induction n with
    | zero => simp [forLoop_zero]
    | succ n ih => rw [forLoop_succ, ih]; simp [forLoop_succ, List.range_succ]
  unfold optimize
  exact congrArg Prod.snd (key _)

theorem initializeWolves_ordered (draws : Nat → ℚ) (s : GrayWolfOptimizer)
    (h : leadersOrdered s) : leadersOrdered (initializeWolves draws s) :=
  forLoop_invariant leadersOrdered _ (initializeWolf_ordered draws) _ s h

theorem midRun_ordered (draws : Nat → ℚ) (s : GrayWolfOptimizer) (h : leadersOrdered s)
    (t k : Nat) : leadersOrdered (midRun draws s t k) := by
  unfold midRun
  exact forLoop_invariant leadersOrdered _ (moveWolf_ordered draws _) _ _
    (forLoop_invariant leadersOrdered _ (iteration_ordered draws) _ _
      (initializeWolves_ordered draws s h))

/-! ## The claims -/

/-- C1 (leader ordering invariant): an object as constructed satisfies
`alphaScore <= betaScore <= deltaScore`; so does the object after every wolf of
`initializeWolves`, after `initializeWolves`, after every re-ranking step of
`optimize` (any number of complete iterations followed by any number of wolves of the
next one) and at the end of `optimize`; and every call of `updateAlphaBetaDelta`, for
every position and every score (NaN and the infinities included), preserves it. -/
theorem leader_ordering_invariant (draws : Nat → ℚ) (numWolves dim maxIter : Int)
    (lowerBound upperBound : Dbl) (s : GrayWolfOptimizer)
    (h : construct numWolves dim maxIter lowerBound upperBound = some s) :
    leadersOrdered s ∧
    (∀ k, leadersOrdered (forLoop k (initializeWolf draws) s)) ∧
    leadersOrdered (initializeWolves draws s) ∧
    (∀ (u : GrayWolfOptimizer) (position : List Dbl) (score : Dbl),
      leadersOrdered u → leadersOrdered (updateAlphaBetaDelta u position score)) ∧
    (∀ t k, leadersOrdered (midRun draws s t k)) ∧
    leadersOrdered (optimize draws s).1 := by
  have h0 := construct_ordered h
  refine ⟨h0, ?_, initializeWolves_ordered draws s h0, updateAlphaBetaDelta_ordered,
    midRun_ordered draws s h0, ?_⟩
  · intro k
    exact forLoop_invariant leadersOrdered _ (initializeWolf_ordered draws) k s h0
  · rw [optimize_fst]
    exact forLoop_invariant leadersOrdered _ (iteration_ordered draws) _ _
      (initializeWolves_ordered draws s h0)

theorem leader_ordering_invariant_witness :
    construct 2 1 2 (-10) 10 = some samplePack ∧
      leadersOrdered (optimize sampleDraws samplePack).1 ∧
      (optimize sampleDraws samplePack).1.alphaScore = Dbl.fin (4 / 6561) :=
  ⟨by decide,
    (leader_ordering_invariant sampleDraws 2 1 2 (-10) 10 samplePack (by decide)).2.2.2.2.2,
    by decide⟩

/-- C2 (monotonic improvement): every call of `updateAlphaBetaDelta` leaves `alphaScore`
as it was or replaces it by a strictly smaller score; and in every run of `optimize`
from a constructed object, for every stream of draws, the best score after `n`
iterations is at most the best score after `m <= n` iterations, and the scores printed
by the successive iterations are non-increasing. -/
theorem alphaScore_never_increases (draws : Nat → ℚ) (numWolves dim maxIter : Int)
    (lowerBound upperBound : Dbl) (s : GrayWolfOptimizer)
    (h : construct numWolves dim maxIter lowerBound upperBound = some s) :
    (∀ (u : GrayWolfOptimizer) (position : List Dbl) (score : Dbl),
      (updateAlphaBetaDelta u position score).alphaScore = u.alphaScore ∨
        (updateAlphaBetaDelta u position score).alphaScore < u.alphaScore) ∧
    (∀ m n, m ≤ n →
      (forLoop n (iteration draws) (initializeWolves draws s)).alphaScore ≤
        (forLoop m (iteration draws) (initializeWolves draws s)).alphaScore) ∧
    List.Pairwise (fun x y => y.2 ≤ x.2) (optimize draws s).2 := by
  have h0 : (initializeWolves draws s).alphaScore ≤ (initializeWolves draws s).alphaScore :=
    Dbl.le_refl_of_le_left (initializeWolves_ordered draws s (construct_ordered h)).1
  refine ⟨updateAlphaBetaDelta_alphaScore_cases, iterations_alphaScore_le draws _ h0, ?_⟩
  rw [optimize_snd, List.pairwise_map]
  refine List.Pairwise.imp_of_mem ?_ (List.pairwise_lt_range _)
  intro a b _ _ hab
  exact iterations_alphaScore_le draws _ h0 (a + 1) (b + 1) (by omega)

theorem alphaScore_never_increases_witness :
    construct 2 1 2 (-10) 10 = some samplePack ∧
      (optimize sampleDraws samplePack).2 = [(0, Dbl.fin (4 / 81)), (1, Dbl.fin (4 / 6561))] ∧
      List.Pairwise (fun x y => y.2 ≤ x.2) (optimize sampleDraws samplePack).2 :=
  ⟨by decide, by decide,
    (alphaScore_never_increases sampleDraws 2 1 2 (-10) 10 samplePack (by decide)).2.2⟩

/-- C3, evaluated on the code: from the constructed state the scores `9`, `4`, `1` are
offered in this order (by `initializeWolves` on the draws `3`, `2`, `1`, or by three
direct calls of `updateAlphaBetaDelta`).  Each one is promoted to alpha and overwrites
the previous alpha record, so at the end `alphaScore = 1` while `betaScore` and
`deltaScore` are still `+infinity` with the constructed zero positions: the second- and
third-lowest scores offered, `4` and `9`, are in no leader record. -/
theorem leaders_lose_displaced_alpha :
    construct 3 1 0 (-10) 10 = some descendingPack ∧
    (optimize descendingDraws descendingPack).1.wolves
      = [[Dbl.fin 3], [Dbl.fin 2], [Dbl.fin 1]] ∧
    (optimize descendingDraws descendingPack).1.leaders
      = (([Dbl.fin 1], Dbl.fin 1), ([Dbl.fin 0], Dbl.posInf), ([Dbl.fin 0], Dbl.posInf)) ∧
    (updateAlphaBetaDelta
        (updateAlphaBetaDelta (updateAlphaBetaDelta descendingPack [Dbl.fin 3] (Dbl.fin 9))
          [Dbl.fin 2] (Dbl.fin 4))
        [Dbl.fin 1] (Dbl.fin 1)).leaders
      = (([Dbl.fin 1], Dbl.fin 1), ([Dbl.fin 0], Dbl.posInf), ([Dbl.fin 0], Dbl.posInf)) := by
  refine ⟨by decide, by decide, by decide, by decide⟩

/-- C4 (frame of the ranking step): a call of `updateAlphaBetaDelta` leaves the
population, the hyperparameters and the generator as they were; at least two of the
three leader records (position and score together) are as before the call, and a
record that is not as before is exactly the offered `(position, score)`; when
`score < alphaScore` the alpha record becomes `(position, score)` and the beta and
delta records (scores and positions) are exactly as before: nothing is cascaded. -/
theorem updateAlphaBetaDelta_changes_one_record (s : GrayWolfOptimizer) (position : List Dbl)
    (score : Dbl) :
    (updateAlphaBetaDelta s position score).wolves = s.wolves ∧
    (updateAlphaBetaDelta s position score).hyperparameters = s.hyperparameters ∧
    (updateAlphaBetaDelta s position score).rng = s.rng ∧
    (((updateAlphaBetaDelta s position score).betaRecord = s.betaRecord ∧
        (updateAlphaBetaDelta s position score).deltaRecord = s.deltaRecord) ∨
      ((updateAlphaBetaDelta s position score).alphaRecord = s.alphaRecord ∧
        (updateAlphaBetaDelta s position score).deltaRecord = s.deltaRecord) ∨
      ((updateAlphaBetaDelta s position score).alphaRecord = s.alphaRecord ∧
        (updateAlphaBetaDelta s position score).betaRecord = s.betaRecord)) ∧
    ((updateAlphaBetaDelta s position score).alphaRecord = s.alphaRecord ∨
      (updateAlphaBetaDelta s position score).alphaRecord = (position, score)) ∧
    ((updateAlphaBetaDelta s position score).betaRecord = s.betaRecord ∨
      (updateAlphaBetaDelta s position score).betaRecord = (position, score)) ∧
    ((updateAlphaBetaDelta s position score).deltaRecord = s.deltaRecord ∨
      (updateAlphaBetaDelta s position score).deltaRecord = (position, score)) ∧
    (score < s.alphaScore →
      (updateAlphaBetaDelta s position score).alphaRecord = (position, score) ∧
      (updateAlphaBetaDelta s position score).betaScore = s.betaScore ∧
      (updateAlphaBetaDelta s position score).betaWolf = s.betaWolf ∧
      (updateAlphaBetaDelta s position score).deltaScore = s.deltaScore ∧
      (updateAlphaBetaDelta s position score).deltaWolf = s.deltaWolf) := by
  refine ⟨updateAlphaBetaDelta_wolves s position score,
    updateAlphaBetaDelta_hyperparameters s position score,
    updateAlphaBetaDelta_rng s position score, ?_, ?_, ?_, ?_, ?_⟩
  · unfold updateAlphaBetaDelta
    split_ifs
    · exact Or.inl ⟨rfl, rfl⟩
    · exact Or.inr (Or.inl ⟨rfl, rfl⟩)
    · exact Or.inr (Or.inr ⟨rfl, rfl⟩)
    · exact Or.inl ⟨rfl, rfl⟩
  · unfold updateAlphaBetaDelta
    split_ifs
    · exact Or.inr rfl
    · exact Or.inl rfl
    · exact Or.inl rfl
    · exact Or.inl rfl
  · unfold updateAlphaBetaDelta
    split_ifs
    · exact Or.inl rfl
    · exact Or.inr rfl
    · exact Or.inl rfl
    · exact Or.inl rfl
  · unfold updateAlphaBetaDelta
    split_ifs
    · exact Or.inl rfl
    · exact Or.inl rfl
    · exact Or.inr rfl
    · exact Or.inl rfl
  · intro h
    unfold updateAlphaBetaDelta
    rw [if_pos h]
    exact ⟨rfl, rfl, rfl, rfl, rfl⟩

theorem updateAlphaBetaDelta_changes_one_record_witness :
    Dbl.fin 4 < samplePack.alphaScore ∧
      (updateAlphaBetaDelta samplePack [Dbl.fin 2] (Dbl.fin 4)).alphaRecord
        = ([Dbl.fin 2], Dbl.fin 4) ∧
      (updateAlphaBetaDelta samplePack [Dbl.fin 2] (Dbl.fin 4)).betaScore = Dbl.posInf :=
  ⟨by decide,
    ((updateAlphaBetaDelta_changes_one_record samplePack [Dbl.fin 2] (Dbl.fin 4)).2.2.2.2.2.2.2
      (by decide)).1,
    by decide⟩

theorem construct_eq {numWolves dim maxIter : Int} {lowerBound upperBound : Dbl}
    {s : GrayWolfOptimizer} (h : construct numWolves dim maxIter lowerBound upperBound = some s) :
    0 ≤ numWolves ∧ 0 ≤ dim ∧
    s.hyperparameters = (numWolves, dim, maxIter, lowerBound, upperBound) ∧
    s.wolves = List.replicate numWolves.toNat (List.replicate dim.toNat (Dbl.fin 0)) ∧
    s.leaders = ((List.replicate dim.toNat (Dbl.fin 0), Dbl.posInf),
      (List.replicate dim.toNat (Dbl.fin 0), Dbl.posInf),
      (List.replicate dim.toNat (Dbl.fin 0), Dbl.posInf)) ∧
    s.rng = 0 := by
  unfold construct at h
  split_ifs at h with hg
  simp only [Option.some.injEq] at h
  subst h
  exact ⟨by omega, by omega, rfl, rfl, rfl, rfl⟩

theorem construct_of_nonneg (numWolves dim maxIter : Int) (lowerBound upperBound : Dbl)
    (hn : 0 ≤ numWolves) (hd : 0 ≤ dim) :
    ∃ s, construct numWolves dim maxIter lowerBound upperBound = some s := by
  have hg : ¬ (numWolves < 0 ∨ dim < 0) := by omega
  rw [construct, if_neg hg]
  exact ⟨_, rfl⟩

theorem objectiveFunction_foldl_fin (qs : List ℚ) (a : ℚ) :
    (qs.map Dbl.fin).foldl (fun sum val => sum + val * val) (Dbl.fin a)
      = Dbl.fin (a + (qs.map (fun q => q * q)).sum) := by
  induction qs generalizing a with
  | nil => simp
  | cons q qs ih => simp [ih, add_assoc]

theorem objectiveFunction_fin (qs : List ℚ) :
    objectiveFunction (qs.map Dbl.fin) = Dbl.fin ((qs.map (fun q => q * q)).sum) := by
  unfold objectiveFunction
  rw [objectiveFunction_foldl_fin, zero_add]

theorem Dbl.add_nan (x : Dbl) : x + Dbl.nan = Dbl.nan := by
  cases x <;> rfl

theorem Dbl.nan_add (x : Dbl) : Dbl.nan + x = Dbl.nan := by
  cases x <;> rfl

/-! ## The loops over the coordinates of one wolf -/

theorem rowLoop_succ (val : Nat → Dbl → Dbl) (k : Nat) (row : List Dbl) :
    rowLoop val (k + 1) row
      = (rowLoop val k row).set k (val k ((rowLoop val k row).getD k (Dbl.fin 0))) := by
  unfold rowLoop
  rw [forLoop_succ]

theorem rowLoop_length (val : Nat → Dbl → Dbl) (k : Nat) (row : List Dbl) :
    (rowLoop val k row).length = row.length := by
  induction k with
  | zero => simp [rowLoop, forLoop_zero]
  | succ k ih => rw [rowLoop_succ, List.length_set, ih]

theorem rowLoop_getElem? (val : Nat → Dbl → Dbl) (k : Nat) (row : List Dbl) (j : Nat) :
    (rowLoop val k row)[j]? = if j < k then row[j]?.map (val j) else row[j]? := by
  induction k with
  | zero => simp [rowLoop, forLoop_zero]
  | succ k ih =>
    rw [rowLoop_succ, List.getElem?_set]
    by_cases hkj : k = j
    · subst hkj
      have hk : (rowLoop val k row)[k]? = row[k]? := by rw [ih]; simp
      simp only [if_true, rowLoop_length, List.getD_eq_getElem?_getD, hk, Nat.lt_succ_self]
      by_cases hlen : k < row.length
      · simp [hlen, List.getElem?_eq_getElem]
      · simp [hlen, List.getElem?_eq_none (Nat.le_of_not_lt hlen)]
    · rw [if_neg hkj, ih]
      have : j < k + 1 ↔ j < k := by omega
      simp only [this]

/-- A loop over `j` whose body writes `wolves[i][j]` from the generator position, the
leaders and the old `wolves[i][j]`, and advances the generator by `c`, is the row loop
on row `i`. -/
theorem forLoop_coordinates (i c : Nat)
    (V : GrayWolfOptimizer → Nat → Nat → Dbl → Dbl) (body : Nat → GrayWolfOptimizer → GrayWolfOptimizer)
    (hV : ∀ s t : GrayWolfOptimizer, t.leaders = s.leaders → V t = V s)
    (hbody : ∀ j s, body j s =
      { s with
        wolves := s.wolves.set i ((s.wolf i).set j (V s s.rng j ((s.wolf i).getD j (Dbl.fin 0))))
        rng := s.rng + c })
    (s : GrayWolfOptimizer) (hi : i < s.wolves.length) (k : Nat) :
    forLoop k body s =
      { s with
        wolves := s.wolves.set i (rowLoop (fun j old => V s (s.rng + c * j) j old) k (s.wolf i))
        rng := s.rng + c * k } := by
  induction k with
  | zero =>
    have : s.wolves.set i (s.wolf i) = s.wolves := by
      apply List.ext_getElem?
      intro n
      rw [List.getElem?_set]
      by_cases hn : i = n
      · subst hn
        simp [wolf, hi, List.getElem?_eq_getElem]
      · simp [hn]
    simp [forLoop_zero, rowLoop, this]
  | succ k ih =>
    rw [forLoop_succ, ih, hbody, rowLoop_succ]
    have hw : ∀ R : List Dbl, ({ s with wolves := s.wolves.set i R, rng := s.rng + c * k } :
        GrayWolfOptimizer).wolf i = R := by
      intro R
      simp [wolf, hi]
    have hL : ({ s with
        wolves := s.wolves.set i (rowLoop (fun j old => V s (s.rng + c * j) j old) k (s.wolf i))
        rng := s.rng + c * k } : GrayWolfOptimizer).leaders = s.leaders := rfl
    rw [hw, hV _ _ hL]
    simp only [List.set_set, Nat.mul_succ, Nat.add_assoc]

theorem forLoop_induction {σ : Type} (P : Nat → σ → Prop) (body : Nat → σ → σ) (n : Nat) (s : σ)
    (h0 : P 0 s) (step : ∀ k, k < n → ∀ t, P k t → P (k + 1) (body k t)) :
    P n (forLoop n body s) := by
  have key : ∀ k, k ≤ n → P k (forLoop k body s) := by
    intro k
    induction k with
    | zero => intro _; simpa [forLoop_zero] using h0
    | succ k ih =>
      intro hk
      rw [forLoop_succ]
      exact step k (by omega) _ (ih (by omega))
  exact key n (le_refl n)

theorem drawCoordinate_loop (draws : Nat → ℚ) (i : Nat) (s : GrayWolfOptimizer)
    (hi : i < s.wolves.length) (k : Nat) :
    forLoop k (drawCoordinate draws i) s =
      { s with
        wolves := s.wolves.set i
          (rowLoop (fun j _ => Dbl.fin (draws (s.rng + 1 * j))) k (s.wolf i))
        rng := s.rng + 1 * k } :=
  forLoop_coordinates i 1 (fun _ r _ _ => Dbl.fin (draws r)) (drawCoordinate draws i)
    (fun _ _ _ => rfl) (fun _ _ => rfl) s hi k

theorem rowLoop_draws (draws : Nat → ℚ) (r d : Nat) (row : List Dbl) (h : row.length = d) :
    rowLoop (fun j _ => Dbl.fin (draws (r + 1 * j))) d row
      = (List.range d).map (fun j => Dbl.fin (draws (r + j))) := by
  apply List.ext_getElem?
  intro j
  rw [rowLoop_getElem?, List.getElem?_map]
  by_cases hj : j < d
  · rw [if_pos hj, List.getElem?_eq_getElem (by omega), List.getElem?_range hj]
    simp
  · rw [if_neg hj, List.getElem?_eq_none (by omega), List.getElem?_eq_none (by simp; omega)]
    rfl

theorem initializeWolfIn_eq (ar : Arith) (draws : Nat → ℚ) (k d : Nat) (t : GrayWolfOptimizer)
    (hd : t.dim.toNat = d) (hk : k < t.wolves.length) (hrow : (t.wolf k).length = d) :
    initializeWolfIn ar draws k t =
      updateAlphaBetaDelta
        { t with
          wolves := t.wolves.set k ((List.range d).map (fun j => Dbl.fin (draws (t.rng + j))))
          rng := t.rng + d }
        ((List.range d).map (fun j => Dbl.fin (draws (t.rng + j))))
        (objectiveFunctionIn ar ((List.range d).map (fun j => Dbl.fin (draws (t.rng + j))))) := by
  unfold initializeWolfIn
  rw [hd, drawCoordinate_loop draws k t hk, rowLoop_draws draws t.rng d _ hrow]
  simp [wolf, hk]

theorem Dbl.posInf_le_self : Dbl.posInf ≤ Dbl.posInf := rfl

theorem list_set_append_replicate {α : Type} (A : List α) (z x : α) (m : Nat) (hm : 0 < m) :
    (A ++ List.replicate m z).set A.length x = (A ++ [x]) ++ List.replicate (m - 1) z := by
  obtain ⟨m, rfl⟩ : ∃ m', m = m' + 1 := ⟨m - 1, by omega⟩
  simp [List.replicate_succ, List.set_append]

theorem list_getElem?_append_replicate {α : Type} (A : List α) (z : α) (m : Nat) (hm : 0 < m) :
    (A ++ List.replicate m z)[A.length]? = some z := by
  obtain ⟨m, rfl⟩ : ∃ m', m = m' + 1 := ⟨m - 1, by omega⟩
  rw [List.getElem?_append_right (le_refl _)]
  simp [List.replicate_succ]

theorem updateAlphaBetaDelta_alphaRecord (s : GrayWolfOptimizer) (position : List Dbl)
    (score : Dbl) :
    (score < s.alphaScore ∧
        (updateAlphaBetaDelta s position score).alphaRecord = (position, score)) ∨
      (¬ score < s.alphaScore ∧
        (updateAlphaBetaDelta s position score).alphaRecord = s.alphaRecord) := by
  unfold updateAlphaBetaDelta
  split_ifs with h1 h2 h3
  · exact Or.inl ⟨h1, rfl⟩
  · exact Or.inr ⟨h1, rfl⟩
  · exact Or.inr ⟨h1, rfl⟩
  · exact Or.inr ⟨h1, rfl⟩

/-- What the first `k` wolves of `initializeWolves` do to an object with a zero
population of `n` rows of length `d` and a fresh generator, in any arithmetic: the
first `k` rows hold the draws, row `i` the draws `i * d, ..., i * d + d - 1`. -/
theorem initPrefixIn_spec (ar : Arith) (draws : Nat → ℚ) (s : GrayWolfOptimizer) (n d : Nat)
    (hd : s.dim.toNat = d)
    (hw : s.wolves = List.replicate n (List.replicate d (Dbl.fin 0)))
    (hr : s.rng = 0) (k : Nat) (hk : k ≤ n) :
    (forLoop k (initializeWolfIn ar draws) s).hyperparameters = s.hyperparameters ∧
    (forLoop k (initializeWolfIn ar draws) s).rng = k * d ∧
    (forLoop k (initializeWolfIn ar draws) s).wolves
      = (List.range k).map (initialPosition draws d)
        ++ List.replicate (n - k) (List.replicate d (Dbl.fin 0)) := by
  refine forLoop_induction
    (fun j t =>
      t.hyperparameters = s.hyperparameters ∧ t.rng = j * d ∧
      t.wolves = (List.range j).map (initialPosition draws d)
        ++ List.replicate (n - j) (List.replicate d (Dbl.fin 0)))
    (initializeWolfIn ar draws) k s ?h0 ?step
  case h0 => exact ⟨rfl, by simp [hr], by simp [hw]⟩
  case step =>
    rintro j hj t ⟨hh, hrng, hwol⟩
    have hdim : t.dim.toNat = d := by
      have : t.dim = s.dim := congrArg (fun h => h.2.1) hh
      rw [this, hd]
    have hlen : j < t.wolves.length := by
      rw [hwol]
      simp only [List.length_append, List.length_map, List.length_range, List.length_replicate]
      omega
    have hlj : ((List.range j).map (initialPosition draws d)).length = j := by simp
    have hrow : (t.wolf j).length = d := by
      have e := list_getElem?_append_replicate ((List.range j).map (initialPosition draws d))
        (List.replicate d (Dbl.fin 0)) (n - j) (by omega)
      rw [hlj] at e
      unfold wolf
      rw [List.getD_eq_getElem?_getD, hwol, e]
      simp
    have hpos : (List.range d).map (fun c => Dbl.fin (draws (t.rng + c)))
        = initialPosition draws d j := by
      rw [hrng]; rfl
    rw [initializeWolfIn_eq ar draws j d t hdim hlen hrow, hpos]
    refine ⟨?_, ?_, ?_⟩
    · rw [updateAlphaBetaDelta_hyperparameters]; exact hh
    · rw [updateAlphaBetaDelta_rng]
      show t.rng + d = (j + 1) * d
      rw [hrng]; ring
    · rw [updateAlphaBetaDelta_wolves]
      show t.wolves.set j (initialPosition draws d j) = _
      have e := list_set_append_replicate ((List.range j).map (initialPosition draws d))
        (List.replicate d (Dbl.fin 0)) (initialPosition draws d j) (n - j) (by omega)
      rw [hlj] at e
      rw [hwol, e, List.range_succ, List.map_append]
      simp only [List.map_cons, List.map_nil]
      congr 2

/-- What `initializeWolves` does to an object with a zero population of `n` rows of
length `d` and a fresh generator. -/
theorem initializeWolves_spec (draws : Nat → ℚ) (s : GrayWolfOptimizer) (n d : Nat)
    (hn : s.numWolves.toNat = n) (hd : s.dim.toNat = d)
    (hw : s.wolves = List.replicate n (List.replicate d (Dbl.fin 0)))
    (hr : s.rng = 0) :
    (initializeWolves draws s).hyperparameters = s.hyperparameters ∧
    (initializeWolves draws s).rng = n * d ∧
    (initializeWolves draws s).wolves = (List.range n).map (initialPosition draws d) := by
  have h := initPrefixIn_spec Arith.rational draws s n d hd hw hr n (le_refl n)
  have e : initializeWolves draws s = forLoop n (initializeWolfIn Arith.rational draws) s := by
    rw [← hn]
    rfl
  rw [e]
  simpa using h

theorem optimize_of_maxIter_zero (draws : Nat → ℚ) (s : GrayWolfOptimizer) (h : s.maxIter = 0) :
    optimize draws s = (initializeWolves draws s, []) := by
  unfold optimize
  rw [h]
  exact forLoop_zero _ _

/-! ## The position update -/

theorem moveCoordinate_eq (draws : Nat → ℚ) (a : Dbl) (i j : Nat) (s : GrayWolfOptimizer) :
    moveCoordinate draws a i j s =
      { s with
        wolves := s.wolves.set i
          ((s.wolf i).set j (newCoordinate draws a s s.rng j ((s.wolf i).getD j (Dbl.fin 0))))
        rng := s.rng + 6 } := by
  simp only [moveCoordinate, nextDraw, setWolf, wolf, newCoordinate]

theorem newCoordinate_of_leaders (draws : Nat → ℚ) (a : Dbl) (s t : GrayWolfOptimizer)
    (h : t.leaders = s.leaders) : newCoordinate draws a t = newCoordinate draws a s := by
  simp only [leaders, alphaRecord, betaRecord, deltaRecord, Prod.mk.injEq] at h
  obtain ⟨⟨ha, -⟩, ⟨hb, -⟩, hd, -⟩ := h
  funext r j old
  simp only [newCoordinate, ha, hb, hd]

theorem moveCoordinate_loop (draws : Nat → ℚ) (a : Dbl) (i : Nat) (s : GrayWolfOptimizer)
    (hi : i < s.wolves.length) (k : Nat) :
    forLoop k (moveCoordinate draws a i) s =
      { s with
        wolves := s.wolves.set i
          (rowLoop (fun j old => newCoordinate draws a s (s.rng + 6 * j) j old) k (s.wolf i))
        rng := s.rng + 6 * k } :=
  forLoop_coordinates i 6 (newCoordinate draws a) (moveCoordinate draws a i)
    (newCoordinate_of_leaders draws a) (moveCoordinate_eq draws a i) s hi k

theorem moveWolf_wolves (draws : Nat → ℚ) (a : Dbl) (i : Nat) (s : GrayWolfOptimizer)
    (hi : i < s.wolves.length) :
    (moveWolf draws a i s).wolves = s.wolves.set i
      (rowLoop (fun j old => newCoordinate draws a s (s.rng + 6 * j) j old) s.dim.toNat
        (s.wolf i)) := by
  unfold moveWolf
  rw [updateAlphaBetaDelta_wolves, moveCoordinate_loop draws a i s hi]

theorem moveWolf_rng (draws : Nat → ℚ) (a : Dbl) (i : Nat) (s : GrayWolfOptimizer)
    (hi : i < s.wolves.length) : (moveWolf draws a i s).rng = s.rng + 6 * s.dim.toNat := by
  unfold moveWolf
  rw [updateAlphaBetaDelta_rng, moveCoordinate_loop draws a i s hi]

theorem midRun_succ (draws : Nat → ℚ) (s : GrayWolfOptimizer) (t k : Nat) :
    midRun draws s t (k + 1)
      = moveWolf draws
          (decay t (forLoop t (iteration draws) (initializeWolves draws s)).maxIter) k
          (midRun draws s t k) := by
  unfold midRun
  exact forLoop_succ _ _ _

/-- The move of wolf `i` from any object in which `wolves[i][j]` exists, `j < dim`. -/
theorem moveWolf_coordinate (draws : Nat → ℚ) (a : Dbl) (i j : Nat) (s : GrayWolfOptimizer)
    (hi : i < s.wolves.length) (hj : j < (s.wolf i).length) (hd : j < s.dim.toNat) :
    ((moveWolf draws a i s).wolf i).getD j (Dbl.fin 0)
      = newCoordinate draws a s (s.rng + 6 * j) j ((s.wolf i).getD j (Dbl.fin 0)) := by
  have hrow : (moveWolf draws a i s).wolf i
      = rowLoop (fun j old => newCoordinate draws a s (s.rng + 6 * j) j old) s.dim.toNat
          (s.wolf i) := by
    unfold wolf
    rw [moveWolf_wolves draws a i s hi]
    simp [hi, wolf]
  rw [hrow, List.getD_eq_getElem?_getD, rowLoop_getElem?, if_pos hd,
    List.getElem?_eq_getElem hj]
  simp only [Option.map_some', Option.getD_some, List.getD_eq_getElem?_getD,
    List.getElem?_eq_getElem hj]

theorem moveWolf_other (draws : Nat → ℚ) (a : Dbl) (i i' : Nat) (s : GrayWolfOptimizer)
    (hi : i < s.wolves.length) (hne : i' ≠ i) : (moveWolf draws a i s).wolf i' = s.wolf i' := by
  unfold wolf
  rw [moveWolf_wolves draws a i s hi]
  simp [List.getElem?_set_ne (Ne.symm hne)]

/-! ## The iteration loop -/

theorem initializeWolf_hyperparameters (draws : Nat → ℚ) (i : Nat) (s : GrayWolfOptimizer) :
    (initializeWolf draws i s).hyperparameters = s.hyperparameters := by
  unfold initializeWolf
  rw [updateAlphaBetaDelta_hyperparameters]
  exact forLoop_preserved hyperparameters _ (drawCoordinate_hyperparameters draws i) _ s

theorem initializeWolves_hyperparameters (draws : Nat → ℚ) (s : GrayWolfOptimizer) :
    (initializeWolves draws s).hyperparameters = s.hyperparameters :=
  forLoop_preserved hyperparameters _ (initializeWolf_hyperparameters draws) _ s

theorem moveWolf_hyperparameters (draws : Nat → ℚ) (a : Dbl) (i : Nat) (s : GrayWolfOptimizer) :
    (moveWolf draws a i s).hyperparameters = s.hyperparameters := by
  unfold moveWolf
  rw [updateAlphaBetaDelta_hyperparameters]
  exact forLoop_preserved hyperparameters _ (moveCoordinate_hyperparameters draws a i) _ s

theorem iteration_hyperparameters (draws : Nat → ℚ) (iter : Nat) (s : GrayWolfOptimizer) :
    (iteration draws iter s).hyperparameters = s.hyperparameters :=
  forLoop_preserved hyperparameters _ (moveWolf_hyperparameters draws _) _ s

theorem iterations_hyperparameters (draws : Nat → ℚ) (t : Nat) (s : GrayWolfOptimizer) :
    (forLoop t (iteration draws) s).hyperparameters = s.hyperparameters :=
  forLoop_preserved hyperparameters _ (iteration_hyperparameters draws) _ s

/-- A complete sweep: after all `numWolves` wolves of iteration `t` the object is the
one after `t + 1` iterations. -/
theorem midRun_full (draws : Nat → ℚ) (s : GrayWolfOptimizer) (t : Nat) :
    midRun draws s t s.numWolves.toNat
      = forLoop (t + 1) (iteration draws) (initializeWolves draws s) := by
  have hh : (forLoop t (iteration draws) (initializeWolves draws s)).hyperparameters
      = s.hyperparameters :=
    (iterations_hyperparameters draws t _).trans (initializeWolves_hyperparameters draws s)
  have hnum : (forLoop t (iteration draws) (initializeWolves draws s)).numWolves = s.numWolves :=
    congrArg (fun x => x.1) hh
  rw [forLoop_succ]
  show forLoop s.numWolves.toNat _ _ = iteration draws t _
  rw [← hnum]
  rfl

theorem Dbl.two_div_ofInt (m : Int) (hm : m ≠ 0) :
    (2 : Dbl) / Dbl.ofInt m = Dbl.fin (2 / (m : ℚ)) := by
  have hq : (m : ℚ) ≠ 0 := Int.cast_ne_zero.mpr hm
  show Dbl.div (Dbl.fin _) (Dbl.fin _) = _
  simp [Dbl.div, hq]

theorem optimize_snd_mem (draws : Nat → ℚ) (s : GrayWolfOptimizer) (p : Nat × Dbl)
    (hp : p ∈ (optimize draws s).2) : p.1 < s.maxIter.toNat := by
  rw [optimize_snd] at hp
  obtain ⟨t, ht, rfl⟩ := List.mem_map.mp hp
  exact List.mem_range.mp ht

/-- C7 (`maxIter = 0` is accepted and safe): for every `numWolves >= 0` and `dim >= 0`
the constructor accepts `maxIter = 0`; on the object it builds `optimize` runs no
iteration, prints nothing and leaves exactly the object that `initializeWolves`
leaves.  In every run, a printed line comes from a pass through the loop body with an
index `iter < maxIter`, so `maxIter` is not `0` there and the quotient `2.0 / maxIter`
evaluated in that pass is the finite number `2 / maxIter`: the division is never
evaluated with a zero divisor. -/
theorem maxIter_zero_is_safe (draws : Nat → ℚ) (numWolves dim : Int)
    (lowerBound upperBound : Dbl) (hn : 0 ≤ numWolves) (hd : 0 ≤ dim) :
    ∃ s, construct numWolves dim 0 lowerBound upperBound = some s ∧
      (optimize draws s).1 = initializeWolves draws s ∧
      (optimize draws s).2 = [] ∧
      forLoop s.maxIter.toNat (iteration draws) (initializeWolves draws s)
        = initializeWolves draws s ∧
      (∀ (u : GrayWolfOptimizer) (p : Nat × Dbl), p ∈ (optimize draws u).2 →
        (p.1 : Int) < u.maxIter ∧ u.maxIter ≠ 0 ∧
        (2 : Dbl) / Dbl.ofInt u.maxIter = Dbl.fin (2 / (u.maxIter : ℚ))) := by
  obtain ⟨s, hs⟩ := construct_of_nonneg numWolves dim 0 lowerBound upperBound hn hd
  obtain ⟨-, -, hh, -⟩ := construct_eq hs
  have hmax : s.maxIter = 0 := congrArg (fun x => x.2.2.1) hh
  refine ⟨s, hs, ?_, ?_, ?_, ?_⟩
  · rw [optimize_of_maxIter_zero draws s hmax]
  · rw [optimize_of_maxIter_zero draws s hmax]
  · rw [hmax]; exact forLoop_zero _ _
  · intro u p hp
    have hlt := optimize_snd_mem draws u p hp
    have h1 : (p.1 : Int) < u.maxIter := by omega
    have h2 : u.maxIter ≠ 0 := by omega
    exact ⟨h1, h2, Dbl.two_div_ofInt u.maxIter h2⟩

theorem maxIter_zero_is_safe_witness :
    ∃ s, construct 3 1 0 (-10) 10 = some s ∧
      (optimize descendingDraws s).1 = initializeWolves descendingDraws s ∧
      (optimize descendingDraws s).2 = [] ∧
      forLoop s.maxIter.toNat (iteration descendingDraws) (initializeWolves descendingDraws s)
        = initializeWolves descendingDraws s ∧
      (∀ (u : GrayWolfOptimizer) (p : Nat × Dbl), p ∈ (optimize descendingDraws u).2 →
        (p.1 : Int) < u.maxIter ∧ u.maxIter ≠ 0 ∧
        (2 : Dbl) / Dbl.ofInt u.maxIter = Dbl.fin (2 / (u.maxIter : ℚ))) :=
  maxIter_zero_is_safe descendingDraws 3 1 (-10) 10 (by decide) (by decide)

/-- C10: `optimize` is a total function, so every call returns; the object it returns
is the one after exactly `maxIter` iterations of the loop body (none when
`maxIter <= 0`), and it prints exactly `maxIter` lines; line number `t` (from `0`)
carries the index `t` and the `alphaScore` of the object after all `numWolves` wolves
have been moved and re-ranked in iteration `t`, which is the object after `t + 1`
iterations.  No line is missing: the loop has no early exit. -/
theorem optimize_runs_maxIter_iterations (draws : Nat → ℚ) (s : GrayWolfOptimizer) :
    (optimize draws s).1
      = forLoop s.maxIter.toNat (iteration draws) (initializeWolves draws s) ∧
    (optimize draws s).2.length = s.maxIter.toNat ∧
    (0 ≤ s.maxIter → ((optimize draws s).2.length : Int) = s.maxIter) ∧
    (∀ t, t < s.maxIter.toNat →
      (optimize draws s).2[t]?
        = some (t, (midRun draws s t s.numWolves.toNat).alphaScore)) ∧
    (∀ t, midRun draws s t s.numWolves.toNat
      = forLoop (t + 1) (iteration draws) (initializeWolves draws s)) := by
  have hlen : (optimize draws s).2.length = s.maxIter.toNat := by
    rw [optimize_snd]; simp
  refine ⟨optimize_fst draws s, hlen, ?_, ?_, midRun_full draws s⟩
  · intro h
    rw [hlen]
    exact Int.toNat_of_nonneg h
  · intro t ht
    rw [optimize_snd, List.getElem?_map, List.getElem?_range ht, midRun_full]
    rfl

theorem optimize_runs_maxIter_iterations_witness :
    (optimize sampleDraws samplePack).2.length = 2 ∧
      (optimize sampleDraws samplePack).2[1]? = some (1, Dbl.fin (4 / 6561)) :=
  ⟨(optimize_runs_maxIter_iterations sampleDraws samplePack).2.1,
    ((optimize_runs_maxIter_iterations sampleDraws samplePack).2.2.2.1 1 (by decide)).trans
      (by decide)⟩

/-! ## The shape of the population -/

theorem hasShape_wolf {s : GrayWolfOptimizer} {n d : Nat} (h : hasShape s n d) {i : Nat}
    (hi : i < n) : (s.wolf i).length = d := by
  obtain ⟨hlen, hrows⟩ := h
  have hi' : i < s.wolves.length := by omega
  unfold wolf
  rw [List.getD_eq_getElem?_getD, List.getElem?_eq_getElem hi']
  exact hrows _ (List.getElem_mem _)

theorem moveWolf_hasShape (draws : Nat → ℚ) (a : Dbl) (i : Nat) (s : GrayWolfOptimizer)
    (n d : Nat) (h : hasShape s n d) (hi : i < n) : hasShape (moveWolf draws a i s) n d := by
  have hrow := hasShape_wolf h hi
  obtain ⟨hlen, hrows⟩ := h
  rw [hasShape, moveWolf_wolves draws a i s (by omega)]
  refine ⟨by rw [List.length_set]; exact hlen, ?_⟩
  intro row hmem
  rcases List.mem_or_eq_of_mem_set hmem with hm | rfl
  · exact hrows row hm
  · rw [rowLoop_length]; exact hrow

theorem sweep_hasShape (draws : Nat → ℚ) (a : Dbl) (s : GrayWolfOptimizer) (n d : Nat)
    (h : hasShape s n d) (k : Nat) (hk : k ≤ n) :
    hasShape (forLoop k (moveWolf draws a) s) n d := by
  induction k with
  | zero => simpa [forLoop_zero] using h
  | succ k ih =>
    rw [forLoop_succ]
    exact moveWolf_hasShape draws a k _ n d (ih (by omega)) (by omega)

theorem iteration_hasShape (draws : Nat → ℚ) (iter : Nat) (s : GrayWolfOptimizer) (n d : Nat)
    (hn : s.numWolves.toNat = n) (h : hasShape s n d) : hasShape (iteration draws iter s) n d := by
  unfold iteration
  rw [hn]
  exact sweep_hasShape draws _ s n d h n (le_refl n)

theorem iterations_hasShape (draws : Nat → ℚ) (s : GrayWolfOptimizer) (n d : Nat)
    (hn : s.numWolves.toNat = n) (h : hasShape s n d) (t : Nat) :
    hasShape (forLoop t (iteration draws) s) n d := by
  induction t with
  | zero => simpa [forLoop_zero] using h
  | succ t ih =>
    rw [forLoop_succ]
    have hnum : (forLoop t (iteration draws) s).numWolves = s.numWolves :=
      congrArg (fun x => x.1) (iterations_hyperparameters draws t s)
    exact iteration_hasShape draws t _ n d (by rw [hnum, hn]) ih

theorem initializeWolves_hasShape (draws : Nat → ℚ) {numWolves dim maxIter : Int}
    {lowerBound upperBound : Dbl} {s : GrayWolfOptimizer}
    (h : construct numWolves dim maxIter lowerBound upperBound = some s) :
    hasShape (initializeWolves draws s) numWolves.toNat dim.toNat := by
  obtain ⟨-, -, hh, hw, hl, hr⟩ := construct_eq h
  have hnum : s.numWolves = numWolves := congrArg (fun x => x.1) hh
  have hdim : s.dim = dim := congrArg (fun x => x.2.1) hh
  obtain ⟨-, -, hwol⟩ := initializeWolves_spec draws s numWolves.toNat dim.toNat
    (by rw [hnum]) (by rw [hdim]) hw hr
  rw [hasShape, hwol]
  refine ⟨by simp, ?_⟩
  intro row hmem
  obtain ⟨i, -, rfl⟩ := List.mem_map.mp hmem
  simp [initialPosition]

theorem midRun_hasShape (draws : Nat → ℚ) {numWolves dim maxIter : Int}
    {lowerBound upperBound : Dbl} {s : GrayWolfOptimizer}
    (h : construct numWolves dim maxIter lowerBound upperBound = some s) (t k : Nat)
    (hk : k ≤ numWolves.toNat) : hasShape (midRun draws s t k) numWolves.toNat dim.toNat := by
  obtain ⟨-, -, hh, -⟩ := construct_eq h
  have hnum : (initializeWolves draws s).numWolves = numWolves :=
    (congrArg (fun x => x.1) (initializeWolves_hyperparameters draws s)).trans
      (congrArg (fun x => x.1) hh)
  unfold midRun
  exact sweep_hasShape draws _ _ _ _
    (iterations_hasShape draws _ _ _ (by rw [hnum]) (initializeWolves_hasShape draws h) t) k hk

theorem midRun_hyperparameters (draws : Nat → ℚ) (s : GrayWolfOptimizer) (t k : Nat) :
    (midRun draws s t k).hyperparameters = s.hyperparameters := by
  unfold midRun
  exact (forLoop_preserved hyperparameters _ (moveWolf_hyperparameters draws _) k _).trans
    ((iterations_hyperparameters draws t _).trans (initializeWolves_hyperparameters draws s))

/-- C9 (position update rule): in a run of `optimize` from a constructed object, in
iteration `t`, for every wolf `i < numWolves` and coordinate `j < dim`, the new
`wolves[i][j]` is `(X_alpha + X_beta + X_delta) / 3`, where for each leader `L`
`X_L = L[j] - (2*a*r1 - a) * |2*r2*L[j] - old wolves[i][j]|`, with
`a = 2.0 - t * (2.0 / maxIter)`, the leaders and the old coordinate read from the
object just before wolf `i` is moved, and the pairs `(r1, r2)` the draws number `6*j`,
`6*j + 1` (alpha), `6*j + 2`, `6*j + 3` (beta), `6*j + 4`, `6*j + 5` (delta) counted
from the generator position at that moment: a function of the old coordinate `j` of
wolf `i`, the coordinates `j` of the three leaders, `a` and these six draws only.  The
positions of the other wolves are not changed by the move. -/
theorem position_update_rule (draws : Nat → ℚ) (numWolves dim maxIter : Int)
    (lowerBound upperBound : Dbl) (s0 : GrayWolfOptimizer)
    (h : construct numWolves dim maxIter lowerBound upperBound = some s0) (t i j : Nat)
    (hi : i < numWolves.toNat) (hj : j < dim.toNat) :
    ((midRun draws s0 t (i + 1)).wolf i).getD j (Dbl.fin 0) =
      (((midRun draws s0 t i).alphaWolf.getD j (Dbl.fin 0)
          - (2 * decay t maxIter * Dbl.fin (draws ((midRun draws s0 t i).rng + 6 * j))
              - decay t maxIter)
            * Dbl.abs (2 * Dbl.fin (draws ((midRun draws s0 t i).rng + 6 * j + 1))
                  * (midRun draws s0 t i).alphaWolf.getD j (Dbl.fin 0)
                - ((midRun draws s0 t i).wolf i).getD j (Dbl.fin 0)))
        + ((midRun draws s0 t i).betaWolf.getD j (Dbl.fin 0)
          - (2 * decay t maxIter * Dbl.fin (draws ((midRun draws s0 t i).rng + 6 * j + 2))
              - decay t maxIter)
            * Dbl.abs (2 * Dbl.fin (draws ((midRun draws s0 t i).rng + 6 * j + 3))
                  * (midRun draws s0 t i).betaWolf.getD j (Dbl.fin 0)
                - ((midRun draws s0 t i).wolf i).getD j (Dbl.fin 0)))
        + ((midRun draws s0 t i).deltaWolf.getD j (Dbl.fin 0)
          - (2 * decay t maxIter * Dbl.fin (draws ((midRun draws s0 t i).rng + 6 * j + 4))
              - decay t maxIter)
            * Dbl.abs (2 * Dbl.fin (draws ((midRun draws s0 t i).rng + 6 * j + 5))
                  * (midRun draws s0 t i).deltaWolf.getD j (Dbl.fin 0)
                - ((midRun draws s0 t i).wolf i).getD j (Dbl.fin 0)))) / 3 ∧
    (∀ i', i' ≠ i → (midRun draws s0 t (i + 1)).wolf i' = (midRun draws s0 t i).wolf i') := by
  have hshape := midRun_hasShape draws h t i (Nat.le_of_lt hi)
  have hrow := hasShape_wolf hshape hi
  have hlen : i < (midRun draws s0 t i).wolves.length := by rw [hshape.1]; exact hi
  obtain ⟨-, -, hh, -⟩ := construct_eq h
  have hdim : (midRun draws s0 t i).dim = dim :=
    (congrArg (fun x => x.2.1) (midRun_hyperparameters draws s0 t i)).trans
      (congrArg (fun x => x.2.1) hh)
  have hmax : (forLoop t (iteration draws) (initializeWolves draws s0)).maxIter = maxIter :=
    (congrArg (fun x => x.2.2.1) (midRun_hyperparameters draws s0 t 0)).trans
      (congrArg (fun x => x.2.2.1) hh)
  rw [midRun_succ, hmax]
  refine ⟨?_, fun i' hne => moveWolf_other draws _ i i' _ hlen hne⟩
  rw [moveWolf_coordinate draws _ i j _ hlen (by rw [hrow]; exact hj) (by rw [hdim]; exact hj)]
  simp only [newCoordinate, proposal]

theorem position_update_rule_witness :
    construct 2 1 2 (-10) 10 = some samplePack ∧
      ((midRun sampleDraws samplePack 0 0).wolf 0).getD 0 (Dbl.fin 0) = Dbl.fin 3 ∧
      ((midRun sampleDraws samplePack 0 1).wolf 0).getD 0 (Dbl.fin 0) = Dbl.fin (-2 / 3) :=
  ⟨by decide, by decide,
    (position_update_rule sampleDraws 2 1 2 (-10) 10 samplePack (by decide) 0 0 0 (by decide)
      (by decide)).1.trans (by decide)⟩

/-! ## The decay coefficient -/

/-- Two loop bodies that advance the generator by `c` and agree on every object from
which `c` more draws stay below `N` give the same loop as long as the whole loop stays
below `N`; the loop advances the generator by `k * c`. -/
theorem forLoop_congr (I : GrayWolfOptimizer → Prop)
    (b1 b2 : Nat → GrayWolfOptimizer → GrayWolfOptimizer) (c N : Nat)
    (hI : ∀ i u, I u → I (b1 i u))
    (hrng : ∀ i u, I u → (b1 i u).rng = u.rng + c)
    (hstep : ∀ i u, I u → u.rng + c ≤ N → b1 i u = b2 i u)
    (k : Nat) (s : GrayWolfOptimizer) (hs : I s) (h : s.rng + k * c ≤ N) :
    forLoop k b1 s = forLoop k b2 s ∧ I (forLoop k b1 s) ∧
      (forLoop k b1 s).rng = s.rng + k * c := by
  induction k with
  | zero => simp [forLoop_zero, hs]
  | succ k ih =>
    have hk : s.rng + k * c ≤ N := by
      have : k * c ≤ (k + 1) * c := Nat.mul_le_mul_right c (Nat.le_succ k)
      omega
    obtain ⟨e, hIk, hr⟩ := ih hk
    have hsucc : (k + 1) * c = k * c + c := Nat.succ_mul k c
    rw [forLoop_succ, forLoop_succ, ← e]
    refine ⟨hstep k _ hIk (by rw [hr]; omega), hI k _ hIk, ?_⟩
    rw [hrng k _ hIk, hr]
    omega

/-- The generator position after a loop whose body advances it by `c`. -/
theorem forLoop_rng (I : GrayWolfOptimizer → Prop)
    (body : Nat → GrayWolfOptimizer → GrayWolfOptimizer) (c : Nat)
    (hI : ∀ i u, I u → I (body i u))
    (hrng : ∀ i u, I u → (body i u).rng = u.rng + c)
    (k : Nat) (s : GrayWolfOptimizer) (hs : I s) :
    I (forLoop k body s) ∧ (forLoop k body s).rng = s.rng + k * c :=
  (forLoop_congr I body body c (s.rng + k * c) hI hrng (fun _ _ _ _ => rfl) k s hs
    (le_refl _)).2

theorem drawCoordinate_rng (draws : Nat → ℚ) (i j : Nat) (s : GrayWolfOptimizer) :
    (drawCoordinate draws i j s).rng = s.rng + 1 := rfl

theorem moveCoordinate_rng (draws : Nat → ℚ) (a : Dbl) (i j : Nat) (s : GrayWolfOptimizer) :
    (moveCoordinate draws a i j s).rng = s.rng + 6 := by
  rw [moveCoordinate_eq]

theorem drawCoordinate_congr (draws1 draws2 : Nat → ℚ) (N : Nat)
    (hagree : ∀ k, k < N → draws1 k = draws2 k) (i j : Nat) (s : GrayWolfOptimizer)
    (h : s.rng + 1 ≤ N) : drawCoordinate draws1 i j s = drawCoordinate draws2 i j s := by
  simp only [drawCoordinate, nextDraw, hagree s.rng (by omega)]

theorem moveCoordinate_congr (draws1 draws2 : Nat → ℚ) (N : Nat)
    (hagree : ∀ k, k < N → draws1 k = draws2 k) (a : Dbl) (i j : Nat) (s : GrayWolfOptimizer)
    (h : s.rng + 6 ≤ N) : moveCoordinate draws1 a i j s = moveCoordinate draws2 a i j s := by
  rw [moveCoordinate_eq, moveCoordinate_eq]
  simp only [newCoordinate, hagree s.rng (by omega), hagree (s.rng + 1) (by omega),
    hagree (s.rng + 2) (by omega), hagree (s.rng + 3) (by omega),
    hagree (s.rng + 4) (by omega), hagree (s.rng + 5) (by omega)]

theorem initializeWolf_rng (draws : Nat → ℚ) (i : Nat) (s : GrayWolfOptimizer) :
    (initializeWolf draws i s).rng = s.rng + s.dim.toNat := by
  unfold initializeWolf
  rw [updateAlphaBetaDelta_rng]
  have := (forLoop_rng (fun _ => True) (drawCoordinate draws i) 1 (fun _ _ _ => trivial)
    (fun j u _ => drawCoordinate_rng draws i j u) s.dim.toNat s trivial).2
  rw [this, Nat.mul_one]

theorem moveWolf_rng_add (draws : Nat → ℚ) (a : Dbl) (i : Nat) (s : GrayWolfOptimizer) :
    (moveWolf draws a i s).rng = s.rng + 6 * s.dim.toNat := by
  unfold moveWolf
  rw [updateAlphaBetaDelta_rng]
  have := (forLoop_rng (fun _ => True) (moveCoordinate draws a i) 6 (fun _ _ _ => trivial)
    (fun j u _ => moveCoordinate_rng draws a i j u) s.dim.toNat s trivial).2
  rw [this, Nat.mul_comm]

theorem initializeWolf_congr (draws1 draws2 : Nat → ℚ) (N : Nat)
    (hagree : ∀ k, k < N → draws1 k = draws2 k) (i : Nat) (s : GrayWolfOptimizer)
    (h : s.rng + s.dim.toNat ≤ N) : initializeWolf draws1 i s = initializeWolf draws2 i s := by
  unfold initializeWolf
  have := (forLoop_congr (fun _ => True) (drawCoordinate draws1 i) (drawCoordinate draws2 i) 1 N
    (fun _ _ _ => trivial) (fun j u _ => drawCoordinate_rng draws1 i j u)
    (fun j u _ hu => drawCoordinate_congr draws1 draws2 N hagree i j u hu)
    s.dim.toNat s trivial (by rw [Nat.mul_one]; exact h)).1
  rw [this]

theorem moveWolf_congr (draws1 draws2 : Nat → ℚ) (N : Nat)
    (hagree : ∀ k, k < N → draws1 k = draws2 k) (a : Dbl) (i : Nat) (s : GrayWolfOptimizer)
    (h : s.rng + 6 * s.dim.toNat ≤ N) : moveWolf draws1 a i s = moveWolf draws2 a i s := by
  unfold moveWolf
  have := (forLoop_congr (fun _ => True) (moveCoordinate draws1 a i) (moveCoordinate draws2 a i)
    6 N (fun _ _ _ => trivial) (fun j u _ => moveCoordinate_rng draws1 a i j u)
    (fun j u _ hu => moveCoordinate_congr draws1 draws2 N hagree a i j u hu)
    s.dim.toNat s trivial (by rw [Nat.mul_comm]; exact h)).1
  rw [this]

theorem dim_of_hyperparameters {u s : GrayWolfOptimizer}
    (h : u.hyperparameters = s.hyperparameters) : u.dim = s.dim :=
  congrArg (fun x => x.2.1) h

theorem numWolves_of_hyperparameters {u s : GrayWolfOptimizer}
    (h : u.hyperparameters = s.hyperparameters) : u.numWolves = s.numWolves :=
  congrArg (fun x => x.1) h

theorem maxIter_of_hyperparameters {u s : GrayWolfOptimizer}
    (h : u.hyperparameters = s.hyperparameters) : u.maxIter = s.maxIter :=
  congrArg (fun x => x.2.2.1) h

theorem initPrefix_congr (draws1 draws2 : Nat → ℚ) (N : Nat)
    (hagree : ∀ k, k < N → draws1 k = draws2 k) (s : GrayWolfOptimizer) (k : Nat)
    (h : s.rng + k * s.dim.toNat ≤ N) :
    forLoop k (initializeWolf draws1) s = forLoop k (initializeWolf draws2) s ∧
      (forLoop k (initializeWolf draws1) s).hyperparameters = s.hyperparameters ∧
      (forLoop k (initializeWolf draws1) s).rng = s.rng + k * s.dim.toNat :=
  forLoop_congr (fun u => u.hyperparameters = s.hyperparameters) _ _ s.dim.toNat N
    (fun i u hu => (initializeWolf_hyperparameters draws1 i u).trans hu)
    (fun i u hu => by rw [initializeWolf_rng, dim_of_hyperparameters hu])
    (fun i u hu hle => initializeWolf_congr draws1 draws2 N hagree i u
      (by rw [dim_of_hyperparameters hu]; exact hle))
    k s rfl h

theorem sweep_congr (draws1 draws2 : Nat → ℚ) (N : Nat)
    (hagree : ∀ k, k < N → draws1 k = draws2 k) (a : Dbl) (s : GrayWolfOptimizer) (k : Nat)
    (h : s.rng + k * (6 * s.dim.toNat) ≤ N) :
    forLoop k (moveWolf draws1 a) s = forLoop k (moveWolf draws2 a) s ∧
      (forLoop k (moveWolf draws1 a) s).hyperparameters = s.hyperparameters ∧
      (forLoop k (moveWolf draws1 a) s).rng = s.rng + k * (6 * s.dim.toNat) :=
  forLoop_congr (fun u => u.hyperparameters = s.hyperparameters) _ _ (6 * s.dim.toNat) N
    (fun i u hu => (moveWolf_hyperparameters draws1 a i u).trans hu)
    (fun i u hu => by rw [moveWolf_rng_add, dim_of_hyperparameters hu])
    (fun i u hu hle => moveWolf_congr draws1 draws2 N hagree a i u
      (by rw [dim_of_hyperparameters hu]; exact hle))
    k s rfl h

theorem iteration_congr (draws1 draws2 : Nat → ℚ) (N : Nat)
    (hagree : ∀ k, k < N → draws1 k = draws2 k) (iter : Nat) (s : GrayWolfOptimizer)
    (h : s.rng + s.numWolves.toNat * (6 * s.dim.toNat) ≤ N) :
    iteration draws1 iter s = iteration draws2 iter s ∧
      (iteration draws1 iter s).hyperparameters = s.hyperparameters ∧
      (iteration draws1 iter s).rng = s.rng + s.numWolves.toNat * (6 * s.dim.toNat) :=
  sweep_congr draws1 draws2 N hagree _ s _ h

theorem iteration_rng (draws : Nat → ℚ) (iter : Nat) (s : GrayWolfOptimizer) :
    (iteration draws iter s).rng = s.rng + s.numWolves.toNat * (6 * s.dim.toNat) :=
  (forLoop_rng (fun u => u.hyperparameters = s.hyperparameters) _ (6 * s.dim.toNat)
    (fun i u hu => (moveWolf_hyperparameters draws _ i u).trans hu)
    (fun i u hu => by rw [moveWolf_rng_add, dim_of_hyperparameters hu])
    s.numWolves.toNat s rfl).2

theorem iterations_congr (draws1 draws2 : Nat → ℚ) (N : Nat)
    (hagree : ∀ k, k < N → draws1 k = draws2 k) (s : GrayWolfOptimizer) (t : Nat)
    (h : s.rng + t * (s.numWolves.toNat * (6 * s.dim.toNat)) ≤ N) :
    forLoop t (iteration draws1) s = forLoop t (iteration draws2) s ∧
      (forLoop t (iteration draws1) s).hyperparameters = s.hyperparameters ∧
      (forLoop t (iteration draws1) s).rng
        = s.rng + t * (s.numWolves.toNat * (6 * s.dim.toNat)) :=
  forLoop_congr (fun u => u.hyperparameters = s.hyperparameters) _ _
    (s.numWolves.toNat * (6 * s.dim.toNat)) N
    (fun i u hu => (iteration_hyperparameters draws1 i u).trans hu)
    (fun i u hu => by
      rw [iteration_rng, dim_of_hyperparameters hu, numWolves_of_hyperparameters hu])
    (fun i u hu hle => (iteration_congr draws1 draws2 N hagree i u
      (by rw [dim_of_hyperparameters hu, numWolves_of_hyperparameters hu]; exact hle)).1)
    t s rfl h

/-- The object at any point of the sweeps depends on the draws below the generator
position reached there, which is
`rng + numWolves * dim + t * (numWolves * (6 * dim)) + k * (6 * dim)`. -/
theorem midRun_congr (draws1 draws2 : Nat → ℚ) (N : Nat)
    (hagree : ∀ k, k < N → draws1 k = draws2 k) (s : GrayWolfOptimizer) (t k : Nat)
    (h : s.rng + s.numWolves.toNat * s.dim.toNat
        + t * (s.numWolves.toNat * (6 * s.dim.toNat)) + k * (6 * s.dim.toNat) ≤ N) :
    midRun draws1 s t k = midRun draws2 s t k ∧
      (midRun draws1 s t k).rng = s.rng + s.numWolves.toNat * s.dim.toNat
        + t * (s.numWolves.toNat * (6 * s.dim.toNat)) + k * (6 * s.dim.toNat) := by
  obtain ⟨e0, h0, r0⟩ := initPrefix_congr draws1 draws2 N hagree s s.numWolves.toNat (by omega)
  have hd0 := dim_of_hyperparameters h0
  have hn0 := numWolves_of_hyperparameters h0
  obtain ⟨e1, h1, r1⟩ := iterations_congr draws1 draws2 N hagree
    (forLoop s.numWolves.toNat (initializeWolf draws1) s) t
    (by rw [r0, hd0, hn0]; omega)
  have hd1 := (dim_of_hyperparameters h1).trans hd0
  obtain ⟨e2, -, r2⟩ := sweep_congr draws1 draws2 N hagree
    (decay t (forLoop t (iteration draws1)
      (forLoop s.numWolves.toNat (initializeWolf draws1) s)).maxIter)
    (forLoop t (iteration draws1) (forLoop s.numWolves.toNat (initializeWolf draws1) s)) k
    (by rw [r1, r0, hd1, hd0, hn0]; omega)
  refine ⟨?_, ?_⟩
  · have hm : midRun draws1 s t k = forLoop k
        (moveWolf draws1 (decay t (forLoop t (iteration draws1)
          (forLoop s.numWolves.toNat (initializeWolf draws1) s)).maxIter))
        (forLoop t (iteration draws1) (forLoop s.numWolves.toNat (initializeWolf draws1) s)) :=
      rfl
    rw [hm, e2, e1, e0]
    rfl
  · have hm : midRun draws1 s t k = forLoop k
        (moveWolf draws1 (decay t (forLoop t (iteration draws1)
          (forLoop s.numWolves.toNat (initializeWolf draws1) s)).maxIter))
        (forLoop t (iteration draws1) (forLoop s.numWolves.toNat (initializeWolf draws1) s)) :=
      rfl
    rw [hm, r2, r1, r0, hd1, hd0, hn0]

theorem midRun_zero (draws : Nat → ℚ) (s : GrayWolfOptimizer) (t : Nat) :
    midRun draws s t 0 = forLoop t (iteration draws) (initializeWolves draws s) := by
  unfold midRun
  exact forLoop_zero _ _

theorem midRun_rng (draws : Nat → ℚ) (s : GrayWolfOptimizer) (t k : Nat) :
    (midRun draws s t k).rng = s.rng + s.numWolves.toNat * s.dim.toNat
      + t * (s.numWolves.toNat * (6 * s.dim.toNat)) + k * (6 * s.dim.toNat) :=
  (midRun_congr draws draws _ (fun _ _ => rfl) s t k (le_refl _)).2

/-- C19 (random-draw consumption): in a run from a constructed object (so
`numWolves >= 0` and `dim >= 0`), `initializeWolves` makes exactly `numWolves * dim`
draws; after `t` iterations and `k` wolves of the next one exactly
`numWolves*dim + t*(6*numWolves*dim) + k*(6*dim)` draws have been made, so every
iteration makes exactly `6 * numWolves * dim`; and the whole call makes
`numWolves * dim * (1 + 6 * maxIter)` draws (`maxIter >= 0`).  One coordinate of the
sweep takes six consecutive draws, used in the order alpha `r1`, alpha `r2`, beta
`r1`, beta `r2`, delta `r1`, delta `r2`; one coordinate of the initialisation takes
one. -/
theorem draws_consumed (draws : Nat → ℚ) (numWolves dim maxIter : Int)
    (lowerBound upperBound : Dbl) (s : GrayWolfOptimizer)
    (h : construct numWolves dim maxIter lowerBound upperBound = some s) :
    (initializeWolves draws s).rng = numWolves.toNat * dim.toNat ∧
    (∀ t k, (midRun draws s t k).rng
      = numWolves.toNat * dim.toNat + t * (6 * numWolves.toNat * dim.toNat)
        + k * (6 * dim.toNat)) ∧
    (∀ t, (forLoop (t + 1) (iteration draws) (initializeWolves draws s)).rng
      = (forLoop t (iteration draws) (initializeWolves draws s)).rng
        + 6 * numWolves.toNat * dim.toNat) ∧
    (optimize draws s).1.rng = numWolves.toNat * dim.toNat * (1 + 6 * maxIter.toNat) ∧
    (0 ≤ maxIter →
      ((optimize draws s).1.rng : Int) = numWolves * dim * (1 + 6 * maxIter)) ∧
    (∀ (a : Dbl) (i j : Nat) (u : GrayWolfOptimizer),
      moveCoordinate draws a i j u =
        { u with
          wolves := u.wolves.set i ((u.wolf i).set j
            ((proposal a (Dbl.fin (draws u.rng)) (Dbl.fin (draws (u.rng + 1)))
                (u.alphaWolf.getD j (Dbl.fin 0)) ((u.wolf i).getD j (Dbl.fin 0))
              + proposal a (Dbl.fin (draws (u.rng + 2))) (Dbl.fin (draws (u.rng + 3)))
                (u.betaWolf.getD j (Dbl.fin 0)) ((u.wolf i).getD j (Dbl.fin 0))
              + proposal a (Dbl.fin (draws (u.rng + 4))) (Dbl.fin (draws (u.rng + 5)))
                (u.deltaWolf.getD j (Dbl.fin 0)) ((u.wolf i).getD j (Dbl.fin 0))) / 3))
          rng := u.rng + 6 }) ∧
    (∀ (i j : Nat) (u : GrayWolfOptimizer),
      drawCoordinate draws i j u =
        { u with
          wolves := u.wolves.set i ((u.wolf i).set j (Dbl.fin (draws u.rng)))
          rng := u.rng + 1 }) := by
  obtain ⟨hn, hd, hh, -, -, hr⟩ := construct_eq h
  have hnum : s.numWolves = numWolves := congrArg (fun x => x.1) hh
  have hdim : s.dim = dim := congrArg (fun x => x.2.1) hh
  have hmax : s.maxIter = maxIter := congrArg (fun x => x.2.2.1) hh
  have hmid : ∀ t k, (midRun draws s t k).rng
      = numWolves.toNat * dim.toNat + t * (6 * numWolves.toNat * dim.toNat)
        + k * (6 * dim.toNat) := by
    intro t k
    rw [midRun_rng, hr, hnum, hdim]
    ring
  have hiter : ∀ t, (forLoop t (iteration draws) (initializeWolves draws s)).rng
      = numWolves.toNat * dim.toNat + t * (6 * numWolves.toNat * dim.toNat) := by
    intro t
    rw [← midRun_zero, hmid]
    ring
  have htotal : (optimize draws s).1.rng
      = numWolves.toNat * dim.toNat * (1 + 6 * maxIter.toNat) := by
    rw [optimize_fst, hmax, hiter]
    ring
  refine ⟨?_, hmid, ?_, htotal, ?_, ?_, fun i j u => rfl⟩
  · have := hiter 0
    rw [forLoop_zero] at this
    rw [this]
    ring
  · intro t
    rw [hiter, hiter]
    ring
  · intro hm
    rw [htotal]
    push_cast
    rw [Int.toNat_of_nonneg hn, Int.toNat_of_nonneg hd, Int.toNat_of_nonneg hm]
  · intro a i j u
    rw [moveCoordinate_eq]
    rfl

theorem draws_consumed_witness :
    construct 2 1 2 (-10) 10 = some samplePack ∧
      (optimize sampleDraws samplePack).1.rng = 26 ∧
      (optimize sampleDraws samplePack).1.rng
        = (2 : Int).toNat * (1 : Int).toNat * (1 + 6 * (2 : Int).toNat) :=
  ⟨by decide, by decide,
    (draws_consumed sampleDraws 2 1 2 (-10) 10 samplePack (by decide)).2.2.2.1⟩

/-- C15 (determinism under a fixed random sequence): two objects constructed with the
same hyperparameters are equal, and two runs of `optimize` on them whose draw streams
agree on the first `numWolves * dim * (1 + 6 * maxIter)` draws coincide: the objects
(population, the three leader records, generator position) are equal after every wolf
of the initialisation and after every wolf of every iteration, and `optimize` returns
the same final object (hence the same final `alphaScore`) and prints the same lines. -/
theorem optimize_deterministic (numWolves dim maxIter : Int) (lowerBound upperBound : Dbl)
    (s1 s2 : GrayWolfOptimizer)
    (h1 : construct numWolves dim maxIter lowerBound upperBound = some s1)
    (h2 : construct numWolves dim maxIter lowerBound upperBound = some s2)
    (draws1 draws2 : Nat → ℚ)
    (hagree : ∀ k, k < numWolves.toNat * dim.toNat * (1 + 6 * maxIter.toNat) →
      draws1 k = draws2 k) :
    s1 = s2 ∧
    (∀ k, k ≤ numWolves.toNat →
      forLoop k (initializeWolf draws1) s1 = forLoop k (initializeWolf draws2) s2) ∧
    (∀ t k, t < maxIter.toNat → k ≤ numWolves.toNat →
      midRun draws1 s1 t k = midRun draws2 s2 t k) ∧
    optimize draws1 s1 = optimize draws2 s2 ∧
    (optimize draws1 s1).1.alphaScore = (optimize draws2 s2).1.alphaScore := by
  have hs : s1 = s2 := Option.some.inj (h1.symm.trans h2)
  subst hs
  obtain ⟨-, -, hh, -, -, hr⟩ := construct_eq h1
  have hnum : s1.numWolves = numWolves := congrArg (fun x => x.1) hh
  have hdim : s1.dim = dim := congrArg (fun x => x.2.1) hh
  have hmax : s1.maxIter = maxIter := congrArg (fun x => x.2.2.1) hh
  have hiter : ∀ t, t ≤ maxIter.toNat →
      forLoop t (iteration draws1) (initializeWolves draws1 s1)
        = forLoop t (iteration draws2) (initializeWolves draws2 s1) := by
    intro t ht
    rw [← midRun_zero, ← midRun_zero]
    refine (midRun_congr draws1 draws2 _ hagree s1 t 0 ?_).1
    rw [hr, hnum, hdim]
    have := Nat.mul_le_mul_left (numWolves.toNat * (6 * dim.toNat)) ht
    nlinarith
  have hopt : optimize draws1 s1 = optimize draws2 s1 := by
    apply Prod.ext
    · rw [optimize_fst, optimize_fst, hmax]
      exact hiter _ (le_refl _)
    · rw [optimize_snd, optimize_snd, hmax]
      apply List.map_congr_left
      intro t ht
      rw [hiter (t + 1) (List.mem_range.mp ht)]
  refine ⟨rfl, ?_, ?_, hopt, by rw [hopt]⟩
  · intro k hk
    refine (initPrefix_congr draws1 draws2 _ hagree s1 k ?_).1
    rw [hr, hdim]
    have h3 := Nat.mul_le_mul_right dim.toNat hk
    have h4 : numWolves.toNat * dim.toNat
        ≤ numWolves.toNat * dim.toNat * (1 + 6 * maxIter.toNat) :=
      Nat.le_mul_of_pos_right _ (by omega)
    omega
  · intro t k ht hk
    refine (midRun_congr draws1 draws2 _ hagree s1 t k ?_).1
    rw [hr, hnum, hdim]
    have h3 : t + 1 ≤ maxIter.toNat := ht
    have h4 := Nat.mul_le_mul_left (numWolves.toNat * (6 * dim.toNat)) h3
    have h5 := Nat.mul_le_mul_right (6 * dim.toNat) hk
    nlinarith

theorem optimize_deterministic_witness :
    construct 2 1 2 (-10) 10 = some samplePack ∧
      sampleDraws 26 ≠ sampleDrawsTail 26 ∧
      optimize sampleDraws samplePack = optimize sampleDrawsTail samplePack :=
  ⟨by decide, by decide,
    (optimize_deterministic 2 1 2 (-10) 10 samplePack samplePack (by decide) (by decide)
      sampleDraws sampleDrawsTail
      (fun k hk => by
        have hk26 : k < 26 := hk
        simp [sampleDrawsTail, hk26])).2.2.2.1⟩

/-! ## The shape of the whole object -/

theorem setWolf_hasShape (s : GrayWolfOptimizer) (i j : Nat) (v : Dbl) (n d : Nat)
    (h : hasShape s n d) : hasShape (setWolf s i j v) n d := by
  obtain ⟨hlen, hrows⟩ := h
  refine ⟨by simp [setWolf, hlen], ?_⟩
  intro row hmem
  by_cases hi : i < s.wolves.length
  · rcases List.mem_or_eq_of_mem_set hmem with hm | rfl
    · exact hrows row hm
    · rw [List.length_set, List.getD_eq_getElem?_getD, List.getElem?_eq_getElem hi]
      exact hrows _ (List.getElem_mem _)
  · have : (setWolf s i j v).wolves = s.wolves :=
      List.set_eq_of_length_le (Nat.le_of_not_lt hi)
    rw [this] at hmem
    exact hrows row hmem

theorem drawCoordinate_wellShaped (draws : Nat → ℚ) (i j : Nat) (s : GrayWolfOptimizer)
    (n d : Nat) (h : wellShaped s n d) : wellShaped (drawCoordinate draws i j s) n d :=
  ⟨setWolf_hasShape _ i j _ n d h.1, h.2⟩

theorem moveCoordinate_wellShaped (draws : Nat → ℚ) (a : Dbl) (i j : Nat)
    (s : GrayWolfOptimizer) (n d : Nat) (h : wellShaped s n d) :
    wellShaped (moveCoordinate draws a i j s) n d := by
  rw [moveCoordinate_eq]
  exact ⟨setWolf_hasShape s i j _ n d h.1, h.2⟩

theorem updateAlphaBetaDelta_wellShaped (s : GrayWolfOptimizer) (position : List Dbl)
    (score : Dbl) (n d : Nat) (h : wellShaped s n d) (hp : position.length = d) :
    wellShaped (updateAlphaBetaDelta s position score) n d := by
  obtain ⟨hs, ha, hb, hd⟩ := h
  unfold updateAlphaBetaDelta
  split_ifs
  · exact ⟨hs, hp, hb, hd⟩
  · exact ⟨hs, ha, hp, hd⟩
  · exact ⟨hs, ha, hb, hp⟩
  · exact ⟨hs, ha, hb, hd⟩

theorem initializeWolf_wellShaped (draws : Nat → ℚ) (i : Nat) (s : GrayWolfOptimizer)
    (n d : Nat) (h : wellShaped s n d) (hi : i < n) :
    wellShaped (initializeWolf draws i s) n d := by
  have h1 : wellShaped (forLoop s.dim.toNat (drawCoordinate draws i) s) n d :=
    forLoop_invariant (fun u => wellShaped u n d) _
      (fun j u hu => drawCoordinate_wellShaped draws i j u n d hu) _ s h
  unfold initializeWolf
  exact updateAlphaBetaDelta_wellShaped _ _ _ n d h1 (hasShape_wolf h1.1 hi)

theorem moveWolf_wellShaped (draws : Nat → ℚ) (a : Dbl) (i : Nat) (s : GrayWolfOptimizer)
    (n d : Nat) (h : wellShaped s n d) (hi : i < n) :
    wellShaped (moveWolf draws a i s) n d := by
  have h1 : wellShaped (forLoop s.dim.toNat (moveCoordinate draws a i) s) n d :=
    forLoop_invariant (fun u => wellShaped u n d) _
      (fun j u hu => moveCoordinate_wellShaped draws a i j u n d hu) _ s h
  unfold moveWolf
  exact updateAlphaBetaDelta_wellShaped _ _ _ n d h1 (hasShape_wolf h1.1 hi)

theorem initPrefix_wellShaped (draws : Nat → ℚ) (s : GrayWolfOptimizer) (n d : Nat)
    (h : wellShaped s n d) (k : Nat) (hk : k ≤ n) :
    wellShaped (forLoop k (initializeWolf draws) s) n d :=
  forLoop_induction (fun _ u => wellShaped u n d) _ k s h
    (fun i hi u hu => initializeWolf_wellShaped draws i u n d hu (by omega))

theorem sweep_wellShaped (draws : Nat → ℚ) (a : Dbl) (s : GrayWolfOptimizer) (n d : Nat)
    (h : wellShaped s n d) (k : Nat) (hk : k ≤ n) :
    wellShaped (forLoop k (moveWolf draws a) s) n d :=
  forLoop_induction (fun _ u => wellShaped u n d) _ k s h
    (fun i hi u hu => moveWolf_wellShaped draws a i u n d hu (by omega))

theorem iterations_wellShaped (draws : Nat → ℚ) (s : GrayWolfOptimizer) (n d : Nat)
    (hn : s.numWolves.toNat = n) (h : wellShaped s n d) (t : Nat) :
    wellShaped (forLoop t (iteration draws) s) n d := by
  have := forLoop_invariant
    (fun u => wellShaped u n d ∧ u.hyperparameters = s.hyperparameters) (iteration draws)
    (fun i u hu => ⟨by
        unfold iteration
        rw [numWolves_of_hyperparameters hu.2, hn]
        exact sweep_wellShaped draws _ u n d hu.1 n (le_refl n),
      (iteration_hyperparameters draws i u).trans hu.2⟩) t s ⟨h, rfl⟩
  exact this.1

theorem construct_wellShaped {numWolves dim maxIter : Int} {lowerBound upperBound : Dbl}
    {s : GrayWolfOptimizer} (h : construct numWolves dim maxIter lowerBound upperBound = some s) :
    wellShaped s numWolves.toNat dim.toNat := by
  obtain ⟨-, -, -, hw, hl, -⟩ := construct_eq h
  have ha : s.alphaWolf = List.replicate dim.toNat (Dbl.fin 0) := congrArg (fun x => x.1.1) hl
  have hb : s.betaWolf = List.replicate dim.toNat (Dbl.fin 0) := congrArg (fun x => x.2.1.1) hl
  have hd : s.deltaWolf = List.replicate dim.toNat (Dbl.fin 0) :=
    congrArg (fun x => x.2.2.1) hl
  refine ⟨⟨by rw [hw]; simp, ?_⟩, by rw [ha]; simp, by rw [hb]; simp, by rw [hd]; simp⟩
  intro row hmem
  rw [hw] at hmem
  rw [List.eq_of_mem_replicate hmem]
  simp

theorem midRun_wellShaped (draws : Nat → ℚ) (s : GrayWolfOptimizer) (n d : Nat)
    (hn : s.numWolves.toNat = n) (h : wellShaped s n d) (t k : Nat) (hk : k ≤ n) :
    wellShaped (midRun draws s t k) n d := by
  have h0 : wellShaped (initializeWolves draws s) n d := by
    unfold initializeWolves
    rw [hn]
    exact initPrefix_wellShaped draws s n d h n (le_refl n)
  have hn0 : (initializeWolves draws s).numWolves.toNat = n := by
    rw [numWolves_of_hyperparameters (initializeWolves_hyperparameters draws s), hn]
  unfold midRun
  exact sweep_wellShaped draws _ _ n d (iterations_wellShaped draws _ n d hn0 h0 t) k hk

/-- C12 (the shape of the state is fixed): for an object constructed with
`numWolves >= 0` and `dim >= 0`, at construction, after every coordinate and every
wolf of `initializeWolves`, after every coordinate and every wolf of every iteration
of `optimize`, and at the end of `optimize`, the population has exactly `numWolves`
wolves of exactly `dim` coordinates, `alphaWolf`, `betaWolf` and `deltaWolf` have
exactly `dim` coordinates, and the members `numWolves` and `dim` that bound the loops
are unchanged; hence for `i < numWolves` and `j < dim` the accesses `wolves[i][j]`,
`alphaWolf[j]`, `betaWolf[j]` and `deltaWolf[j]` are in bounds in every such object. -/
theorem shape_is_fixed (draws : Nat → ℚ) (numWolves dim maxIter : Int)
    (lowerBound upperBound : Dbl) (s : GrayWolfOptimizer)
    (h : construct numWolves dim maxIter lowerBound upperBound = some s) :
    (0 ≤ numWolves ∧ 0 ≤ dim) ∧
    wellShaped s numWolves.toNat dim.toNat ∧
    (∀ i j, i < numWolves.toNat →
      wellShaped (forLoop j (drawCoordinate draws i) (forLoop i (initializeWolf draws) s))
        numWolves.toNat dim.toNat) ∧
    (∀ k, k ≤ numWolves.toNat →
      wellShaped (forLoop k (initializeWolf draws) s) numWolves.toNat dim.toNat) ∧
    wellShaped (initializeWolves draws s) numWolves.toNat dim.toNat ∧
    (∀ (a : Dbl) (t i j : Nat), i < numWolves.toNat →
      wellShaped (forLoop j (moveCoordinate draws a i) (midRun draws s t i))
        numWolves.toNat dim.toNat) ∧
    (∀ t k, k ≤ numWolves.toNat →
      wellShaped (midRun draws s t k) numWolves.toNat dim.toNat ∧
        (midRun draws s t k).numWolves = numWolves ∧ (midRun draws s t k).dim = dim) ∧
    wellShaped (optimize draws s).1 numWolves.toNat dim.toNat ∧
    (∀ u : GrayWolfOptimizer, wellShaped u numWolves.toNat dim.toNat →
      ∀ i j, i < numWolves.toNat → j < dim.toNat →
        i < u.wolves.length ∧ j < (u.wolf i).length ∧ j < u.alphaWolf.length ∧
          j < u.betaWolf.length ∧ j < u.deltaWolf.length) := by
  obtain ⟨hn, hd, hh, -⟩ := construct_eq h
  have hnum : s.numWolves = numWolves := congrArg (fun x => x.1) hh
  have hdim : s.dim = dim := congrArg (fun x => x.2.1) hh
  have h0 := construct_wellShaped h
  have hinit : ∀ k, k ≤ numWolves.toNat →
      wellShaped (forLoop k (initializeWolf draws) s) numWolves.toNat dim.toNat :=
    fun k hk => initPrefix_wellShaped draws s _ _ h0 k hk
  have hmid : ∀ t k, k ≤ numWolves.toNat →
      wellShaped (midRun draws s t k) numWolves.toNat dim.toNat :=
    fun t k hk => midRun_wellShaped draws s _ _ (by rw [hnum]) h0 t k hk
  refine ⟨⟨hn, hd⟩, h0, ?_, hinit, ?_, ?_, ?_, ?_, ?_⟩
  · intro i j hi
    exact forLoop_invariant (fun u => wellShaped u numWolves.toNat dim.toNat) _
      (fun j u hu => drawCoordinate_wellShaped draws i j u _ _ hu) j _
      (hinit i (Nat.le_of_lt hi))
  · have := hinit numWolves.toNat (le_refl _)
    rw [← hnum] at this
    rw [← hnum]
    exact this
  · intro a t i j hi
    exact forLoop_invariant (fun u => wellShaped u numWolves.toNat dim.toNat) _
      (fun j u hu => moveCoordinate_wellShaped draws a i j u _ _ hu) j _
      (hmid t i (Nat.le_of_lt hi))
  · intro t k hk
    have hhk := (midRun_hyperparameters draws s t k).trans hh
    exact ⟨hmid t k hk, congrArg (fun x => x.1) hhk, congrArg (fun x => x.2.1) hhk⟩
  · rw [optimize_fst, ← midRun_zero]
    exact hmid _ 0 (Nat.zero_le _)
  · intro u hu i j hi hj
    have hrow := hasShape_wolf hu.1 hi
    refine ⟨by rw [hu.1.1]; exact hi, by rw [hrow]; exact hj, by rw [hu.2.1]; exact hj,
      by rw [hu.2.2.1]; exact hj, by rw [hu.2.2.2]; exact hj⟩

theorem shape_is_fixed_witness :
    construct 2 1 2 (-10) 10 = some samplePack ∧
      (optimize sampleDraws samplePack).1.wolves.length = 2 ∧
      wellShaped (optimize sampleDraws samplePack).1 (2 : Int).toNat (1 : Int).toNat :=
  ⟨by decide, by decide,
    (shape_is_fixed sampleDraws 2 1 2 (-10) 10 samplePack (by decide)).2.2.2.2.2.2.2.1⟩

/-! ## The initial population -/

theorem index_lt_of_lt (n d i j : Nat) (hi : i < n) (hj : j < d) : i * d + j < n * d := by
  have h1 : (i + 1) * d ≤ n * d := Nat.mul_le_mul_right d hi
  rw [Nat.succ_mul] at h1
  omega

theorem initialPosition_getD (draws : Nat → ℚ) (d i j : Nat) (hj : j < d) :
    (initialPosition draws d i).getD j (Dbl.fin 0) = Dbl.fin (draws (i * d + j)) := by
  simp [initialPosition, List.getElem?_range hj, hj]

theorem initializeWolves_wolves {numWolves dim maxIter : Int} {lowerBound upperBound : Dbl}
    {s : GrayWolfOptimizer} (draws : Nat → ℚ)
    (h : construct numWolves dim maxIter lowerBound upperBound = some s) :
    (initializeWolves draws s).wolves
      = (List.range numWolves.toNat).map (initialPosition draws dim.toNat) := by
  obtain ⟨-, -, hh, hw, hl, hr⟩ := construct_eq h
  have hnum : s.numWolves = numWolves := congrArg (fun x => x.1) hh
  have hdim : s.dim = dim := congrArg (fun x => x.2.1) hh
  exact (initializeWolves_spec draws s numWolves.toNat dim.toNat
    (by rw [hnum]) (by rw [hdim]) hw hr).2.2

/-- C13 (bound containment at initialisation): for a constructed object with
`lowerBound < upperBound`, if each of the `numWolves * dim` draws made by
`initializeWolves` lies in `[lowerBound, upperBound)`, then after `initializeWolves`
the coordinate `wolves[i][j]` is exactly draw number `i * dim + j`, for every
`i < numWolves` and `j < dim`, and every coordinate of every wolf lies within
`[lowerBound, upperBound]` (the bounds stored in the object are the constructor's
arguments). -/
theorem initial_bound_containment (draws : Nat → ℚ) (numWolves dim maxIter : Int)
    (lowerBound upperBound : Dbl) (s : GrayWolfOptimizer)
    (h : construct numWolves dim maxIter lowerBound upperBound = some s)
    (_hbounds : lowerBound < upperBound)
    (hdraws : ∀ k, k < numWolves.toNat * dim.toNat →
      lowerBound ≤ Dbl.fin (draws k) ∧ Dbl.fin (draws k) < upperBound) :
    (∀ i j, i < numWolves.toNat → j < dim.toNat →
      ((initializeWolves draws s).wolf i).getD j (Dbl.fin 0)
        = Dbl.fin (draws (i * dim.toNat + j))) ∧
    ((initializeWolves draws s).lowerBound = lowerBound ∧
      (initializeWolves draws s).upperBound = upperBound) ∧
    (∀ row ∈ (initializeWolves draws s).wolves, ∀ x ∈ row,
      (initializeWolves draws s).lowerBound ≤ x ∧ x ≤ (initializeWolves draws s).upperBound) := by
  obtain ⟨-, -, hh, -⟩ := construct_eq h
  have hwol := initializeWolves_wolves draws h
  have hh' := (initializeWolves_hyperparameters draws s).trans hh
  have hlb : (initializeWolves draws s).lowerBound = lowerBound :=
    congrArg (fun x => x.2.2.2.1) hh'
  have hub : (initializeWolves draws s).upperBound = upperBound :=
    congrArg (fun x => x.2.2.2.2) hh'
  refine ⟨?_, ⟨hlb, hub⟩, ?_⟩
  · intro i j hi hj
    have : (initializeWolves draws s).wolf i = initialPosition draws dim.toNat i := by
      unfold wolf
      rw [hwol]
      simp [List.getElem?_range hi, hi]
    rw [this, initialPosition_getD draws _ i j hj]
  · intro row hrow x hx
    rw [hwol] at hrow
    obtain ⟨i, hi, rfl⟩ := List.mem_map.mp hrow
    obtain ⟨j, hj, rfl⟩ := List.mem_map.mp hx
    have hlt := index_lt_of_lt _ _ i j (List.mem_range.mp hi) (List.mem_range.mp hj)
    rw [hlb, hub]
    exact ⟨(hdraws _ hlt).1, Dbl.le_of_lt (hdraws _ hlt).2⟩

theorem initial_bound_containment_witness :
    construct 2 1 2 (-10) 10 = some samplePack ∧
      ((initializeWolves sampleDraws samplePack).wolf 1).getD 0 (Dbl.fin 0)
        = Dbl.fin (sampleDraws (1 * (1 : Int).toNat + 0)) ∧
      (initializeWolves sampleDraws samplePack).wolves = [[Dbl.fin 3], [Dbl.fin (-2)]] :=
  ⟨by decide,
    (initial_bound_containment sampleDraws 2 1 2 (-10) 10 samplePack (by decide) (by decide)
      (fun k hk => by
        have hk2 : k < 2 := hk
        interval_cases k <;> decide)).1 1 0 (by decide) (by decide),
    by decide⟩

/-! ## No clamping -/

theorem moveCoordinate_getD (draws : Nat → ℚ) (a : Dbl) (i j : Nat) (u : GrayWolfOptimizer)
    (hi : i < u.wolves.length) (hj : j < (u.wolf i).length) :
    ((moveCoordinate draws a i j u).wolf i).getD j (Dbl.fin 0)
      = newCoordinate draws a u u.rng j ((u.wolf i).getD j (Dbl.fin 0)) := by
  rw [moveCoordinate_eq]
  have hw : ∀ R : List Dbl, ({ u with wolves := u.wolves.set i R, rng := u.rng + 6 } :
      GrayWolfOptimizer).wolf i = R := by
    intro R
    simp [wolf, hi]
  rw [hw, List.getD_eq_getElem?_getD, List.getElem?_set_self hj]
  rfl

/-- C14 (no bounds clamping): with `numWolves = 1`, `dim = 1`, `maxIter = 1`,
`lowerBound = -10 < upperBound = 10`, the initial draw `9` (inside the box) and every
draw `r1`, `r2` of the iteration equal to `0` (inside `[0, 1)`), the initial population
`[[9]]` is inside `[lowerBound, upperBound]` and after the one iteration of `optimize`
the coordinate is `21`, strictly above `upperBound`.  In general the value stored by
the update is the mean of the three proposals itself: nothing projects it back. -/
theorem coordinates_leave_the_box :
    construct 1 1 1 (-10) 10 = some escapePack ∧
    escapePack.lowerBound < escapePack.upperBound ∧
    (escapePack.lowerBound ≤ Dbl.fin (escapeDraws 0) ∧
      Dbl.fin (escapeDraws 0) < escapePack.upperBound) ∧
    (∀ k, 1 ≤ k → 0 ≤ escapeDraws k ∧ escapeDraws k < 1) ∧
    (initializeWolves escapeDraws escapePack).wolves = [[Dbl.fin 9]] ∧
    (∀ row ∈ (initializeWolves escapeDraws escapePack).wolves, ∀ x ∈ row,
      escapePack.lowerBound ≤ x ∧ x ≤ escapePack.upperBound) ∧
    (optimize escapeDraws escapePack).1.wolves = [[Dbl.fin 21]] ∧
    (optimize escapeDraws escapePack).1.upperBound
      < ((optimize escapeDraws escapePack).1.wolf 0).getD 0 (Dbl.fin 0) ∧
    (∀ (draws : Nat → ℚ) (a : Dbl) (i j : Nat) (u : GrayWolfOptimizer),
      i < u.wolves.length → j < (u.wolf i).length →
      ((moveCoordinate draws a i j u).wolf i).getD j (Dbl.fin 0)
        = (proposal a (Dbl.fin (draws u.rng)) (Dbl.fin (draws (u.rng + 1)))
              (u.alphaWolf.getD j (Dbl.fin 0)) ((u.wolf i).getD j (Dbl.fin 0))
            + proposal a (Dbl.fin (draws (u.rng + 2))) (Dbl.fin (draws (u.rng + 3)))
              (u.betaWolf.getD j (Dbl.fin 0)) ((u.wolf i).getD j (Dbl.fin 0))
            + proposal a (Dbl.fin (draws (u.rng + 4))) (Dbl.fin (draws (u.rng + 5)))
              (u.deltaWolf.getD j (Dbl.fin 0)) ((u.wolf i).getD j (Dbl.fin 0))) / 3) := by
  refine ⟨by decide, by decide, by decide, ?_, by decide, by decide, by decide, by decide, ?_⟩
  · intro k hk
    obtain ⟨k, rfl⟩ : ∃ m, k = m + 1 := ⟨k - 1, by omega⟩
    simp [escapeDraws]
  · intro draws a i j u hi hj
    rw [moveCoordinate_getD draws a i j u hi hj]
    rfl

/-! ## Ranking inside a sweep -/

theorem midRun_coordinate (draws : Nat → ℚ) {numWolves dim maxIter : Int}
    {lowerBound upperBound : Dbl} {s0 : GrayWolfOptimizer}
    (h : construct numWolves dim maxIter lowerBound upperBound = some s0) (t i j : Nat)
    (hi : i < numWolves.toNat) (hj : j < dim.toNat) :
    ((midRun draws s0 t (i + 1)).wolf i).getD j (Dbl.fin 0)
      = newCoordinate draws (decay t maxIter) (midRun draws s0 t i)
          ((midRun draws s0 t i).rng + 6 * j) j
          (((midRun draws s0 t i).wolf i).getD j (Dbl.fin 0)) := by
  have hshape := midRun_hasShape draws h t i (Nat.le_of_lt hi)
  have hrow := hasShape_wolf hshape hi
  have hlen : i < (midRun draws s0 t i).wolves.length := by rw [hshape.1]; exact hi
  obtain ⟨-, -, hh, -⟩ := construct_eq h
  have hdim : (midRun draws s0 t i).dim = dim :=
    (dim_of_hyperparameters (midRun_hyperparameters draws s0 t i)).trans
      (congrArg (fun x => x.2.1) hh)
  have hmax : (forLoop t (iteration draws) (initializeWolves draws s0)).maxIter = maxIter :=
    (maxIter_of_hyperparameters (midRun_hyperparameters draws s0 t 0)).trans
      (congrArg (fun x => x.2.2.1) hh)
  rw [midRun_succ, hmax]
  exact moveWolf_coordinate draws _ i j _ hlen (by rw [hrow]; exact hj)
    (by rw [hdim]; exact hj)

theorem midRun_succ_eq (draws : Nat → ℚ) {numWolves dim maxIter : Int}
    {lowerBound upperBound : Dbl} {s0 : GrayWolfOptimizer}
    (h : construct numWolves dim maxIter lowerBound upperBound = some s0) (t i : Nat) :
    midRun draws s0 t (i + 1)
      = updateAlphaBetaDelta
          (forLoop dim.toNat (moveCoordinate draws (decay t maxIter) i) (midRun draws s0 t i))
          ((forLoop dim.toNat (moveCoordinate draws (decay t maxIter) i)
            (midRun draws s0 t i)).wolf i)
          (objectiveFunction ((forLoop dim.toNat (moveCoordinate draws (decay t maxIter) i)
            (midRun draws s0 t i)).wolf i)) := by
  obtain ⟨-, -, hh, -⟩ := construct_eq h
  have hdim : (midRun draws s0 t i).dim = dim :=
    (dim_of_hyperparameters (midRun_hyperparameters draws s0 t i)).trans
      (congrArg (fun x => x.2.1) hh)
  have hmax : (forLoop t (iteration draws) (initializeWolves draws s0)).maxIter = maxIter :=
    (maxIter_of_hyperparameters (midRun_hyperparameters draws s0 t 0)).trans
      (congrArg (fun x => x.2.2.1) hh)
  rw [midRun_succ, hmax]
  unfold moveWolf
  rw [hdim]

/-- C16 (leader ranking is sequential within a sweep): in a run from a constructed
object, in iteration `t`, the object after wolf `i` has been handled is the result of
`updateAlphaBetaDelta` on the new position of wolf `i` and its score, that new
position being `wolves[i]` from then on; and the new coordinate `j` of wolf `i + 1` is
computed from the `alphaWolf`, `betaWolf` and `deltaWolf` of that very object.  For
the sample pack (two wolves in one dimension) the new position `[-2/3]` of wolf `0`
replaces `[-2]` as `alphaWolf`, and the new coordinate of wolf `1` in the same
iteration, `-2/9`, is the one computed with `alphaWolf = [-2/3]`; with the
`alphaWolf` from before the sweep it would have been `-2/3`. -/
theorem ranking_is_sequential (draws : Nat → ℚ) (numWolves dim maxIter : Int)
    (lowerBound upperBound : Dbl) (s0 : GrayWolfOptimizer)
    (h : construct numWolves dim maxIter lowerBound upperBound = some s0) (t i j : Nat)
    (hi : i + 1 < numWolves.toNat) (hj : j < dim.toNat) :
    midRun draws s0 t (i + 1)
      = updateAlphaBetaDelta
          (forLoop dim.toNat (moveCoordinate draws (decay t maxIter) i) (midRun draws s0 t i))
          ((forLoop dim.toNat (moveCoordinate draws (decay t maxIter) i)
            (midRun draws s0 t i)).wolf i)
          (objectiveFunction ((forLoop dim.toNat (moveCoordinate draws (decay t maxIter) i)
            (midRun draws s0 t i)).wolf i)) ∧
    (midRun draws s0 t (i + 1)).wolf i
      = (forLoop dim.toNat (moveCoordinate draws (decay t maxIter) i)
          (midRun draws s0 t i)).wolf i ∧
    ((midRun draws s0 t (i + 2)).wolf (i + 1)).getD j (Dbl.fin 0)
      = (proposal (decay t maxIter)
            (Dbl.fin (draws ((midRun draws s0 t (i + 1)).rng + 6 * j)))
            (Dbl.fin (draws ((midRun draws s0 t (i + 1)).rng + 6 * j + 1)))
            ((midRun draws s0 t (i + 1)).alphaWolf.getD j (Dbl.fin 0))
            (((midRun draws s0 t (i + 1)).wolf (i + 1)).getD j (Dbl.fin 0))
          + proposal (decay t maxIter)
            (Dbl.fin (draws ((midRun draws s0 t (i + 1)).rng + 6 * j + 2)))
            (Dbl.fin (draws ((midRun draws s0 t (i + 1)).rng + 6 * j + 3)))
            ((midRun draws s0 t (i + 1)).betaWolf.getD j (Dbl.fin 0))
            (((midRun draws s0 t (i + 1)).wolf (i + 1)).getD j (Dbl.fin 0))
          + proposal (decay t maxIter)
            (Dbl.fin (draws ((midRun draws s0 t (i + 1)).rng + 6 * j + 4)))
            (Dbl.fin (draws ((midRun draws s0 t (i + 1)).rng + 6 * j + 5)))
            ((midRun draws s0 t (i + 1)).deltaWolf.getD j (Dbl.fin 0))
            (((midRun draws s0 t (i + 1)).wolf (i + 1)).getD j (Dbl.fin 0))) / 3 ∧
    ((midRun sampleDraws samplePack 0 0).alphaWolf = [Dbl.fin (-2)] ∧
      (midRun sampleDraws samplePack 0 1).wolf 0 = [Dbl.fin (-2 / 3)] ∧
      (midRun sampleDraws samplePack 0 1).alphaWolf = [Dbl.fin (-2 / 3)] ∧
      ((midRun sampleDraws samplePack 0 2).wolf 1).getD 0 (Dbl.fin 0) = Dbl.fin (-2 / 9) ∧
      newCoordinate sampleDraws (decay 0 2) (midRun sampleDraws samplePack 0 1)
          (midRun sampleDraws samplePack 0 1).rng 0
          (((midRun sampleDraws samplePack 0 1).wolf 1).getD 0 (Dbl.fin 0))
        = Dbl.fin (-2 / 9) ∧
      newCoordinate sampleDraws (decay 0 2) (midRun sampleDraws samplePack 0 0)
          (midRun sampleDraws samplePack 0 1).rng 0
          (((midRun sampleDraws samplePack 0 1).wolf 1).getD 0 (Dbl.fin 0))
        = Dbl.fin (-2 / 3)) := by
  have hstep := midRun_succ_eq draws h t i
  refine ⟨hstep, ?_, ?_, by decide, by decide, by decide, by decide, by decide, by decide⟩
  · rw [hstep]
    unfold wolf
    rw [updateAlphaBetaDelta_wolves]
  · rw [midRun_coordinate draws h t (i + 1) j hi hj]
    rfl

theorem ranking_is_sequential_witness :
    construct 2 1 2 (-10) 10 = some samplePack ∧
      (midRun sampleDraws samplePack 0 (0 + 1)).wolf 0
        = (forLoop (1 : Int).toNat (moveCoordinate sampleDraws (decay 0 2) 0)
            (midRun sampleDraws samplePack 0 0)).wolf 0 :=
  ⟨by decide,
    (ranking_is_sequential sampleDraws 2 1 2 (-10) 10 samplePack (by decide) 0 0 0 (by decide)
      (by decide)).2.1⟩

/-! ## The calls of `updateAlphaBetaDelta` made by a run -/

theorem offerAll_append_singleton (s : GrayWolfOptimizer) (offers : List (List Dbl × Dbl))
    (o : List Dbl × Dbl) :
    offerAll s (offers ++ [o]) = updateAlphaBetaDelta (offerAll s offers) o.1 o.2 := by
  simp [offerAll, List.foldl_append]

theorem updateAlphaBetaDelta_leaders_congr {u v : GrayWolfOptimizer}
    (h : u.leaders = v.leaders) (position : List Dbl) (score : Dbl) :
    (updateAlphaBetaDelta u position score).leaders
      = (updateAlphaBetaDelta v position score).leaders := by
  simp only [leaders, alphaRecord, betaRecord, deltaRecord, Prod.mk.injEq] at h
  obtain ⟨⟨haw, has⟩, ⟨hbw, hbs⟩, hdw, hds⟩ := h
  unfold updateAlphaBetaDelta
  rw [has, hbs, hds]
  split_ifs <;> simp [leaders, alphaRecord, betaRecord, deltaRecord, *]

theorem initializeWolf_leaders (draws : Nat → ℚ) (i : Nat) (u v : GrayWolfOptimizer)
    (h : u.leaders = v.leaders) :
    (initializeWolf draws i u).leaders
      = (updateAlphaBetaDelta v ((initializeWolf draws i u).wolf i)
          (objectiveFunction ((initializeWolf draws i u).wolf i))).leaders := by
  have hw : (initializeWolf draws i u).wolf i
      = (forLoop u.dim.toNat (drawCoordinate draws i) u).wolf i := by
    unfold initializeWolf wolf
    rw [updateAlphaBetaDelta_wolves]
  rw [hw]
  unfold initializeWolf
  exact updateAlphaBetaDelta_leaders_congr
    ((forLoop_preserved leaders _ (drawCoordinate_leaders draws i) _ u).trans h) _ _

theorem moveWolf_leaders (draws : Nat → ℚ) (a : Dbl) (i : Nat) (u v : GrayWolfOptimizer)
    (h : u.leaders = v.leaders) :
    (moveWolf draws a i u).leaders
      = (updateAlphaBetaDelta v ((moveWolf draws a i u).wolf i)
          (objectiveFunction ((moveWolf draws a i u).wolf i))).leaders := by
  have hw : (moveWolf draws a i u).wolf i
      = (forLoop u.dim.toNat (moveCoordinate draws a i) u).wolf i := by
    unfold moveWolf wolf
    rw [updateAlphaBetaDelta_wolves]
  rw [hw]
  unfold moveWolf
  exact updateAlphaBetaDelta_leaders_congr
    ((forLoop_preserved leaders _ (moveCoordinate_leaders draws a i) _ u).trans h) _ _

theorem initialOffers_succ (draws : Nat → ℚ) (s : GrayWolfOptimizer) (k : Nat) :
    initialOffers draws s (k + 1)
      = initialOffers draws s k ++ [offer (initialScored draws s k)] := by
  simp [initialOffers, List.range_succ]

theorem sweepOffers_succ (draws : Nat → ℚ) (s : GrayWolfOptimizer) (t k : Nat) :
    sweepOffers draws s t (k + 1)
      = sweepOffers draws s t k ++ [offer (movedScored draws s t k)] := by
  simp [sweepOffers, List.range_succ]

/-- The leader records after `k` wolves of `initializeWolves` are those obtained by
passing the `k` scored positions, in order, to `updateAlphaBetaDelta`. -/
theorem initPrefix_leaders (draws : Nat → ℚ) (s : GrayWolfOptimizer) (k : Nat) :
    (forLoop k (initializeWolf draws) s).leaders
      = (offerAll s (initialOffers draws s k)).leaders := by
  induction k with
  | zero => simp [forLoop_zero, initialOffers, offerAll]
  | succ k ih =>
    rw [initialOffers_succ, offerAll_append_singleton]
    have := initializeWolf_leaders draws k _ _ ih
    rw [← forLoop_succ k (initializeWolf draws) s] at this
    exact this

/-- The leader records at every point of the sweeps are those obtained by passing all
the positions scored so far, in order, to `updateAlphaBetaDelta`. -/
theorem midRun_leaders (draws : Nat → ℚ) (s : GrayWolfOptimizer) (t k : Nat) :
    (midRun draws s t k).leaders = (offerAll s (runOffers draws s t k)).leaders := by
  have sweep : ∀ t, (midRun draws s t 0).leaders = (offerAll s (pastOffers draws s t)).leaders →
      ∀ k, (midRun draws s t k).leaders = (offerAll s (runOffers draws s t k)).leaders := by
    intro t h0 k
    induction k with
    | zero => simpa [runOffers, sweepOffers] using h0
    | succ k ih =>
      unfold runOffers
      rw [sweepOffers_succ, ← List.append_assoc, offerAll_append_singleton]
      have := moveWolf_leaders draws
        (decay t (forLoop t (iteration draws) (initializeWolves draws s)).maxIter) k _ _ ih
      rw [← midRun_succ draws s t k] at this
      exact this
  have past : ∀ t, (midRun draws s t 0).leaders = (offerAll s (pastOffers draws s t)).leaders := by
    intro t
    induction t with
    | zero =>
      rw [midRun_zero, forLoop_zero]
      exact initPrefix_leaders draws s s.numWolves.toNat
    | succ t ih =>
      rw [midRun_zero, ← midRun_full]
      exact sweep t ih s.numWolves.toNat
  exact sweep t (past t) k

theorem updateAlphaBetaDelta_records (s : GrayWolfOptimizer) (position : List Dbl)
    (score : Dbl) :
    ((updateAlphaBetaDelta s position score).alphaRecord = s.alphaRecord ∨
      (updateAlphaBetaDelta s position score).alphaRecord = (position, score)) ∧
    ((updateAlphaBetaDelta s position score).betaRecord = s.betaRecord ∨
      (updateAlphaBetaDelta s position score).betaRecord = (position, score)) ∧
    ((updateAlphaBetaDelta s position score).deltaRecord = s.deltaRecord ∨
      (updateAlphaBetaDelta s position score).deltaRecord = (position, score)) := by
  unfold updateAlphaBetaDelta
  split_ifs
  · exact ⟨Or.inr rfl, Or.inl rfl, Or.inl rfl⟩
  · exact ⟨Or.inl rfl, Or.inr rfl, Or.inl rfl⟩
  · exact ⟨Or.inl rfl, Or.inl rfl, Or.inr rfl⟩
  · exact ⟨Or.inl rfl, Or.inl rfl, Or.inl rfl⟩

theorem offerAll_cons (s : GrayWolfOptimizer) (o : List Dbl × Dbl)
    (offers : List (List Dbl × Dbl)) :
    offerAll s (o :: offers) = offerAll (updateAlphaBetaDelta s o.1 o.2) offers := rfl

/-- Each leader record after a sequence of calls is the record from before or one of
the pairs passed. -/
theorem offerAll_records (s : GrayWolfOptimizer) (offers : List (List Dbl × Dbl)) :
    ((offerAll s offers).alphaRecord = s.alphaRecord ∨ (offerAll s offers).alphaRecord ∈ offers) ∧
    ((offerAll s offers).betaRecord = s.betaRecord ∨ (offerAll s offers).betaRecord ∈ offers) ∧
    ((offerAll s offers).deltaRecord = s.deltaRecord ∨
      (offerAll s offers).deltaRecord ∈ offers) := by
  induction offers generalizing s with
  | nil => exact ⟨Or.inl rfl, Or.inl rfl, Or.inl rfl⟩
  | cons o os ih =>
    rw [offerAll_cons]
    obtain ⟨ha, hb, hd⟩ := ih (updateAlphaBetaDelta s o.1 o.2)
    obtain ⟨ua, ub, ud⟩ := updateAlphaBetaDelta_records s o.1 o.2
    refine ⟨?_, ?_, ?_⟩
    · rcases ha with ha | ha
      · rcases ua with ua | ua
        · exact Or.inl (ha.trans ua)
        · exact Or.inr (by rw [ha, ua]; exact List.mem_cons_self _ _)
      · exact Or.inr (List.mem_cons_of_mem _ ha)
    · rcases hb with hb | hb
      · rcases ub with ub | ub
        · exact Or.inl (hb.trans ub)
        · exact Or.inr (by rw [hb, ub]; exact List.mem_cons_self _ _)
      · exact Or.inr (List.mem_cons_of_mem _ hb)
    · rcases hd with hd | hd
      · rcases ud with ud | ud
        · exact Or.inl (hd.trans ud)
        · exact Or.inr (by rw [hd, ud]; exact List.mem_cons_self _ _)
      · exact Or.inr (List.mem_cons_of_mem _ hd)

theorem mem_initialOffers {draws : Nat → ℚ} {s : GrayWolfOptimizer} {k : Nat}
    {o : List Dbl × Dbl} (h : o ∈ initialOffers draws s k) :
    ∃ i, i < k ∧ o = offer (initialScored draws s i) := by
  obtain ⟨i, hi, rfl⟩ := List.mem_map.mp h
  exact ⟨i, List.mem_range.mp hi, rfl⟩

theorem mem_sweepOffers {draws : Nat → ℚ} {s : GrayWolfOptimizer} {t k : Nat}
    {o : List Dbl × Dbl} (h : o ∈ sweepOffers draws s t k) :
    ∃ i, i < k ∧ o = offer (movedScored draws s t i) := by
  obtain ⟨i, hi, rfl⟩ := List.mem_map.mp h
  exact ⟨i, List.mem_range.mp hi, rfl⟩

theorem mem_pastOffers {draws : Nat → ℚ} {s : GrayWolfOptimizer} {t : Nat}
    {o : List Dbl × Dbl} (h : o ∈ pastOffers draws s t) :
    (∃ i, i < s.numWolves.toNat ∧ o = offer (initialScored draws s i)) ∨
      ∃ t' i, t' < t ∧ i < s.numWolves.toNat ∧ o = offer (movedScored draws s t' i) := by
  induction t with
  | zero => exact Or.inl (mem_initialOffers h)
  | succ t ih =>
    rcases List.mem_append.mp h with h1 | h1
    · rcases ih h1 with h2 | ⟨t', i, ht', hi, ho⟩
      · exact Or.inl h2
      · exact Or.inr ⟨t', i, Nat.lt_succ_of_lt ht', hi, ho⟩
    · obtain ⟨i, hi, ho⟩ := mem_sweepOffers h1
      exact Or.inr ⟨t, i, Nat.lt_succ_self t, hi, ho⟩

/-- Every pair of `runOffers` is a position scored by the run, with its objective
value: an initial position, a position moved in an earlier iteration, or a position
already moved in the current one. -/
theorem mem_runOffers {draws : Nat → ℚ} {s : GrayWolfOptimizer} {t k : Nat}
    {o : List Dbl × Dbl} (h : o ∈ runOffers draws s t k) :
    (∃ i, i < s.numWolves.toNat ∧ o = offer (initialScored draws s i)) ∨
      ∃ t' i, (t' < t ∧ i < s.numWolves.toNat ∨ t' = t ∧ i < k) ∧
        o = offer (movedScored draws s t' i) := by
  rcases List.mem_append.mp h with h1 | h1
  · rcases mem_pastOffers h1 with h2 | ⟨t', i, ht', hi, ho⟩
    · exact Or.inl h2
    · exact Or.inr ⟨t', i, Or.inl ⟨ht', hi⟩, ho⟩
  · obtain ⟨i, hi, ho⟩ := mem_sweepOffers h1
    exact Or.inr ⟨t, i, Or.inr ⟨rfl, hi⟩, ho⟩

/-! ## Leader records -/

theorem construct_records {numWolves dim maxIter : Int} {lowerBound upperBound : Dbl}
    {s : GrayWolfOptimizer} (h : construct numWolves dim maxIter lowerBound upperBound = some s) :
    s.alphaRecord = (List.replicate s.dim.toNat (Dbl.fin 0), Dbl.posInf) ∧
    s.betaRecord = (List.replicate s.dim.toNat (Dbl.fin 0), Dbl.posInf) ∧
    s.deltaRecord = (List.replicate s.dim.toNat (Dbl.fin 0), Dbl.posInf) := by
  obtain ⟨-, -, hh, -, hl, -⟩ := construct_eq h
  have hdim : s.dim = dim := congrArg (fun x => x.2.1) hh
  rw [hdim]
  exact ⟨congrArg (fun x => x.1) hl, congrArg (fun x => x.2.1) hl,
    congrArg (fun x => x.2.2) hl⟩

theorem records_of_leaders {u v : GrayWolfOptimizer} (h : u.leaders = v.leaders) :
    u.alphaRecord = v.alphaRecord ∧ u.betaRecord = v.betaRecord ∧
      u.deltaRecord = v.deltaRecord :=
  ⟨congrArg (fun x => x.1) h, congrArg (fun x => x.2.1) h, congrArg (fun x => x.2.2) h⟩

theorem recordConsistent_of_mem (draws : Nat → ℚ) (s : GrayWolfOptimizer) (t k : Nat)
    (r c : List Dbl × Dbl) (hc : c = (List.replicate s.dim.toNat (Dbl.fin 0), Dbl.posInf))
    (h : r = c ∨ r ∈ runOffers draws s t k) : recordConsistent draws s t k r := by
  rcases h with h | h
  · exact Or.inl (h.trans hc)
  · right
    rcases mem_runOffers h with ⟨i, hi, ho⟩ | ⟨t', i, hti, ho⟩
    · exact ⟨_, ho, Or.inl ⟨i, hi, rfl⟩⟩
    · exact ⟨_, ho, Or.inr ⟨t', i, hti, rfl⟩⟩

theorem recordConsistentInit_of_mem (draws : Nat → ℚ) (s : GrayWolfOptimizer) (k : Nat)
    (r c : List Dbl × Dbl) (hc : c = (List.replicate s.dim.toNat (Dbl.fin 0), Dbl.posInf))
    (h : r = c ∨ r ∈ initialOffers draws s k) : recordConsistentInit draws s k r := by
  rcases h with h | h
  · exact Or.inl (h.trans hc)
  · obtain ⟨i, hi, ho⟩ := mem_initialOffers h
    exact Or.inr ⟨i, hi, ho⟩

theorem getD_replicate_zero (d j : Nat) :
    (List.replicate d (Dbl.fin 0)).getD j (Dbl.fin 0) = Dbl.fin 0 := by
  rw [List.getD_eq_getElem?_getD, List.getElem?_replicate]
  split_ifs <;> rfl

/-- C18 (leader record consistency): in a run from a constructed object, after every
wolf of `initializeWolves`, after every wolf of every iteration and at the end of
`optimize`, each of the alpha, beta and delta records is either the constructed record
(the all-zero position of length `dim` with score `+infinity`) or a pair
`(p, objectiveFunction p)` where `p` is a position a wolf held at the moment it was
scored.  A record that is still the constructed one has every coordinate `0`, and it
is read as a leader position all the same: in the sample run `betaRecord` and
`deltaRecord` are never promoted, and the first move of wolf `0` is the mean of one
proposal around `alphaWolf[0] = -2` and two proposals around the origin. -/
theorem leader_records_consistent (draws : Nat → ℚ) (numWolves dim maxIter : Int)
    (lowerBound upperBound : Dbl) (s : GrayWolfOptimizer)
    (h : construct numWolves dim maxIter lowerBound upperBound = some s) :
    (∀ k, recordConsistentInit draws s k (forLoop k (initializeWolf draws) s).alphaRecord ∧
      recordConsistentInit draws s k (forLoop k (initializeWolf draws) s).betaRecord ∧
      recordConsistentInit draws s k (forLoop k (initializeWolf draws) s).deltaRecord) ∧
    (∀ t k, recordConsistent draws s t k (midRun draws s t k).alphaRecord ∧
      recordConsistent draws s t k (midRun draws s t k).betaRecord ∧
      recordConsistent draws s t k (midRun draws s t k).deltaRecord) ∧
    ((optimize draws s).1 = midRun draws s maxIter.toNat 0 ∧
      recordConsistent draws s maxIter.toNat 0 (optimize draws s).1.alphaRecord ∧
      recordConsistent draws s maxIter.toNat 0 (optimize draws s).1.betaRecord ∧
      recordConsistent draws s maxIter.toNat 0 (optimize draws s).1.deltaRecord) ∧
    (∀ (u : GrayWolfOptimizer) (j : Nat),
      (u.alphaRecord = (List.replicate s.dim.toNat (Dbl.fin 0), Dbl.posInf) →
        u.alphaWolf.getD j (Dbl.fin 0) = Dbl.fin 0) ∧
      (u.betaRecord = (List.replicate s.dim.toNat (Dbl.fin 0), Dbl.posInf) →
        u.betaWolf.getD j (Dbl.fin 0) = Dbl.fin 0) ∧
      (u.deltaRecord = (List.replicate s.dim.toNat (Dbl.fin 0), Dbl.posInf) →
        u.deltaWolf.getD j (Dbl.fin 0) = Dbl.fin 0)) ∧
    ((optimize sampleDraws samplePack).1.betaRecord = ([Dbl.fin 0], Dbl.posInf) ∧
      (optimize sampleDraws samplePack).1.deltaRecord = ([Dbl.fin 0], Dbl.posInf) ∧
      (midRun sampleDraws samplePack 0 0).leaders
        = (([Dbl.fin (-2)], Dbl.fin 4), ([Dbl.fin 0], Dbl.posInf), ([Dbl.fin 0], Dbl.posInf)) ∧
      ((midRun sampleDraws samplePack 0 1).wolf 0).getD 0 (Dbl.fin 0)
        = (proposal (decay 0 2) (Dbl.fin (1 / 2)) (Dbl.fin (1 / 2)) (Dbl.fin (-2)) (Dbl.fin 3)
            + proposal (decay 0 2) (Dbl.fin (1 / 2)) (Dbl.fin (1 / 2)) (Dbl.fin 0) (Dbl.fin 3)
            + proposal (decay 0 2) (Dbl.fin (1 / 2)) (Dbl.fin (1 / 2)) (Dbl.fin 0) (Dbl.fin 3))
          / 3) := by
  obtain ⟨ca, cb, cd⟩ := construct_records h
  obtain ⟨-, -, hh, -⟩ := construct_eq h
  have hmax : s.maxIter = maxIter := congrArg (fun x => x.2.2.1) hh
  have hmid : ∀ t k, recordConsistent draws s t k (midRun draws s t k).alphaRecord ∧
      recordConsistent draws s t k (midRun draws s t k).betaRecord ∧
      recordConsistent draws s t k (midRun draws s t k).deltaRecord := by
    intro t k
    obtain ⟨ea, eb, ed⟩ := records_of_leaders (midRun_leaders draws s t k)
    obtain ⟨ga, gb, gd⟩ := offerAll_records s (runOffers draws s t k)
    rw [ea, eb, ed]
    exact ⟨recordConsistent_of_mem draws s t k _ _ ca ga,
      recordConsistent_of_mem draws s t k _ _ cb gb,
      recordConsistent_of_mem draws s t k _ _ cd gd⟩
  have hfinal : (optimize draws s).1 = midRun draws s maxIter.toNat 0 := by
    rw [optimize_fst, midRun_zero, hmax]
  refine ⟨?_, hmid, ⟨hfinal, ?_⟩, ?_, by decide, by decide, by decide, by decide⟩
  · intro k
    obtain ⟨ea, eb, ed⟩ := records_of_leaders (initPrefix_leaders draws s k)
    obtain ⟨ga, gb, gd⟩ := offerAll_records s (initialOffers draws s k)
    rw [ea, eb, ed]
    exact ⟨recordConsistentInit_of_mem draws s k _ _ ca ga,
      recordConsistentInit_of_mem draws s k _ _ cb gb,
      recordConsistentInit_of_mem draws s k _ _ cd gd⟩
  · rw [hfinal]
    exact hmid _ _
  · intro u j
    refine ⟨fun hr => ?_, fun hr => ?_, fun hr => ?_⟩
    · have : u.alphaWolf = List.replicate s.dim.toNat (Dbl.fin 0) := congrArg Prod.fst hr
      rw [this, getD_replicate_zero]
    · have : u.betaWolf = List.replicate s.dim.toNat (Dbl.fin 0) := congrArg Prod.fst hr
      rw [this, getD_replicate_zero]
    · have : u.deltaWolf = List.replicate s.dim.toNat (Dbl.fin 0) := congrArg Prod.fst hr
      rw [this, getD_replicate_zero]

theorem leader_records_consistent_witness :
    construct 2 1 2 (-10) 10 = some samplePack ∧
      (optimize sampleDraws samplePack).1.alphaRecord = ([Dbl.fin (-2 / 81)], Dbl.fin (4 / 6561)) ∧
      recordConsistent sampleDraws samplePack (2 : Int).toNat 0
        (optimize sampleDraws samplePack).1.alphaRecord :=
  ⟨by decide, by decide,
    (leader_records_consistent sampleDraws 2 1 2 (-10) 10 samplePack (by decide)).2.2.1.2.1⟩

/-! ## Rounding to binary64 -/

theorem Dbl.log2Fuel_le (fuel n : Nat) (hn : 1 ≤ n) : 2 ^ Dbl.log2Fuel fuel n ≤ n := by
  induction fuel generalizing n with
  | zero => simpa [Dbl.log2Fuel] using hn
  | succ fuel ih =>
    unfold Dbl.log2Fuel
    split_ifs with h2
    · simpa using hn
    · have h := ih (n / 2) (by omega)
      rw [pow_succ]
      omega

theorem Dbl.lt_log2Fuel (fuel n : Nat) (hf : n ≤ fuel) : n < 2 ^ (Dbl.log2Fuel fuel n + 1) := by
  induction fuel generalizing n with
  | zero =>
    have : n = 0 := by omega
    subst this
    simp [Dbl.log2Fuel]
  | succ fuel ih =>
    unfold Dbl.log2Fuel
    split_ifs with h2
    · simpa using h2
    · have h := ih (n / 2) (by omega)
      rw [pow_succ]
      omega

/-- The leading digit position: `2 ^ log2 n <= n < 2 ^ (log2 n + 1)` for `n > 0`. -/
theorem Dbl.log2_spec (n : Nat) (hn : 1 ≤ n) :
    2 ^ Dbl.log2 n ≤ n ∧ n < 2 ^ (Dbl.log2 n + 1) :=
  ⟨Dbl.log2Fuel_le n n hn, Dbl.lt_log2Fuel n n (le_refl n)⟩

/-- The binary exponent: `2 ^ exponent q <= q < 2 ^ (exponent q + 1)` for `q > 0`. -/
theorem Dbl.exponent_spec (q : ℚ) (hq : 0 < q) :
    (2 : ℚ) ^ Dbl.exponent q ≤ q ∧ q < (2 : ℚ) ^ (Dbl.exponent q + 1) := by
  have hnum : 0 < q.num := Rat.num_pos.mpr hq
  have hn1 : 1 ≤ q.num.natAbs := by omega
  have hd1 : 1 ≤ q.den := q.den_pos
  obtain ⟨ha1, ha2⟩ := Dbl.log2_spec q.num.natAbs hn1
  obtain ⟨hb1, hb2⟩ := Dbl.log2_spec q.den hd1
  have hqe : q = (q.num.natAbs : ℚ) / (q.den : ℚ) := by
    rw [Nat.cast_natAbs, abs_of_pos hnum]
    exact (Rat.num_div_den q).symm
  unfold Dbl.exponent
  simp only
  generalize q.num.natAbs = n at *
  generalize q.den = d at *
  have hdq : (0 : ℚ) < d := by exact_mod_cast hd1
  have hA1 : (2 : ℚ) ^ (Dbl.log2 n) ≤ n := by exact_mod_cast ha1
  have hA2 : (n : ℚ) < (2 : ℚ) ^ (Dbl.log2 n + 1) := by exact_mod_cast ha2
  have hB1 : (2 : ℚ) ^ (Dbl.log2 d) ≤ d := by exact_mod_cast hb1
  have hB2 : (d : ℚ) < (2 : ℚ) ^ (Dbl.log2 d + 1) := by exact_mod_cast hb2
  have hpa : (0 : ℚ) < 2 ^ (Dbl.log2 n) := by positivity
  have hpb : (0 : ℚ) < 2 ^ (Dbl.log2 d) := by positivity
  have hk : (2 : ℚ) ^ ((Dbl.log2 n : ℤ) - (Dbl.log2 d : ℤ))
      = (2 : ℚ) ^ (Dbl.log2 n) / (2 : ℚ) ^ (Dbl.log2 d) := by
    rw [zpow_sub₀ (by norm_num : (2 : ℚ) ≠ 0), zpow_natCast, zpow_natCast]
  have hstep : ∀ z : ℤ, (2 : ℚ) ^ (z + 1) = 2 * (2 : ℚ) ^ z := by
    intro z
    rw [zpow_add_one₀ (by norm_num : (2 : ℚ) ≠ 0)]
    ring
  have hstep' : ∀ z : ℤ, (2 : ℚ) ^ (z - 1) = (2 : ℚ) ^ z / 2 := by
    intro z
    rw [zpow_sub_one₀ (by norm_num : (2 : ℚ) ≠ 0)]
    ring
  rw [pow_succ] at hA2 hB2
  split_ifs with hc
  · refine ⟨hc, ?_⟩
    rw [hstep, hk, hqe, div_lt_iff₀ hdq]
    calc (n : ℚ) < 2 ^ Dbl.log2 n * 2 := hA2
      _ = 2 * (2 ^ Dbl.log2 n / 2 ^ Dbl.log2 d) * 2 ^ Dbl.log2 d := by field_simp; ring
      _ ≤ 2 * (2 ^ Dbl.log2 n / 2 ^ Dbl.log2 d) * d := by
        apply mul_le_mul_of_nonneg_left hB1
        positivity
  · push_neg at hc
    refine ⟨?_, ?_⟩
    · rw [hstep', hk, hqe, le_div_iff₀ hdq]
      calc (2 : ℚ) ^ Dbl.log2 n / 2 ^ Dbl.log2 d / 2 * d
          ≤ 2 ^ Dbl.log2 n / 2 ^ Dbl.log2 d / 2 * (2 ^ Dbl.log2 d * 2) := by
            apply mul_le_mul_of_nonneg_left hB2.le
            positivity
        _ = 2 ^ Dbl.log2 n := by field_simp
        _ ≤ n := hA1
    · have e : (Dbl.log2 n : ℤ) - (Dbl.log2 d : ℤ) - 1 + 1
          = (Dbl.log2 n : ℤ) - (Dbl.log2 d : ℤ) := by ring
      rw [e]
      exact hc

theorem Dbl.roundHalfEven_eq_zero (x : ℚ) (hx : 0 ≤ x) :
    Dbl.roundHalfEven x = 0 ↔ x ≤ 1 / 2 := by
  have hfl0 : 0 ≤ Int.floor x := Int.floor_nonneg.mpr hx
  have hle : ((Int.floor x : ℤ) : ℚ) ≤ x := Int.floor_le x
  have hlt : x < ((Int.floor x : ℤ) : ℚ) + 1 := Int.lt_floor_add_one x
  have hcast : (((Int.floor x).toNat : ℕ) : ℚ) = ((Int.floor x : ℤ) : ℚ) := by
    have : (((Int.floor x).toNat : ℕ) : ℤ) = Int.floor x := Int.toNat_of_nonneg hfl0
    exact_mod_cast this
  rw [← hcast] at hle hlt
  unfold Dbl.roundHalfEven
  simp only
  generalize (Int.floor x).toNat = f at *
  rcases Nat.eq_zero_or_pos f with h0 | hpos
  · subst h0
    simp only [Nat.cast_zero, sub_zero, zero_add] at *
    split_ifs with h1 h2
    · exact ⟨fun _ => by linarith, fun _ => rfl⟩
    · exact ⟨fun h => absurd h (by norm_num), fun h => absurd h (by linarith)⟩
    · exact ⟨fun _ => by linarith, fun _ => rfl⟩
  · have h1 : (1 : ℚ) ≤ (f : ℚ) := by exact_mod_cast hpos
    have hx1 : ¬ x ≤ 1 / 2 := by linarith
    have hne : ∀ m : ℕ, 0 < m → (m = 0 ↔ x ≤ 1 / 2) := fun m hm =>
      ⟨fun h => absurd h (by omega), fun h => absurd h hx1⟩
    split_ifs <;>
      first
        | exact hne f hpos
        | exact ⟨False.elim, fun h => absurd h hx1⟩

theorem Dbl.two_zpow_pos (z : ℤ) : (0 : ℚ) < (2 : ℚ) ^ z := zpow_pos (by norm_num) z

theorem Dbl.two_zpow_le {a b : ℤ} (h : a ≤ b) : (2 : ℚ) ^ a ≤ (2 : ℚ) ^ b :=
  zpow_le_zpow_right₀ (by norm_num) h

/-- The rounding of a positive rational is `+infinity` or a finite value that is `0` or
at least the least positive binary64 number `2 ^ (-1074)`. -/
theorem Dbl.roundPos_cases (q : ℚ) :
    Dbl.roundPos q = Dbl.posInf ∨
      ∃ r, Dbl.roundPos q = Dbl.fin r ∧ (r = 0 ∨ (2 : ℚ) ^ (-1074 : ℤ) ≤ r) := by
  unfold Dbl.roundPos
  simp only
  split_ifs with h
  · right
    refine ⟨_, rfl, ?_⟩
    rcases Nat.eq_zero_or_pos
      (Dbl.roundHalfEven (q / (2 : ℚ) ^ (max (Dbl.exponent q) (-1022) - 52))) with h0 | hpos
    · left
      rw [h0]
      simp
    · right
      have h1 : (1 : ℚ)
          ≤ (Dbl.roundHalfEven (q / (2 : ℚ) ^ (max (Dbl.exponent q) (-1022) - 52)) : ℚ) := by
        exact_mod_cast hpos
      have hu : (2 : ℚ) ^ (-1074 : ℤ) ≤ (2 : ℚ) ^ (max (Dbl.exponent q) (-1022) - 52) :=
        Dbl.two_zpow_le (by have := le_max_right (Dbl.exponent q) (-1022); omega)
      have hp := Dbl.two_zpow_pos (max (Dbl.exponent q) (-1022) - 52)
      exact hu.trans (le_mul_of_one_le_left hp.le h1)
  · exact Or.inl rfl

/-- A positive rational rounds to `0` exactly when it is at most `2 ^ (-1075)`, half the
least positive binary64 number. -/
theorem Dbl.roundPos_eq_zero (q : ℚ) (hq : 0 < q) :
    Dbl.roundPos q = Dbl.fin 0 ↔ q ≤ (2 : ℚ) ^ (-1075 : ℤ) := by
  obtain ⟨hlow, -⟩ := Dbl.exponent_spec q hq
  have hp := Dbl.two_zpow_pos (max (Dbl.exponent q) (-1022) - 52)
  have hzero : Dbl.roundHalfEven (q / (2 : ℚ) ^ (max (Dbl.exponent q) (-1022) - 52)) = 0
      ↔ q ≤ (2 : ℚ) ^ (-1075 : ℤ) := by
    rw [Dbl.roundHalfEven_eq_zero _ (div_nonneg hq.le hp.le), div_le_iff₀ hp]
    rcases le_or_lt (Dbl.exponent q) (-1022) with he | he
    · rw [max_eq_right he]
      have e1 : (2 : ℚ) ^ ((-1022 : ℤ) - 52) = 2 * (2 : ℚ) ^ (-1075 : ℤ) := by
        rw [show ((-1022 : ℤ) - 52) = (-1075 : ℤ) + 1 by norm_num,
          zpow_add_one₀ (by norm_num : (2 : ℚ) ≠ 0)]
        ring
      rw [e1]
      generalize (2 : ℚ) ^ (-1075 : ℤ) = c
      constructor <;> intro h <;> linarith
    · rw [max_eq_left he.le]
      have e1 : (2 : ℚ) ^ (Dbl.exponent q) = (2 : ℚ) ^ (Dbl.exponent q - 52) * 2 ^ (52 : ℤ) := by
        rw [← zpow_add₀ (by norm_num : (2 : ℚ) ≠ 0)]
        congr 1
        ring
      have hp2 := Dbl.two_zpow_pos (Dbl.exponent q - 52)
      have h52 : (1 : ℚ) ≤ (2 : ℚ) ^ (52 : ℤ) := by norm_num
      have hbig : (2 : ℚ) ^ (-1075 : ℤ) < (2 : ℚ) ^ (Dbl.exponent q) :=
        zpow_lt_zpow_right₀ (by norm_num) (by omega)
      have hUK := le_mul_of_one_le_right hp2.le h52
      rw [e1] at hlow hbig
      generalize (2 : ℚ) ^ (-1075 : ℤ) = c at *
      generalize (2 : ℚ) ^ (Dbl.exponent q - 52) = U at *
      generalize (2 : ℚ) ^ (52 : ℤ) = K at *
      constructor
      · intro h
        linarith
      · intro h
        linarith
  unfold Dbl.roundPos
  simp only
  split_ifs with h
  · rw [← hzero]
    constructor
    · intro h0
      have h1 : (Dbl.roundHalfEven (q / (2 : ℚ) ^ (max (Dbl.exponent q) (-1022) - 52)) : ℚ)
          * (2 : ℚ) ^ (max (Dbl.exponent q) (-1022) - 52) = 0 := Dbl.fin.inj h0
      rcases mul_eq_zero.mp h1 with h2 | h2
      · exact_mod_cast h2
      · exact absurd h2 hp.ne'
    · intro h0
      rw [h0, Nat.cast_zero, zero_mul]
  · constructor
    · intro h0
      cases h0
    · intro h0
      exfalso
      apply h
      rw [hzero.mpr h0, Nat.cast_zero, zero_mul]
      exact Dbl.two_zpow_pos 1024

theorem Dbl.round64_fin (q : ℚ) :
    Dbl.round64 (Dbl.fin q)
      = if 0 < q then Dbl.roundPos q else if q < 0 then Dbl.neg (Dbl.roundPos (-q))
        else Dbl.fin 0 := rfl

/-- A finite value rounds to `0` exactly when its magnitude is at most `2 ^ (-1075)`. -/
theorem Dbl.round64_fin_eq_zero (q : ℚ) :
    Dbl.round64 (Dbl.fin q) = Dbl.fin 0 ↔ |q| ≤ (2 : ℚ) ^ (-1075 : ℤ) := by
  have hp := Dbl.two_zpow_pos (-1075)
  rw [Dbl.round64_fin]
  split_ifs with h1 h2
  · rw [Dbl.roundPos_eq_zero q h1, abs_of_pos h1]
  · have hq : 0 < -q := by linarith
    rw [abs_of_neg h2, ← Dbl.roundPos_eq_zero (-q) hq]
    rcases Dbl.roundPos_cases (-q) with h | ⟨r, h, -⟩
    · rw [h]
      constructor <;> intro h0 <;> cases h0
    · rw [h]
      show Dbl.fin (-r) = Dbl.fin 0 ↔ Dbl.fin r = Dbl.fin 0
      constructor
      · intro h0
        have := Dbl.fin.inj h0
        rw [show r = 0 by linarith]
      · intro h0
        have := Dbl.fin.inj h0
        rw [show -r = 0 by linarith]
  · have : q = 0 := le_antisymm (not_lt.mp h1) (not_lt.mp h2)
    subst this
    rw [abs_zero]
    exact ⟨fun _ => hp.le, fun _ => rfl⟩

/-- The nearest natural number is within one half. -/
theorem Dbl.roundHalfEven_near (x : ℚ) (hx : 0 ≤ x) :
    |(Dbl.roundHalfEven x : ℚ) - x| ≤ 1 / 2 := by
  have hfl0 : 0 ≤ Int.floor x := Int.floor_nonneg.mpr hx
  have hle : ((Int.floor x : ℤ) : ℚ) ≤ x := Int.floor_le x
  have hlt : x < ((Int.floor x : ℤ) : ℚ) + 1 := Int.lt_floor_add_one x
  have hcast : (((Int.floor x).toNat : ℕ) : ℚ) = ((Int.floor x : ℤ) : ℚ) := by
    have : (((Int.floor x).toNat : ℕ) : ℤ) = Int.floor x := Int.toNat_of_nonneg hfl0
    exact_mod_cast this
  rw [← hcast] at hle hlt
  unfold Dbl.roundHalfEven
  simp only
  generalize (Int.floor x).toNat = f at *
  rw [abs_le]
  split_ifs with h1 h2 h3
  · constructor <;> linarith
  · push_cast
    constructor <;> linarith
  · constructor <;> linarith
  · push_cast
    constructor <;> linarith

/-- What `roundPos` returns for `q > 0`: with `u` the spacing of the binary64 numbers
near `q`, a multiple `m * u` of the spacing within half a spacing of `q`, whose
significand `m` has at most 53 binary digits (or is `2 ^ 53`), and `+infinity` when
that multiple is `2 ^ 1024` or more. -/
theorem Dbl.roundPos_spec (q : ℚ) (hq : 0 < q) :
    ∃ m : ℕ, m ≤ 2 ^ 53 ∧
      |(m : ℚ) * (2 : ℚ) ^ (max (Dbl.exponent q) (-1022) - 52) - q|
        ≤ (2 : ℚ) ^ (max (Dbl.exponent q) (-1022) - 52) / 2 ∧
      Dbl.roundPos q
        = if (m : ℚ) * (2 : ℚ) ^ (max (Dbl.exponent q) (-1022) - 52) < (2 : ℚ) ^ (1024 : ℤ)
          then Dbl.fin ((m : ℚ) * (2 : ℚ) ^ (max (Dbl.exponent q) (-1022) - 52))
          else Dbl.posInf := by
  obtain ⟨-, hup⟩ := Dbl.exponent_spec q hq
  have hu := Dbl.two_zpow_pos (max (Dbl.exponent q) (-1022) - 52)
  have hx : 0 ≤ q / (2 : ℚ) ^ (max (Dbl.exponent q) (-1022) - 52) := div_nonneg hq.le hu.le
  have hnear := Dbl.roundHalfEven_near _ hx
  have hbound : q / (2 : ℚ) ^ (max (Dbl.exponent q) (-1022) - 52) < (2 : ℚ) ^ (53 : ℤ) := by
    rw [div_lt_iff₀ hu, ← zpow_add₀ (by norm_num : (2 : ℚ) ≠ 0)]
    refine hup.trans_le (Dbl.two_zpow_le ?_)
    have := le_max_left (Dbl.exponent q) (-1022)
    omega
  refine ⟨Dbl.roundHalfEven (q / (2 : ℚ) ^ (max (Dbl.exponent q) (-1022) - 52)), ?_, ?_, rfl⟩
  · have h53 : (2 : ℚ) ^ (53 : ℤ) = ((2 ^ 53 : ℕ) : ℚ) := by norm_num
    rw [h53] at hbound
    have h1 := (abs_le.mp hnear).2
    have h2 : ((Dbl.roundHalfEven (q / (2 : ℚ) ^ (max (Dbl.exponent q) (-1022) - 52)) : ℕ) : ℚ)
        < ((2 ^ 53 + 1 : ℕ) : ℚ) := by
      push_cast
      push_cast at hbound
      linarith
    have h3 := Nat.cast_lt.mp h2
    omega
  · generalize Dbl.roundHalfEven (q / (2 : ℚ) ^ (max (Dbl.exponent q) (-1022) - 52)) = m at *
    generalize (2 : ℚ) ^ (max (Dbl.exponent q) (-1022) - 52) = u at *
    have e : (m : ℚ) * u - q = ((m : ℚ) - q / u) * u := by
      field_simp
    rw [e, abs_mul, abs_of_pos hu]
    calc |(m : ℚ) - q / u| * u ≤ 1 / 2 * u := mul_le_mul_of_nonneg_right hnear hu.le
      _ = u / 2 := by ring

/-- Values of `round64`: binary64 numbers are kept; `1/10` goes to the double nearest to
it; the least positive binary64 number is `2 ^ (-1074)` and half of it goes to `0` (the
tie goes to the even neighbour); a tie between two neighbours goes to the one with the
even significand; the greatest finite binary64 number is `2 ^ 1024 - 2 ^ 971`, and
`2 ^ 1024 - 2 ^ 970`, half way to `2 ^ 1024`, goes to `+infinity`. -/
theorem Dbl.round64_samples :
    Dbl.round64 (Dbl.fin 3) = Dbl.fin 3 ∧
    Dbl.round64 (Dbl.fin (1 / 10)) = Dbl.fin (3602879701896397 / 36028797018963968) ∧
    Dbl.round64 (Dbl.fin (-1 / 10)) = Dbl.fin (-3602879701896397 / 36028797018963968) ∧
    Dbl.round64 (Dbl.fin ((2 : ℚ) ^ (-1074 : ℤ))) = Dbl.fin ((2 : ℚ) ^ (-1074 : ℤ)) ∧
    Dbl.round64 (Dbl.fin ((2 : ℚ) ^ (-1075 : ℤ))) = Dbl.fin 0 ∧
    Dbl.round64 (Dbl.fin (3 * (2 : ℚ) ^ (-1075 : ℤ))) = Dbl.fin ((2 : ℚ) ^ (-1073 : ℤ)) ∧
    Dbl.round64 (Dbl.fin (1 + (2 : ℚ) ^ (-53 : ℤ))) = Dbl.fin 1 ∧
    Dbl.round64 (Dbl.fin (1 + 3 * (2 : ℚ) ^ (-53 : ℤ))) = Dbl.fin (1 + (2 : ℚ) ^ (-51 : ℤ)) ∧
    Dbl.round64 (Dbl.fin ((2 : ℚ) ^ (1024 : ℤ) - (2 : ℚ) ^ (971 : ℤ)))
      = Dbl.fin ((2 : ℚ) ^ (1024 : ℤ) - (2 : ℚ) ^ (971 : ℤ)) ∧
    Dbl.round64 (Dbl.fin ((2 : ℚ) ^ (1024 : ℤ) - (2 : ℚ) ^ (970 : ℤ) - 1))
      = Dbl.fin ((2 : ℚ) ^ (1024 : ℤ) - (2 : ℚ) ^ (971 : ℤ)) ∧
    Dbl.round64 (Dbl.fin ((2 : ℚ) ^ (1024 : ℤ) - (2 : ℚ) ^ (970 : ℤ))) = Dbl.posInf ∧
    Dbl.round64 (Dbl.fin (-(2 : ℚ) ^ (1024 : ℤ))) = Dbl.negInf :=
  ⟨by decide!, by decide!, by decide!, by decide!, by decide!, by decide!, by decide!,
    by decide!, by decide!, by decide!, by decide!, by decide!⟩

/-! ## The objective function in the two arithmetics -/

theorem objectiveFunctionIn_nil (ar : Arith) : objectiveFunctionIn ar [] = Dbl.fin 0 := rfl

theorem objectiveFunctionIn_append (ar : Arith) (position : List Dbl) (x : Dbl) :
    objectiveFunctionIn ar (position ++ [x])
      = ar.add (objectiveFunctionIn ar position) (ar.mul x x) := by
  simp [objectiveFunctionIn, List.foldl_append]

theorem Dbl.grained_nonneg {x : Dbl} (h : Dbl.grained x) : Dbl.fin 0 ≤ x := by
  rcases h with rfl | ⟨r, rfl, hr⟩
  · rfl
  · rw [Dbl.fin_le_fin]
    rcases hr with rfl | hr
    · exact le_refl 0
    · exact (Dbl.two_zpow_pos _).le.trans hr

theorem Dbl.nonneg_cases {x : Dbl} (h : Dbl.fin 0 ≤ x) :
    x = Dbl.posInf ∨ ∃ q, x = Dbl.fin q ∧ 0 ≤ q := by
  cases x with
  | nan => cases h
  | negInf => cases h
  | fin q => exact Or.inr ⟨q, rfl, (Dbl.fin_le_fin 0 q).mp h⟩
  | posInf => exact Or.inl rfl

/-- Rounding a non-negative value gives `+infinity`, `0` or a finite value of at least
`2 ^ (-1074)`. -/
theorem Dbl.round64_grained {x : Dbl} (h : Dbl.fin 0 ≤ x) : Dbl.grained (Dbl.round64 x) := by
  rcases Dbl.nonneg_cases h with rfl | ⟨q, rfl, hq⟩
  · exact Or.inl rfl
  · rw [Dbl.round64_fin]
    split_ifs with h1 h2
    · exact Dbl.roundPos_cases q
    · exact absurd hq (not_le.mpr h2)
    · exact Or.inr ⟨0, rfl, Or.inl rfl⟩

theorem Dbl.square_nonneg (x : Dbl) (hx : x ≠ Dbl.nan) : Dbl.fin 0 ≤ Dbl.mul x x := by
  cases x with
  | nan => exact absurd rfl hx
  | negInf => rfl
  | fin q =>
    show Dbl.fin 0 ≤ Dbl.fin (q * q)
    rw [Dbl.fin_le_fin]
    exact mul_self_nonneg q
  | posInf => rfl

theorem Dbl.sum_nonneg {x y : Dbl} (hx : Dbl.fin 0 ≤ x) (hy : Dbl.fin 0 ≤ y) :
    Dbl.fin 0 ≤ Dbl.add x y := by
  rcases Dbl.nonneg_cases hx with rfl | ⟨a, rfl, ha⟩ <;>
    rcases Dbl.nonneg_cases hy with rfl | ⟨b, rfl, hb⟩
  · rfl
  · rfl
  · rfl
  · show Dbl.fin 0 ≤ Dbl.fin (a + b)
    rw [Dbl.fin_le_fin]
    exact add_nonneg ha hb

/-- In both arithmetics the square of a value other than NaN is `>= 0`, and the sum of
two values `>= 0` is `>= 0`. -/
theorem Arith.sign_rules (ar : Arith) (har : ar = Arith.rational ∨ ar = Arith.binary64) :
    (∀ x, x ≠ Dbl.nan → Dbl.fin 0 ≤ ar.mul x x) ∧
      ∀ x y, Dbl.fin 0 ≤ x → Dbl.fin 0 ≤ y → Dbl.fin 0 ≤ ar.add x y := by
  rcases har with rfl | rfl
  · exact ⟨Dbl.square_nonneg, fun x y hx hy => Dbl.sum_nonneg hx hy⟩
  · exact ⟨fun x hx => Dbl.grained_nonneg (Dbl.round64_grained (Dbl.square_nonneg x hx)),
      fun x y hx hy => Dbl.grained_nonneg (Dbl.round64_grained (Dbl.sum_nonneg hx hy))⟩

theorem objectiveFunctionIn_foldl_nonneg (ar : Arith)
    (har : ar = Arith.rational ∨ ar = Arith.binary64) (position : List Dbl)
    (hp : ∀ x ∈ position, x ≠ Dbl.nan) (acc : Dbl) (hacc : Dbl.fin 0 ≤ acc) :
    Dbl.fin 0 ≤ position.foldl (fun sum val => ar.add sum (ar.mul val val)) acc := by
  obtain ⟨hmul, hadd⟩ := Arith.sign_rules ar har
  induction position generalizing acc with
  | nil => exact hacc
  | cons x xs ih =>
    rw [List.foldl_cons]
    exact ih (fun y hy => hp y (List.mem_cons_of_mem _ hy)) _
      (hadd _ _ hacc (hmul x (hp x (List.mem_cons_self _ _))))

/-- In both arithmetics the objective value of a position without a NaN coordinate is
`>= 0`; in particular it is not NaN. -/
theorem objectiveFunctionIn_nonneg (ar : Arith)
    (har : ar = Arith.rational ∨ ar = Arith.binary64) (position : List Dbl)
    (hp : ∀ x ∈ position, x ≠ Dbl.nan) : Dbl.fin 0 ≤ objectiveFunctionIn ar position :=
  objectiveFunctionIn_foldl_nonneg ar har position hp _ (le_refl (0 : ℚ) |> (Dbl.fin_le_fin 0 0).mpr)

theorem Dbl.round64_nan : Dbl.round64 Dbl.nan = Dbl.nan := rfl

theorem Dbl.round64_posInf : Dbl.round64 Dbl.posInf = Dbl.posInf := rfl

theorem Dbl.grained_ne_nan {x : Dbl} (h : Dbl.grained x) : x ≠ Dbl.nan := by
  rcases h with rfl | ⟨r, rfl, -⟩ <;> intro h0 <;> cases h0

/-- The rounded square of a double: NaN for NaN, and otherwise `+infinity`, `0` or a
finite value of at least `2 ^ (-1074)`. -/
theorem Arith.binary64_mul_self (x : Dbl) :
    (x = Dbl.nan ∧ Arith.binary64.mul x x = Dbl.nan) ∨
      (x ≠ Dbl.nan ∧ Dbl.grained (Arith.binary64.mul x x)) := by
  by_cases hx : x = Dbl.nan
  · subst hx
    exact Or.inl ⟨rfl, rfl⟩
  · exact Or.inr ⟨hx, Dbl.round64_grained (Dbl.square_nonneg x hx)⟩

/-- The rounded square of a double is `0` exactly when the double is finite and its
exact square is at most `2 ^ (-1075)`. -/
theorem Arith.binary64_mul_self_eq_zero (x : Dbl) :
    Arith.binary64.mul x x = Dbl.fin 0 ↔ ∃ q, x = Dbl.fin q ∧ q * q ≤ (2 : ℚ) ^ (-1075 : ℤ) := by
  cases x with
  | nan =>
    constructor
    · intro h; cases h
    · rintro ⟨q, h, -⟩; cases h
  | negInf =>
    constructor
    · intro h; cases h
    · rintro ⟨q, h, -⟩; cases h
  | posInf =>
    constructor
    · intro h; cases h
    · rintro ⟨q, h, -⟩; cases h
  | fin q =>
    show Dbl.round64 (Dbl.fin (q * q)) = Dbl.fin 0 ↔ _
    rw [Dbl.round64_fin_eq_zero, abs_mul_self]
    constructor
    · intro h
      exact ⟨q, rfl, h⟩
    · rintro ⟨q', h, hq'⟩
      cases h
      exact hq'

/-- The rounded sum of two rounded non-negative values is `0` only when both are `0`. -/
theorem Arith.binary64_add_eq_zero {s m : Dbl} (hs : Dbl.grained s) (hm : Dbl.grained m) :
    Arith.binary64.add s m = Dbl.fin 0 ↔ s = Dbl.fin 0 ∧ m = Dbl.fin 0 := by
  have e1 : (2 : ℚ) ^ (-1074 : ℤ) = 2 * (2 : ℚ) ^ (-1075 : ℤ) := by
    rw [show (-1074 : ℤ) = (-1075 : ℤ) + 1 by norm_num,
      zpow_add_one₀ (by norm_num : (2 : ℚ) ≠ 0)]
    ring
  have hc := Dbl.two_zpow_pos (-1075)
  rcases hs with rfl | ⟨a, rfl, ha⟩
  · have : Arith.binary64.add Dbl.posInf m = Dbl.posInf := by
      rcases hm with rfl | ⟨b, rfl, -⟩ <;> rfl
    rw [this]
    constructor
    · intro h; cases h
    · rintro ⟨h, -⟩; cases h
  · rcases hm with rfl | ⟨b, rfl, hb⟩
    · have : Arith.binary64.add (Dbl.fin a) Dbl.posInf = Dbl.posInf := rfl
      rw [this]
      constructor
      · intro h; cases h
      · rintro ⟨-, h⟩; cases h
    · show Dbl.round64 (Dbl.fin (a + b)) = Dbl.fin 0 ↔ _
      rw [Dbl.round64_fin_eq_zero]
      have ha0 : 0 ≤ a := by
        rcases ha with rfl | ha
        · exact le_refl 0
        · exact (Dbl.two_zpow_pos _).le.trans ha
      have hb0 : 0 ≤ b := by
        rcases hb with rfl | hb
        · exact le_refl 0
        · exact (Dbl.two_zpow_pos _).le.trans hb
      rw [abs_of_nonneg (add_nonneg ha0 hb0), e1] at *
      generalize (2 : ℚ) ^ (-1075 : ℤ) = c at *
      constructor
      · intro h
        have ha' : a = 0 := by
          rcases ha with h0 | h0
          · exact h0
          · linarith
        have hb' : b = 0 := by
          rcases hb with h0 | h0
          · exact h0
          · linarith
        rw [ha', hb']
        exact ⟨rfl, rfl⟩
      · rintro ⟨h1, h2⟩
        have ha' : a = 0 := Dbl.fin.inj h1
        have hb' : b = 0 := Dbl.fin.inj h2
        rw [ha', hb']
        linarith

/-- One step `sum += val * val` of the objective function in binary64 arithmetic. -/
theorem Arith.binary64_step (acc x : Dbl) (hacc : acc = Dbl.nan ∨ Dbl.grained acc) :
    (Arith.binary64.add acc (Arith.binary64.mul x x) = Dbl.nan ∨
      Dbl.grained (Arith.binary64.add acc (Arith.binary64.mul x x))) ∧
    (Arith.binary64.add acc (Arith.binary64.mul x x) = Dbl.fin 0
      ↔ acc = Dbl.fin 0 ∧ Arith.binary64.mul x x = Dbl.fin 0) ∧
    (acc = Dbl.nan ∨ x = Dbl.nan → Arith.binary64.add acc (Arith.binary64.mul x x) = Dbl.nan) ∧
    (Dbl.grained acc → x ≠ Dbl.nan →
      Dbl.grained (Arith.binary64.add acc (Arith.binary64.mul x x))) := by
  have hnan1 : ∀ y, Arith.binary64.add Dbl.nan y = Dbl.nan := by
    intro y
    show Dbl.round64 (Dbl.nan + y) = Dbl.nan
    rw [Dbl.nan_add]
    rfl
  have hnan2 : ∀ y, Arith.binary64.add y Dbl.nan = Dbl.nan := by
    intro y
    show Dbl.round64 (y + Dbl.nan) = Dbl.nan
    rw [Dbl.add_nan]
    rfl
  rcases hacc with rfl | hacc
  · rw [hnan1]
    refine ⟨Or.inl rfl, ?_, fun _ => rfl, fun h => absurd rfl (Dbl.grained_ne_nan h)⟩
    constructor
    · intro h; cases h
    · rintro ⟨h, -⟩; cases h
  · rcases Arith.binary64_mul_self x with ⟨rfl, hm⟩ | ⟨hx, hm⟩
    · rw [hm, hnan2]
      refine ⟨Or.inl rfl, ?_, fun _ => rfl, fun _ h => absurd rfl h⟩
      constructor
      · intro h; cases h
      · rintro ⟨-, h⟩; cases h
    · have hg : Dbl.grained (Arith.binary64.add acc (Arith.binary64.mul x x)) :=
        Dbl.round64_grained (Dbl.sum_nonneg (Dbl.grained_nonneg hacc) (Dbl.grained_nonneg hm))
      refine ⟨Or.inr hg, Arith.binary64_add_eq_zero hacc hm, ?_, fun _ _ => hg⟩
      rintro (h | h)
      · exact absurd h (Dbl.grained_ne_nan hacc)
      · exact absurd h hx

theorem objectiveFunctionIn_foldl_binary64 (position : List Dbl) (acc : Dbl)
    (hacc : acc = Dbl.nan ∨ Dbl.grained acc) :
    (position.foldl (fun sum val => Arith.binary64.add sum (Arith.binary64.mul val val)) acc
        = Dbl.fin 0
      ↔ acc = Dbl.fin 0 ∧ ∀ x ∈ position, Arith.binary64.mul x x = Dbl.fin 0) ∧
    (acc = Dbl.nan ∨ Dbl.nan ∈ position →
      position.foldl (fun sum val => Arith.binary64.add sum (Arith.binary64.mul val val)) acc
        = Dbl.nan) := by
  induction position generalizing acc with
  | nil =>
    refine ⟨by simp, ?_⟩
    rintro (h | h)
    · exact h
    · cases h
  | cons x xs ih =>
    obtain ⟨h1, h2, h3, -⟩ := Arith.binary64_step acc x hacc
    obtain ⟨i1, i2⟩ := ih _ h1
    rw [List.foldl_cons]
    refine ⟨?_, ?_⟩
    · rw [i1, h2]
      simp only [List.mem_cons, forall_eq_or_imp]
      tauto
    · intro h
      apply i2
      rcases h with h | h
      · exact Or.inl (h3 (Or.inl h))
      · rcases List.mem_cons.mp h with h | h
        · exact Or.inl (h3 (Or.inr h.symm))
        · exact Or.inr h

/-- Where no operation rounds, the binary64 objective value is the sum of the squares:
it is so when every square and every partial sum is a binary64 number. -/
theorem objectiveFunctionIn_binary64_exact (qs : List ℚ)
    (hsq : ∀ q ∈ qs, Dbl.representable (q * q))
    (hsum : ∀ k, k ≤ qs.length → Dbl.representable (((qs.take k).map (fun q => q * q)).sum)) :
    objectiveFunctionIn Arith.binary64 (qs.map Dbl.fin)
      = Dbl.fin ((qs.map (fun q => q * q)).sum) := by
  induction qs using List.reverseRecOn with
  | nil => rfl
  | append_singleton l a ih =>
    have h1 : objectiveFunctionIn Arith.binary64 (l.map Dbl.fin)
        = Dbl.fin ((l.map (fun q => q * q)).sum) := by
      apply ih
      · intro q hq
        exact hsq q (List.mem_append_left _ hq)
      · intro k hk
        have := hsum k (by simp; omega)
        rwa [List.take_append_of_le_length hk] at this
    have h2 : Dbl.round64 (Dbl.fin (a * a)) = Dbl.fin (a * a) :=
      hsq a (List.mem_append_right _ (List.mem_singleton_self a))
    have h3 : Dbl.round64 (Dbl.fin (((l ++ [a]).map (fun q => q * q)).sum))
        = Dbl.fin (((l ++ [a]).map (fun q => q * q)).sum) := by
      have := hsum (l ++ [a]).length (le_refl _)
      rwa [List.take_length] at this
    rw [List.map_append, List.map_singleton, objectiveFunctionIn_append, h1]
    show Dbl.round64 (Dbl.fin _ + Dbl.round64 (Dbl.fin (a * a))) = _
    rw [h2]
    show Dbl.round64 (Dbl.fin (_ + a * a)) = _
    rw [← h3]
    congr 2
    simp

/-! ## The run in a given arithmetic

The functions `objectiveFunctionIn`, `initializeWolvesIn`, `optimizeIn`, ... are the
member functions with the arithmetic as a parameter.  In the arithmetic
`Arith.rational` they are the functions of the sections above; in the arithmetic
`Arith.binary64` every operation rounds as the machine does. -/

theorem objectiveFunctionIn_rational : objectiveFunctionIn Arith.rational = objectiveFunction :=
  rfl

theorem initializeWolvesIn_rational : initializeWolvesIn Arith.rational = initializeWolves := rfl

theorem moveWolfIn_rational : moveWolfIn Arith.rational = moveWolf := rfl

theorem decayIn_rational : decayIn Arith.rational = decay := rfl

theorem optimizeIn_rational : optimizeIn Arith.rational = optimize := rfl

theorem midRunIn_rational : midRunIn Arith.rational = midRun := rfl

theorem runOffersIn_rational (draws : Nat → ℚ) (s : GrayWolfOptimizer) (t k : Nat) :
    runOffersIn Arith.rational draws s t k = runOffers draws s t k := by
  have past : ∀ t, pastOffersIn Arith.rational draws s t = pastOffers draws s t := by
    intro t
    induction t with
    | zero => rfl
    | succ t ih =>
      show pastOffersIn Arith.rational draws s t ++ _ = pastOffers draws s t ++ _
      rw [ih]
      rfl
  unfold runOffersIn runOffers
  rw [past]
  rfl

theorem moveCoordinateIn_leaders (ar : Arith) (draws : Nat → ℚ) (a : Dbl) (i j : Nat)
    (s : GrayWolfOptimizer) : (moveCoordinateIn ar draws a i j s).leaders = s.leaders := by
  unfold moveCoordinateIn
  simp only [setWolf_leaders, nextDraw_leaders]

theorem moveCoordinateIn_hyperparameters (ar : Arith) (draws : Nat → ℚ) (a : Dbl) (i j : Nat)
    (s : GrayWolfOptimizer) :
    (moveCoordinateIn ar draws a i j s).hyperparameters = s.hyperparameters := by
  unfold moveCoordinateIn
  simp only [setWolf_hyperparameters, nextDraw_hyperparameters]

theorem initializeWolfIn_hyperparameters (ar : Arith) (draws : Nat → ℚ) (i : Nat)
    (s : GrayWolfOptimizer) :
    (initializeWolfIn ar draws i s).hyperparameters = s.hyperparameters := by
  unfold initializeWolfIn
  rw [updateAlphaBetaDelta_hyperparameters]
  exact forLoop_preserved hyperparameters _ (drawCoordinate_hyperparameters draws i) _ s

theorem initializeWolvesIn_hyperparameters (ar : Arith) (draws : Nat → ℚ)
    (s : GrayWolfOptimizer) :
    (initializeWolvesIn ar draws s).hyperparameters = s.hyperparameters :=
  forLoop_preserved hyperparameters _ (initializeWolfIn_hyperparameters ar draws) _ s

theorem moveWolfIn_hyperparameters (ar : Arith) (draws : Nat → ℚ) (a : Dbl) (i : Nat)
    (s : GrayWolfOptimizer) :
    (moveWolfIn ar draws a i s).hyperparameters = s.hyperparameters := by
  unfold moveWolfIn
  rw [updateAlphaBetaDelta_hyperparameters]
  exact forLoop_preserved hyperparameters _ (moveCoordinateIn_hyperparameters ar draws a i) _ s

theorem iterationIn_hyperparameters (ar : Arith) (draws : Nat → ℚ) (iter : Nat)
    (s : GrayWolfOptimizer) :
    (iterationIn ar draws iter s).hyperparameters = s.hyperparameters :=
  forLoop_preserved hyperparameters _ (moveWolfIn_hyperparameters ar draws _) _ s

theorem iterationsIn_hyperparameters (ar : Arith) (draws : Nat → ℚ) (t : Nat)
    (s : GrayWolfOptimizer) :
    (forLoop t (iterationIn ar draws) s).hyperparameters = s.hyperparameters :=
  forLoop_preserved hyperparameters _ (iterationIn_hyperparameters ar draws) _ s

/-- The first component of `optimizeIn` is the object after `maxIter` iterations. -/
theorem optimizeIn_fst (ar : Arith) (draws : Nat → ℚ) (s : GrayWolfOptimizer) :
    (optimizeIn ar draws s).1
      = forLoop s.maxIter.toNat (iterationIn ar draws) (initializeWolvesIn ar draws s) := by
  unfold optimizeIn
  generalize s.maxIter.toNat = n
  induction n with
  | zero => simp [forLoop_zero]
  | succ n ih => simp only [forLoop_succ, ih]

theorem optimizeIn_of_maxIter_zero (ar : Arith) (draws : Nat → ℚ) (s : GrayWolfOptimizer)
    (h : s.maxIter = 0) : optimizeIn ar draws s = (initializeWolvesIn ar draws s, []) := by
  unfold optimizeIn
  rw [h]
  exact forLoop_zero _ _

theorem midRunIn_succ (ar : Arith) (draws : Nat → ℚ) (s : GrayWolfOptimizer) (t k : Nat) :
    midRunIn ar draws s t (k + 1)
      = moveWolfIn ar draws
          (decayIn ar t
            (forLoop t (iterationIn ar draws) (initializeWolvesIn ar draws s)).maxIter) k
          (midRunIn ar draws s t k) := by
  unfold midRunIn
  exact forLoop_succ _ _ _

theorem midRunIn_zero (ar : Arith) (draws : Nat → ℚ) (s : GrayWolfOptimizer) (t : Nat) :
    midRunIn ar draws s t 0
      = forLoop t (iterationIn ar draws) (initializeWolvesIn ar draws s) := by
  unfold midRunIn
  exact forLoop_zero _ _

/-- A complete sweep: after all `numWolves` wolves of iteration `t` the object is the
one after `t + 1` iterations. -/
theorem midRunIn_full (ar : Arith) (draws : Nat → ℚ) (s : GrayWolfOptimizer) (t : Nat) :
    midRunIn ar draws s t s.numWolves.toNat
      = forLoop (t + 1) (iterationIn ar draws) (initializeWolvesIn ar draws s) := by
  have hh : (forLoop t (iterationIn ar draws) (initializeWolvesIn ar draws s)).hyperparameters
      = s.hyperparameters :=
    (iterationsIn_hyperparameters ar draws t _).trans
      (initializeWolvesIn_hyperparameters ar draws s)
  have hnum : (forLoop t (iterationIn ar draws) (initializeWolvesIn ar draws s)).numWolves
      = s.numWolves :=
    congrArg (fun x => x.1) hh
  rw [forLoop_succ]
  show forLoop s.numWolves.toNat _ _ = iterationIn ar draws t _
  rw [← hnum]
  rfl

/-- The end of `optimizeIn` is the point of the run after `maxIter` iterations. -/
theorem optimizeIn_fst_eq_midRunIn (ar : Arith) (draws : Nat → ℚ) (s : GrayWolfOptimizer) :
    (optimizeIn ar draws s).1 = midRunIn ar draws s s.maxIter.toNat 0 := by
  rw [optimizeIn_fst, midRunIn_zero]

theorem initializeWolfIn_leaders (ar : Arith) (draws : Nat → ℚ) (i : Nat)
    (u v : GrayWolfOptimizer) (h : u.leaders = v.leaders) :
    (initializeWolfIn ar draws i u).leaders
      = (updateAlphaBetaDelta v ((initializeWolfIn ar draws i u).wolf i)
          (objectiveFunctionIn ar ((initializeWolfIn ar draws i u).wolf i))).leaders := by
  have hw : (initializeWolfIn ar draws i u).wolf i
      = (forLoop u.dim.toNat (drawCoordinate draws i) u).wolf i := by
    unfold initializeWolfIn wolf
    rw [updateAlphaBetaDelta_wolves]
  rw [hw]
  unfold initializeWolfIn
  exact updateAlphaBetaDelta_leaders_congr
    ((forLoop_preserved leaders _ (drawCoordinate_leaders draws i) _ u).trans h) _ _

theorem moveWolfIn_leaders (ar : Arith) (draws : Nat → ℚ) (a : Dbl) (i : Nat)
    (u v : GrayWolfOptimizer) (h : u.leaders = v.leaders) :
    (moveWolfIn ar draws a i u).leaders
      = (updateAlphaBetaDelta v ((moveWolfIn ar draws a i u).wolf i)
          (objectiveFunctionIn ar ((moveWolfIn ar draws a i u).wolf i))).leaders := by
  have hw : (moveWolfIn ar draws a i u).wolf i
      = (forLoop u.dim.toNat (moveCoordinateIn ar draws a i) u).wolf i := by
    unfold moveWolfIn wolf
    rw [updateAlphaBetaDelta_wolves]
  rw [hw]
  unfold moveWolfIn
  exact updateAlphaBetaDelta_leaders_congr
    ((forLoop_preserved leaders _ (moveCoordinateIn_leaders ar draws a i) _ u).trans h) _ _

theorem initialOffersIn_succ (ar : Arith) (draws : Nat → ℚ) (s : GrayWolfOptimizer) (k : Nat) :
    initialOffersIn ar draws s (k + 1)
      = initialOffersIn ar draws s k ++ [offerIn ar (initialScoredIn ar draws s k)] := by
  simp [initialOffersIn, List.range_succ]

theorem sweepOffersIn_succ (ar : Arith) (draws : Nat → ℚ) (s : GrayWolfOptimizer) (t k : Nat) :
    sweepOffersIn ar draws s t (k + 1)
      = sweepOffersIn ar draws s t k ++ [offerIn ar (movedScoredIn ar draws s t k)] := by
  simp [sweepOffersIn, List.range_succ]

/-- The leader records after `k` wolves of `initializeWolves` are those obtained by
passing the `k` scored positions, in order, to `updateAlphaBetaDelta`. -/
theorem initPrefixIn_leaders (ar : Arith) (draws : Nat → ℚ) (s : GrayWolfOptimizer) (k : Nat) :
    (forLoop k (initializeWolfIn ar draws) s).leaders
      = (offerAll s (initialOffersIn ar draws s k)).leaders := by
  induction k with
  | zero => simp [forLoop_zero, initialOffersIn, offerAll]
  | succ k ih =>
    rw [initialOffersIn_succ, offerAll_append_singleton]
    have := initializeWolfIn_leaders ar draws k _ _ ih
    rw [← forLoop_succ k (initializeWolfIn ar draws) s] at this
    exact this

/-- The leader records at every point of the sweeps are those obtained by passing all
the positions scored so far, in order, to `updateAlphaBetaDelta`. -/
theorem midRunIn_leaders (ar : Arith) (draws : Nat → ℚ) (s : GrayWolfOptimizer) (t k : Nat) :
    (midRunIn ar draws s t k).leaders = (offerAll s (runOffersIn ar draws s t k)).leaders := by
  have sweep : ∀ t,
      (midRunIn ar draws s t 0).leaders = (offerAll s (pastOffersIn ar draws s t)).leaders →
      ∀ k, (midRunIn ar draws s t k).leaders
        = (offerAll s (runOffersIn ar draws s t k)).leaders := by
    intro t h0 k
    induction k with
    | zero => simpa [runOffersIn, sweepOffersIn] using h0
    | succ k ih =>
      unfold runOffersIn
      rw [sweepOffersIn_succ, ← List.append_assoc, offerAll_append_singleton]
      have := moveWolfIn_leaders ar draws
        (decayIn ar t
          (forLoop t (iterationIn ar draws) (initializeWolvesIn ar draws s)).maxIter) k _ _ ih
      rw [← midRunIn_succ ar draws s t k] at this
      exact this
  have past : ∀ t,
      (midRunIn ar draws s t 0).leaders = (offerAll s (pastOffersIn ar draws s t)).leaders := by
    intro t
    induction t with
    | zero =>
      rw [midRunIn_zero, forLoop_zero]
      exact initPrefixIn_leaders ar draws s s.numWolves.toNat
    | succ t ih =>
      rw [midRunIn_zero, ← midRunIn_full]
      exact sweep t ih s.numWolves.toNat
  exact sweep t (past t) k

theorem mem_initialOffersIn {ar : Arith} {draws : Nat → ℚ} {s : GrayWolfOptimizer} {k : Nat}
    {o : List Dbl × Dbl} (h : o ∈ initialOffersIn ar draws s k) :
    ∃ i, i < k ∧ o = offerIn ar (initialScoredIn ar draws s i) := by
  obtain ⟨i, hi, rfl⟩ := List.mem_map.mp h
  exact ⟨i, List.mem_range.mp hi, rfl⟩

theorem mem_sweepOffersIn {ar : Arith} {draws : Nat → ℚ} {s : GrayWolfOptimizer} {t k : Nat}
    {o : List Dbl × Dbl} (h : o ∈ sweepOffersIn ar draws s t k) :
    ∃ i, i < k ∧ o = offerIn ar (movedScoredIn ar draws s t i) := by
  obtain ⟨i, hi, rfl⟩ := List.mem_map.mp h
  exact ⟨i, List.mem_range.mp hi, rfl⟩

theorem mem_pastOffersIn {ar : Arith} {draws : Nat → ℚ} {s : GrayWolfOptimizer} {t : Nat}
    {o : List Dbl × Dbl} (h : o ∈ pastOffersIn ar draws s t) :
    (∃ i, i < s.numWolves.toNat ∧ o = offerIn ar (initialScoredIn ar draws s i)) ∨
      ∃ t' i, t' < t ∧ i < s.numWolves.toNat ∧ o = offerIn ar (movedScoredIn ar draws s t' i) := by
  induction t with
  | zero => exact Or.inl (mem_initialOffersIn h)
  | succ t ih =>
    rcases List.mem_append.mp h with h1 | h1
    · rcases ih h1 with h2 | ⟨t', i, ht', hi, ho⟩
      · exact Or.inl h2
      · exact Or.inr ⟨t', i, Nat.lt_succ_of_lt ht', hi, ho⟩
    · obtain ⟨i, hi, ho⟩ := mem_sweepOffersIn h1
      exact Or.inr ⟨t, i, Nat.lt_succ_self t, hi, ho⟩

/-- Every pair of `runOffersIn` is a position scored by the run, with its objective
value: an initial position, a position moved in an earlier iteration, or a position
already moved in the current one. -/
theorem mem_runOffersIn {ar : Arith} {draws : Nat → ℚ} {s : GrayWolfOptimizer} {t k : Nat}
    {o : List Dbl × Dbl} (h : o ∈ runOffersIn ar draws s t k) :
    (∃ i, i < s.numWolves.toNat ∧ o = offerIn ar (initialScoredIn ar draws s i)) ∨
      ∃ t' i, (t' < t ∧ i < s.numWolves.toNat ∨ t' = t ∧ i < k) ∧
        o = offerIn ar (movedScoredIn ar draws s t' i) := by
  rcases List.mem_append.mp h with h1 | h1
  · rcases mem_pastOffersIn h1 with h2 | ⟨t', i, ht', hi, ho⟩
    · exact Or.inl h2
    · exact Or.inr ⟨t', i, Or.inl ⟨ht', hi⟩, ho⟩
  · obtain ⟨i, hi, ho⟩ := mem_sweepOffersIn h1
    exact Or.inr ⟨t, i, Or.inr ⟨rfl, hi⟩, ho⟩

theorem mem_runOffersIn_of_initial (ar : Arith) (draws : Nat → ℚ) (s : GrayWolfOptimizer)
    (t k i : Nat) (hi : i < s.numWolves.toNat) :
    offerIn ar (initialScoredIn ar draws s i) ∈ runOffersIn ar draws s t k := by
  have hpast : offerIn ar (initialScoredIn ar draws s i) ∈ pastOffersIn ar draws s t := by
    induction t with
    | zero => exact List.mem_map.mpr ⟨i, List.mem_range.mpr hi, rfl⟩
    | succ t ih => exact List.mem_append.mpr (Or.inl ih)
  exact List.mem_append.mpr (Or.inl hpast)

/-- The position that `initializeWolves` scores for wolf `i` of a constructed object is
the list of the draws `i * dim, ..., i * dim + dim - 1`, in any arithmetic. -/
theorem initialScoredIn_eq (ar : Arith) (draws : Nat → ℚ) {numWolves dim maxIter : Int}
    {lowerBound upperBound : Dbl} {s : GrayWolfOptimizer}
    (h : construct numWolves dim maxIter lowerBound upperBound = some s) (i : Nat)
    (hi : i < numWolves.toNat) :
    initialScoredIn ar draws s i = initialPosition draws dim.toNat i := by
  obtain ⟨-, -, hh, hw, -, hr⟩ := construct_eq h
  have hdim : s.dim = dim := congrArg (fun x => x.2.1) hh
  obtain ⟨-, -, hwol⟩ := initPrefixIn_spec ar draws s numWolves.toNat dim.toNat
    (by rw [hdim]) hw hr (i + 1) hi
  unfold initialScoredIn wolf
  rw [hwol, List.getD_eq_getElem?_getD,
    List.getElem?_append_left (by simp), List.getElem?_map,
    List.getElem?_range (Nat.lt_succ_self i)]
  rfl

/-- The population that `initializeWolves` leaves in a constructed object is the list
of the drawn positions, in any arithmetic. -/
theorem initializeWolvesIn_wolves (ar : Arith) (draws : Nat → ℚ) {numWolves dim maxIter : Int}
    {lowerBound upperBound : Dbl} {s : GrayWolfOptimizer}
    (h : construct numWolves dim maxIter lowerBound upperBound = some s) :
    (initializeWolvesIn ar draws s).wolves
      = (List.range numWolves.toNat).map (initialPosition draws dim.toNat) := by
  obtain ⟨-, -, hh, hw, -, hr⟩ := construct_eq h
  have hnum : s.numWolves = numWolves := congrArg (fun x => x.1) hh
  have hdim : s.dim = dim := congrArg (fun x => x.2.1) hh
  obtain ⟨-, -, hwol⟩ := initPrefixIn_spec ar draws s numWolves.toNat dim.toNat
    (by rw [hdim]) hw hr numWolves.toNat (le_refl _)
  unfold initializeWolvesIn
  rw [hnum, hwol]
  simp

theorem initialPosition_ne_nan (draws : Nat → ℚ) (d i : Nat) :
    ∀ x ∈ initialPosition draws d i, x ≠ Dbl.nan := by
  intro x hx
  obtain ⟨j, -, rfl⟩ := List.mem_map.mp hx
  intro h
  cases h

/-! ## The best score after a sequence of calls -/

theorem Dbl.lt_of_lt_of_lt {x y z : Dbl} (h : x < y) (h2 : y < z) : x < z :=
  Dbl.lt_of_lt_of_le h (Dbl.le_of_lt h2)

theorem Dbl.eq_posInf_of_posInf_le {x : Dbl} (h : Dbl.posInf ≤ x) : x = Dbl.posInf := by
  cases x with
  | nan => cases h
  | negInf => cases h
  | fin q => cases h
  | posInf => rfl

theorem Dbl.not_lt_posInf_iff {x : Dbl} (hx : x ≤ x) : ¬ x < Dbl.posInf ↔ x = Dbl.posInf := by
  cases x with
  | nan => cases hx
  | negInf => exact ⟨fun h => absurd rfl h, fun h => by cases h⟩
  | fin q => exact ⟨fun h => absurd rfl h, fun h => by cases h⟩
  | posInf => exact ⟨fun _ => rfl, fun _ h => by cases h⟩

/-- One call: the best score stays a number, does not increase, and is at most the
score passed unless that score is NaN. -/
theorem updateAlphaBetaDelta_alphaScore_bound (s : GrayWolfOptimizer) (position : List Dbl)
    (score : Dbl) (hs : s.alphaScore ≤ s.alphaScore) :
    (updateAlphaBetaDelta s position score).alphaScore
        ≤ (updateAlphaBetaDelta s position score).alphaScore ∧
    (updateAlphaBetaDelta s position score).alphaScore ≤ s.alphaScore ∧
    (score ≤ score → (updateAlphaBetaDelta s position score).alphaScore ≤ score) := by
  rcases updateAlphaBetaDelta_alphaRecord s position score with ⟨hlt, hrec⟩ | ⟨hnlt, hrec⟩
  · have e : (updateAlphaBetaDelta s position score).alphaScore = score :=
      congrArg Prod.snd hrec
    rw [e]
    exact ⟨Dbl.le_refl_of_lt_left hlt, Dbl.le_of_lt hlt, fun h => h⟩
  · have e : (updateAlphaBetaDelta s position score).alphaScore = s.alphaScore :=
      congrArg Prod.snd hrec
    rw [e]
    exact ⟨hs, hs, fun h => Dbl.le_of_not_lt hnlt h hs⟩

/-- After a sequence of calls, NaN scores included, the best score is a number, is at
most the best score from before, and is at most every score passed that is not NaN. -/
theorem offerAll_alphaScore_bound (s : GrayWolfOptimizer) (offers : List (List Dbl × Dbl))
    (hs : s.alphaScore ≤ s.alphaScore) :
    (offerAll s offers).alphaScore ≤ (offerAll s offers).alphaScore ∧
    (offerAll s offers).alphaScore ≤ s.alphaScore ∧
    ∀ o ∈ offers, o.2 ≤ o.2 → (offerAll s offers).alphaScore ≤ o.2 := by
  induction offers generalizing s with
  | nil =>
    refine ⟨hs, hs, ?_⟩
    intro o hmem
    cases hmem
  | cons o os ih =>
    rw [offerAll_cons]
    obtain ⟨h1, h2, h3⟩ := updateAlphaBetaDelta_alphaScore_bound s o.1 o.2 hs
    obtain ⟨i1, i2, i3⟩ := ih (updateAlphaBetaDelta s o.1 o.2) h1
    refine ⟨i1, Dbl.le_trans i2 h2, ?_⟩
    intro o' ho' hn
    rcases List.mem_cons.mp ho' with rfl | hmem
    · exact Dbl.le_trans i2 (h3 hn)
    · exact i3 o' hmem hn

/-- After a sequence of calls the alpha record is either the record from before, no
score passed having been below its score, or one of the pairs passed, with a score
below the score from before. -/
theorem offerAll_alphaRecord_cases (s : GrayWolfOptimizer) (offers : List (List Dbl × Dbl)) :
    ((offerAll s offers).alphaRecord = s.alphaRecord ∧
        ∀ o ∈ offers, ¬ o.2 < s.alphaScore) ∨
      ((offerAll s offers).alphaRecord ∈ offers ∧
        (offerAll s offers).alphaScore < s.alphaScore) := by
  induction offers generalizing s with
  | nil =>
    left
    refine ⟨rfl, ?_⟩
    intro o hmem
    cases hmem
  | cons o os ih =>
    rw [offerAll_cons]
    rcases updateAlphaBetaDelta_alphaRecord s o.1 o.2 with ⟨hlt, hrec⟩ | ⟨hnlt, hrec⟩
    · have e : (updateAlphaBetaDelta s o.1 o.2).alphaScore = o.2 := congrArg Prod.snd hrec
      right
      rcases ih (updateAlphaBetaDelta s o.1 o.2) with ⟨h1, -⟩ | ⟨h1, h2⟩
      · refine ⟨by rw [h1, hrec]; exact List.mem_cons_self _ _, ?_⟩
        have e2 : (offerAll (updateAlphaBetaDelta s o.1 o.2) os).alphaScore = o.2 :=
          (congrArg Prod.snd h1).trans e
        rw [e2]
        exact hlt
      · refine ⟨List.mem_cons_of_mem _ h1, ?_⟩
        rw [e] at h2
        exact Dbl.lt_of_lt_of_lt h2 hlt
    · have e : (updateAlphaBetaDelta s o.1 o.2).alphaScore = s.alphaScore :=
        congrArg Prod.snd hrec
      rcases ih (updateAlphaBetaDelta s o.1 o.2) with ⟨h1, h2⟩ | ⟨h1, h2⟩
      · left
        refine ⟨h1.trans hrec, ?_⟩
        intro o' ho'
        rcases List.mem_cons.mp ho' with rfl | hmem
        · exact hnlt
        · have := h2 o' hmem
          rwa [e] at this
      · right
        refine ⟨List.mem_cons_of_mem _ h1, ?_⟩
        rwa [e] at h2

/-- The best score after a sequence of calls from an object whose `alphaScore` is
`+infinity`: it is a number, a lower bound of every score passed that is not NaN, and
either still `+infinity` or one of the scores passed. -/
theorem offerAll_alphaScore_min (s : GrayWolfOptimizer) (offers : List (List Dbl × Dbl))
    (hs : s.alphaScore = Dbl.posInf) :
    (offerAll s offers).alphaScore ≤ (offerAll s offers).alphaScore ∧
    (∀ o ∈ offers, o.2 ≤ o.2 → (offerAll s offers).alphaScore ≤ o.2) ∧
    ((offerAll s offers).alphaScore = Dbl.posInf ∨
      ∃ o ∈ offers, (offerAll s offers).alphaScore = o.2) := by
  obtain ⟨h1, -, h3⟩ := offerAll_alphaScore_bound s offers (by rw [hs]; exact Dbl.posInf_le_self)
  refine ⟨h1, h3, ?_⟩
  rcases (offerAll_records s offers).1 with h | h
  · left
    have : (offerAll s offers).alphaScore = s.alphaScore := congrArg Prod.snd h
    rw [this, hs]
  · exact Or.inr ⟨_, h, rfl⟩

/-- The best score at every point of a run from a constructed object, in any
arithmetic: a number, at most every score offered so far that is not NaN, and either
`+infinity` or one of the scores offered so far. -/
theorem midRunIn_alphaScore_min (ar : Arith) (draws : Nat → ℚ) {numWolves dim maxIter : Int}
    {lowerBound upperBound : Dbl} {s : GrayWolfOptimizer}
    (h : construct numWolves dim maxIter lowerBound upperBound = some s) (t k : Nat) :
    (midRunIn ar draws s t k).alphaScore ≤ (midRunIn ar draws s t k).alphaScore ∧
    (∀ o ∈ runOffersIn ar draws s t k, o.2 ≤ o.2 → (midRunIn ar draws s t k).alphaScore ≤ o.2) ∧
    ((midRunIn ar draws s t k).alphaScore = Dbl.posInf ∨
      ∃ o ∈ runOffersIn ar draws s t k, (midRunIn ar draws s t k).alphaScore = o.2) := by
  obtain ⟨-, -, -, -, hl, -⟩ := construct_eq h
  have ha : s.alphaScore = Dbl.posInf := congrArg (fun x => x.1.2) hl
  rw [alphaScore_of_leaders (midRunIn_leaders ar draws s t k)]
  exact offerAll_alphaScore_min s _ ha

/-- In both arithmetics the score of an initial position is not NaN. -/
theorem initialScoredIn_score (ar : Arith) (har : ar = Arith.rational ∨ ar = Arith.binary64)
    (draws : Nat → ℚ) {numWolves dim maxIter : Int}
    {lowerBound upperBound : Dbl} {s : GrayWolfOptimizer}
    (h : construct numWolves dim maxIter lowerBound upperBound = some s) (i : Nat)
    (hi : i < numWolves.toNat) :
    (offerIn ar (initialScoredIn ar draws s i)).2 ≤ (offerIn ar (initialScoredIn ar draws s i)).2 := by
  rw [initialScoredIn_eq ar draws h i hi]
  exact Dbl.le_refl_of_le_right
    (objectiveFunctionIn_nonneg ar har _ (initialPosition_ne_nan draws dim.toNat i))

/-! ## The objective function of the machine -/

/-- C8, refuted as stated: in binary64 arithmetic the position whose one coordinate is
the binary64 number `0x1.cb30f83354ecbp-540`, which is not `0`, has the objective value
`0`, because its square underflows; and the position `[NaN]` has the objective value
NaN, which is not `>= 0`.  So it is false that the result is `0` only at the all-zero
position, and false that the result is `>= 0` for every position. -/
theorem objectiveFunction_zero_off_origin :
    Dbl.representable tinyCoordinate ∧ tinyCoordinate ≠ 0 ∧
    objectiveFunctionIn Arith.binary64 [Dbl.fin tinyCoordinate] = Dbl.fin 0 ∧
    objectiveFunctionIn Arith.binary64 [Dbl.nan] = Dbl.nan ∧
    ¬ Dbl.fin 0 ≤ objectiveFunctionIn Arith.binary64 [Dbl.nan] ∧
    ¬ (∀ position : List Dbl, objectiveFunctionIn Arith.binary64 position = Dbl.fin 0 →
        ∀ x ∈ position, x = Dbl.fin 0) ∧
    ¬ (∀ position : List Dbl, Dbl.fin 0 ≤ objectiveFunctionIn Arith.binary64 position) := by
  have h1 : objectiveFunctionIn Arith.binary64 [Dbl.fin tinyCoordinate] = Dbl.fin 0 := by
    decide!
  have h2 : tinyCoordinate ≠ 0 := by decide!
  have h3 : ¬ Dbl.fin 0 ≤ objectiveFunctionIn Arith.binary64 [Dbl.nan] := by decide!
  refine ⟨by decide!, h2, h1, by decide!, h3, ?_, ?_⟩
  · intro h
    have := h [Dbl.fin tinyCoordinate] h1 (Dbl.fin tinyCoordinate) (List.mem_singleton_self _)
    exact h2 (Dbl.fin.inj this)
  · intro h
    exact h3 (h [Dbl.nan])

/-- C8, amended: `objectiveFunction` returns the running sum `sum += val * val` of the
squares of the coordinates, each product and each sum being rounded by the arithmetic:
without rounding it is the sum of the squares, and in binary64 arithmetic it is the sum
of the squares whenever every square and every partial sum is a binary64 number.  In
binary64 arithmetic the result is `>= 0` for every position without a NaN coordinate
and NaN for a position with one; it is `0` at the all-zero position of every length;
and it is `0` exactly at the positions whose coordinates are all finite with a square
of at most `2 ^ (-1075)`, the magnitudes that underflow, not only at the all-zero
position.  So the minimum `0` is attained at the origin, and also near it. -/
theorem objectiveFunction_sum_of_squares :
    (∀ (ar : Arith) (position : List Dbl) (x : Dbl),
      objectiveFunctionIn ar [] = Dbl.fin 0 ∧
      objectiveFunctionIn ar (position ++ [x])
        = ar.add (objectiveFunctionIn ar position) (ar.mul x x)) ∧
    (∀ qs : List ℚ,
      objectiveFunction (qs.map Dbl.fin) = Dbl.fin ((qs.map (fun q => q * q)).sum)) ∧
    (∀ qs : List ℚ, (∀ q ∈ qs, Dbl.representable (q * q)) →
      (∀ k, k ≤ qs.length → Dbl.representable (((qs.take k).map (fun q => q * q)).sum)) →
      objectiveFunctionIn Arith.binary64 (qs.map Dbl.fin)
        = Dbl.fin ((qs.map (fun q => q * q)).sum)) ∧
    (∀ position : List Dbl, (∀ x ∈ position, x ≠ Dbl.nan) →
      Dbl.fin 0 ≤ objectiveFunctionIn Arith.binary64 position) ∧
    (∀ position : List Dbl, Dbl.nan ∈ position →
      objectiveFunctionIn Arith.binary64 position = Dbl.nan) ∧
    (∀ n : Nat, objectiveFunctionIn Arith.binary64 (List.replicate n (Dbl.fin 0)) = Dbl.fin 0) ∧
    (∀ position : List Dbl,
      objectiveFunctionIn Arith.binary64 position = Dbl.fin 0 ↔
        ∀ x ∈ position, ∃ q, x = Dbl.fin q ∧ q * q ≤ (2 : ℚ) ^ (-1075 : ℤ)) ∧
    objectiveFunctionIn Arith.binary64 [Dbl.fin 3, Dbl.fin (-4)] = Dbl.fin 25 := by
  have hzero : ∀ position : List Dbl,
      objectiveFunctionIn Arith.binary64 position = Dbl.fin 0 ↔
        ∀ x ∈ position, ∃ q, x = Dbl.fin q ∧ q * q ≤ (2 : ℚ) ^ (-1075 : ℤ) := by
    intro position
    have h := (objectiveFunctionIn_foldl_binary64 position (Dbl.fin 0)
      (Or.inr (Or.inr ⟨0, rfl, Or.inl rfl⟩))).1
    unfold objectiveFunctionIn
    rw [h]
    constructor
    · rintro ⟨-, h2⟩ x hx
      exact (Arith.binary64_mul_self_eq_zero x).mp (h2 x hx)
    · intro h2
      exact ⟨rfl, fun x hx => (Arith.binary64_mul_self_eq_zero x).mpr (h2 x hx)⟩
  refine ⟨fun ar position x => ⟨rfl, objectiveFunctionIn_append ar position x⟩,
    objectiveFunction_fin, objectiveFunctionIn_binary64_exact,
    objectiveFunctionIn_nonneg Arith.binary64 (Or.inr rfl), ?_, ?_, hzero, by decide!⟩
  · intro position hp
    exact (objectiveFunctionIn_foldl_binary64 position (Dbl.fin 0)
      (Or.inr (Or.inr ⟨0, rfl, Or.inl rfl⟩))).2 (Or.inr hp)
  · intro n
    rw [hzero]
    intro x hx
    refine ⟨0, List.eq_of_mem_replicate hx, ?_⟩
    rw [mul_zero]
    exact (Dbl.two_zpow_pos _).le

/-! ## The degenerate run -/

/-- C5, refuted as stated: in binary64 arithmetic, from the object constructed by
`GrayWolfOptimizer(1, 1, 0, -0x1p700, 0x1p700)` and the draw `2 ^ 600`, a binary64
number inside the bounds, `optimize` leaves the population `[[2 ^ 600]]`, whose one
score overflows to `+infinity`; a score of `+infinity` is not below the constructed
`alphaScore`, so the alpha record stays the constructed `([0], +infinity)`, and
`alphaWolf` is not a wolf of the initial population. -/
theorem degenerate_run_alphaWolf_not_in_population :
    construct 1 1 0 (Dbl.fin (-2 ^ 700)) (Dbl.fin (2 ^ 700)) = some overflowPack ∧
    Dbl.representable (overflowDraws 0) ∧
    overflowPack.lowerBound ≤ Dbl.fin (overflowDraws 0) ∧
    Dbl.fin (overflowDraws 0) < overflowPack.upperBound ∧
    (optimizeIn Arith.binary64 overflowDraws overflowPack).1.wolves = [[Dbl.fin (2 ^ 600)]] ∧
    objectiveFunctionIn Arith.binary64 [Dbl.fin (2 ^ 600)] = Dbl.posInf ∧
    (optimizeIn Arith.binary64 overflowDraws overflowPack).1.alphaRecord
      = ([Dbl.fin 0], Dbl.posInf) ∧
    (optimizeIn Arith.binary64 overflowDraws overflowPack).1.alphaWolf
      ∉ (optimizeIn Arith.binary64 overflowDraws overflowPack).1.wolves :=
  ⟨by decide!, by decide!, by decide!, by decide!, by decide!, by decide!, by decide!,
    by decide!⟩

/-- C5, amended (degenerate run): in exact and in binary64 arithmetic, for an object
constructed with `maxIter = 0` and `numWolves >= 1` (any `dim >= 0`), `optimize` does
what `initializeWolves` does and prints nothing; the population it leaves is the
initial population, wolf `i` holding the draws `i * dim, ..., i * dim + dim - 1`;
`alphaScore` is at most the objective value of every wolf of that population and is the
objective value of one of them, so it is the minimum of `objectiveFunction` over the
initial population.  When that minimum is below `+infinity`, `alphaWolf` is a wolf of
the population with that objective value.  When it is not, every initial score is
`+infinity` and the alpha record is still the constructed one, the all-zero position
with score `+infinity`. -/
theorem degenerate_run_best_is_minimum (ar : Arith)
    (har : ar = Arith.rational ∨ ar = Arith.binary64) (draws : Nat → ℚ) (numWolves dim : Int)
    (lowerBound upperBound : Dbl) (s : GrayWolfOptimizer)
    (h : construct numWolves dim 0 lowerBound upperBound = some s) (hn : 1 ≤ numWolves) :
    (optimizeIn ar draws s).1 = initializeWolvesIn ar draws s ∧
    (optimizeIn ar draws s).2 = [] ∧
    (optimizeIn ar draws s).1.wolves
      = (List.range numWolves.toNat).map (initialPosition draws dim.toNat) ∧
    (∀ w ∈ (optimizeIn ar draws s).1.wolves,
      (optimizeIn ar draws s).1.alphaScore ≤ objectiveFunctionIn ar w) ∧
    (∃ w ∈ (optimizeIn ar draws s).1.wolves,
      (optimizeIn ar draws s).1.alphaScore = objectiveFunctionIn ar w) ∧
    ((optimizeIn ar draws s).1.alphaScore < Dbl.posInf →
      (optimizeIn ar draws s).1.alphaWolf ∈ (optimizeIn ar draws s).1.wolves ∧
      (optimizeIn ar draws s).1.alphaScore
        = objectiveFunctionIn ar (optimizeIn ar draws s).1.alphaWolf) ∧
    (¬ (optimizeIn ar draws s).1.alphaScore < Dbl.posInf →
      (optimizeIn ar draws s).1.alphaRecord
        = (List.replicate dim.toNat (Dbl.fin 0), Dbl.posInf) ∧
      ∀ w ∈ (optimizeIn ar draws s).1.wolves, objectiveFunctionIn ar w = Dbl.posInf) := by
  obtain ⟨-, -, hh, -, hl, -⟩ := construct_eq h
  have hnum : s.numWolves = numWolves := congrArg (fun x => x.1) hh
  have hmax : s.maxIter = 0 := congrArg (fun x => x.2.2.1) hh
  have ha : s.alphaScore = Dbl.posInf := congrArg (fun x => x.1.2) hl
  have hrec0 : s.alphaRecord = (List.replicate dim.toNat (Dbl.fin 0), Dbl.posInf) :=
    congrArg (fun x => x.1) hl
  have hwol := initializeWolvesIn_wolves ar draws h
  have hlead : (initializeWolvesIn ar draws s).leaders
      = (offerAll s (initialOffersIn ar draws s numWolves.toNat)).leaders := by
    unfold initializeWolvesIn
    rw [hnum]
    exact initPrefixIn_leaders ar draws s numWolves.toNat
  obtain ⟨erec, -, -⟩ := records_of_leaders hlead
  have escore := alphaScore_of_leaders hlead
  have hoffer : ∀ o ∈ initialOffersIn ar draws s numWolves.toNat,
      ∃ i, i < numWolves.toNat ∧ o = offerIn ar (initialPosition draws dim.toNat i) := by
    intro o ho
    obtain ⟨i, hi, rfl⟩ := mem_initialOffersIn ho
    exact ⟨i, hi, by rw [initialScoredIn_eq ar draws h i hi]⟩
  have hmem : ∀ i, i < numWolves.toNat →
      offerIn ar (initialPosition draws dim.toNat i)
        ∈ initialOffersIn ar draws s numWolves.toNat := by
    intro i hi
    refine List.mem_map.mpr ⟨i, List.mem_range.mpr hi, ?_⟩
    rw [initialScoredIn_eq ar draws h i hi]
  have hscore : ∀ i, objectiveFunctionIn ar (initialPosition draws dim.toNat i)
      ≤ objectiveFunctionIn ar (initialPosition draws dim.toNat i) := fun i =>
    Dbl.le_refl_of_le_right
      (objectiveFunctionIn_nonneg ar har _ (initialPosition_ne_nan draws dim.toNat i))
  obtain ⟨hself, hbound, -⟩ :=
    offerAll_alphaScore_min s (initialOffersIn ar draws s numWolves.toNat) ha
  have hle : ∀ i, i < numWolves.toNat →
      (initializeWolvesIn ar draws s).alphaScore
        ≤ objectiveFunctionIn ar (initialPosition draws dim.toNat i) := by
    intro i hi
    rw [escore]
    exact hbound _ (hmem i hi) (hscore i)
  have hwolf : ∀ i, i < numWolves.toNat →
      initialPosition draws dim.toNat i ∈ (initializeWolvesIn ar draws s).wolves := by
    intro i hi
    rw [hwol]
    exact List.mem_map.mpr ⟨i, List.mem_range.mpr hi, rfl⟩
  have hpos : 0 < numWolves.toNat := by omega
  have hcases := offerAll_alphaRecord_cases s (initialOffersIn ar draws s numWolves.toNat)
  rw [← erec, ← escore, ha, hrec0] at hcases
  rw [optimizeIn_of_maxIter_zero ar draws s hmax]
  refine ⟨rfl, rfl, hwol, ?_, ?_, ?_, ?_⟩
  · intro w hw
    show (initializeWolvesIn ar draws s).alphaScore ≤ objectiveFunctionIn ar w
    rw [hwol] at hw
    obtain ⟨i, hi, rfl⟩ := List.mem_map.mp hw
    exact hle i (List.mem_range.mp hi)
  · show ∃ w ∈ (initializeWolvesIn ar draws s).wolves,
      (initializeWolvesIn ar draws s).alphaScore = objectiveFunctionIn ar w
    rcases hcases with ⟨hrec, -⟩ | ⟨hrec, -⟩
    · have hinf : (initializeWolvesIn ar draws s).alphaScore = Dbl.posInf :=
        congrArg Prod.snd hrec
      refine ⟨_, hwolf 0 hpos, ?_⟩
      have := hle 0 hpos
      rw [hinf] at this
      rw [hinf, Dbl.eq_posInf_of_posInf_le this]
    · obtain ⟨i, hi, hrec'⟩ := hoffer _ hrec
      exact ⟨_, hwolf i hi, congrArg Prod.snd hrec'⟩
  · intro hlt
    show (initializeWolvesIn ar draws s).alphaWolf ∈ (initializeWolvesIn ar draws s).wolves ∧
      (initializeWolvesIn ar draws s).alphaScore
        = objectiveFunctionIn ar (initializeWolvesIn ar draws s).alphaWolf
    change (initializeWolvesIn ar draws s).alphaScore < Dbl.posInf at hlt
    rcases hcases with ⟨hrec, -⟩ | ⟨hrec, -⟩
    · have hinf : (initializeWolvesIn ar draws s).alphaScore = Dbl.posInf :=
        congrArg Prod.snd hrec
      rw [hinf] at hlt
      cases hlt
    · obtain ⟨i, hi, hrec'⟩ := hoffer _ hrec
      have e1 : (initializeWolvesIn ar draws s).alphaWolf = initialPosition draws dim.toNat i :=
        congrArg Prod.fst hrec'
      have e2 : (initializeWolvesIn ar draws s).alphaScore
          = objectiveFunctionIn ar (initialPosition draws dim.toNat i) :=
        congrArg Prod.snd hrec'
      rw [e1, e2]
      exact ⟨hwolf i hi, rfl⟩
  · intro hnlt
    change ¬ (initializeWolvesIn ar draws s).alphaScore < Dbl.posInf at hnlt
    show (initializeWolvesIn ar draws s).alphaRecord
        = (List.replicate dim.toNat (Dbl.fin 0), Dbl.posInf) ∧
      ∀ w ∈ (initializeWolvesIn ar draws s).wolves, objectiveFunctionIn ar w = Dbl.posInf
    have hinf : (initializeWolvesIn ar draws s).alphaScore = Dbl.posInf :=
      (Dbl.not_lt_posInf_iff (by rw [escore]; exact hself)).mp hnlt
    refine ⟨?_, ?_⟩
    · rcases hcases with ⟨hrec, -⟩ | ⟨-, hlt⟩
      · exact hrec
      · exact absurd hlt hnlt
    · intro w hw
      rw [hwol] at hw
      obtain ⟨i, hi, rfl⟩ := List.mem_map.mp hw
      have := hle i (List.mem_range.mp hi)
      rw [hinf] at this
      exact Dbl.eq_posInf_of_posInf_le this

theorem degenerate_run_best_is_minimum_witness :
    construct 3 1 0 (-10) 10 = some descendingPack ∧
      (optimizeIn Arith.binary64 descendingDraws descendingPack).1.alphaWolf = [Dbl.fin 1] ∧
      (optimizeIn Arith.binary64 descendingDraws descendingPack).1.alphaWolf
        ∈ (optimizeIn Arith.binary64 descendingDraws descendingPack).1.wolves ∧
      (optimizeIn Arith.binary64 descendingDraws descendingPack).1.alphaScore
        = objectiveFunctionIn Arith.binary64
            (optimizeIn Arith.binary64 descendingDraws descendingPack).1.alphaWolf :=
  ⟨by decide, by decide!,
    (degenerate_run_best_is_minimum Arith.binary64 (Or.inr rfl) descendingDraws 3 1 (-10) 10
      descendingPack (by decide) (by decide)).2.2.2.2.2.1 (by decide!)⟩

/-! ## The best score is the running minimum of the scores that are numbers -/

/-- C17, refuted as stated: in binary64 arithmetic, from the object constructed by
`GrayWolfOptimizer(1, 1, 2, 0.0, 0x1.8p1023)` with the draw `2 ^ 1023` for the initial
position, `0` for the six draws of iteration `0` and `1/2` afterwards (binary64
numbers inside the ranges of their distributions), the three calls of
`updateAlphaBetaDelta` pass the scores `+infinity`, `+infinity` and NaN: the initial
score overflows, the first move gives the coordinate `+infinity`, and the second move
computes `0 * infinity`.  The final `alphaScore` is `+infinity`, and
`alphaScore <= NaN` is false: `alphaScore` is not at most every score offered. -/
theorem alphaScore_not_below_a_nan_score :
    construct 1 1 2 (Dbl.fin 0) (Dbl.fin (3 * 2 ^ 1022)) = some nanPack ∧
    (∀ n < 13, Dbl.representable (nanDraws n)) ∧
    nanPack.lowerBound ≤ Dbl.fin (nanDraws 0) ∧
    Dbl.fin (nanDraws 0) < nanPack.upperBound ∧
    (∀ n, 1 ≤ n → 0 ≤ nanDraws n ∧ nanDraws n < 1) ∧
    runOffersIn Arith.binary64 nanDraws nanPack 2 0
      = [([Dbl.fin (2 ^ 1023)], Dbl.posInf), ([Dbl.posInf], Dbl.posInf),
          ([Dbl.nan], Dbl.nan)] ∧
    (optimizeIn Arith.binary64 nanDraws nanPack).1.alphaScore = Dbl.posInf ∧
    ¬ (∀ o ∈ runOffersIn Arith.binary64 nanDraws nanPack 2 0,
        (optimizeIn Arith.binary64 nanDraws nanPack).1.alphaScore ≤ o.2) := by
  have hrun : runOffersIn Arith.binary64 nanDraws nanPack 2 0
      = [([Dbl.fin (2 ^ 1023)], Dbl.posInf), ([Dbl.posInf], Dbl.posInf),
          ([Dbl.nan], Dbl.nan)] := by decide!
  have halpha : (optimizeIn Arith.binary64 nanDraws nanPack).1.alphaScore = Dbl.posInf := by
    decide!
  refine ⟨by decide!, by decide!, by decide!, by decide!, ?_, hrun, halpha, ?_⟩
  · intro n hn
    have h0 : n ≠ 0 := by omega
    unfold nanDraws
    rw [if_neg h0]
    split_ifs <;> norm_num
  · intro hall
    have := hall ([Dbl.nan], Dbl.nan) (by rw [hrun]; simp)
    rw [halpha] at this
    cases this

/-- C17, amended (the best score is the running minimum of the scores that are
numbers): in a run from a constructed object, in any arithmetic, the leader records at
every point are those produced by passing to `updateAlphaBetaDelta`, in order, every
position scored so far with its objective value (initial and moved positions alike);
`alphaScore` is never NaN, is at most every score passed so far that is not NaN, and is
either still `+infinity` or one of the scores passed, after every wolf of
`initializeWolves`, after every wolf of every iteration and at the end of `optimize`.
A NaN score, which a moved position can have, is never promoted and bounds nothing.
In exact and in binary64 arithmetic the initial scores are not NaN, so for
`numWolves >= 1` the final `alphaScore` is one of the objective values scored during
the run and is at most the objective value of every wolf of the initial population. -/
theorem alphaScore_is_running_minimum (ar : Arith) (draws : Nat → ℚ)
    (numWolves dim maxIter : Int) (lowerBound upperBound : Dbl) (s : GrayWolfOptimizer)
    (h : construct numWolves dim maxIter lowerBound upperBound = some s) :
    (∀ k,
      (forLoop k (initializeWolfIn ar draws) s).leaders
        = (offerAll s (initialOffersIn ar draws s k)).leaders ∧
      (forLoop k (initializeWolfIn ar draws) s).alphaScore
        ≤ (forLoop k (initializeWolfIn ar draws) s).alphaScore ∧
      (∀ o ∈ initialOffersIn ar draws s k, o.2 ≤ o.2 →
        (forLoop k (initializeWolfIn ar draws) s).alphaScore ≤ o.2) ∧
      ((forLoop k (initializeWolfIn ar draws) s).alphaScore = Dbl.posInf ∨
        ∃ o ∈ initialOffersIn ar draws s k,
          (forLoop k (initializeWolfIn ar draws) s).alphaScore = o.2)) ∧
    (∀ t k,
      (midRunIn ar draws s t k).leaders = (offerAll s (runOffersIn ar draws s t k)).leaders ∧
      (midRunIn ar draws s t k).alphaScore ≤ (midRunIn ar draws s t k).alphaScore ∧
      (∀ o ∈ runOffersIn ar draws s t k, o.2 ≤ o.2 →
        (midRunIn ar draws s t k).alphaScore ≤ o.2) ∧
      ((midRunIn ar draws s t k).alphaScore = Dbl.posInf ∨
        ∃ o ∈ runOffersIn ar draws s t k, (midRunIn ar draws s t k).alphaScore = o.2)) ∧
    ((optimizeIn ar draws s).1 = midRunIn ar draws s maxIter.toNat 0 ∧
      (optimizeIn ar draws s).1.alphaScore ≤ (optimizeIn ar draws s).1.alphaScore ∧
      (∀ o ∈ runOffersIn ar draws s maxIter.toNat 0, o.2 ≤ o.2 →
        (optimizeIn ar draws s).1.alphaScore ≤ o.2) ∧
      ((optimizeIn ar draws s).1.alphaScore = Dbl.posInf ∨
        ∃ o ∈ runOffersIn ar draws s maxIter.toNat 0,
          (optimizeIn ar draws s).1.alphaScore = o.2)) ∧
    (ar = Arith.rational ∨ ar = Arith.binary64 → 1 ≤ numWolves →
      (∃ o ∈ runOffersIn ar draws s maxIter.toNat 0,
        (optimizeIn ar draws s).1.alphaScore = o.2) ∧
      ∀ w ∈ (initializeWolvesIn ar draws s).wolves,
        (optimizeIn ar draws s).1.alphaScore ≤ objectiveFunctionIn ar w) ∧
    (∀ t k o, o ∈ runOffersIn ar draws s t k →
      ∃ p, o = (p, objectiveFunctionIn ar p) ∧
        ((∃ i, i < numWolves.toNat ∧ p = initialScoredIn ar draws s i) ∨
          ∃ t' i, (t' < t ∧ i < numWolves.toNat ∨ t' = t ∧ i < k) ∧
            p = movedScoredIn ar draws s t' i)) := by
  obtain ⟨-, -, hh, -, hl, -⟩ := construct_eq h
  have hnum : s.numWolves = numWolves := congrArg (fun x => x.1) hh
  have hmax : s.maxIter = maxIter := congrArg (fun x => x.2.2.1) hh
  have ha : s.alphaScore = Dbl.posInf := congrArg (fun x => x.1.2) hl
  have hfinal : (optimizeIn ar draws s).1 = midRunIn ar draws s maxIter.toNat 0 := by
    rw [optimizeIn_fst_eq_midRunIn, hmax]
  have hend := midRunIn_alphaScore_min ar draws h maxIter.toNat 0
  refine ⟨?_, ?_, ⟨hfinal, by rw [hfinal]; exact hend⟩, ?_, ?_⟩
  · intro k
    refine ⟨initPrefixIn_leaders ar draws s k, ?_⟩
    rw [alphaScore_of_leaders (initPrefixIn_leaders ar draws s k)]
    exact offerAll_alphaScore_min s _ ha
  · intro t k
    exact ⟨midRunIn_leaders ar draws s t k, midRunIn_alphaScore_min ar draws h t k⟩
  · intro har hn
    have hpos : 0 < numWolves.toNat := by omega
    have hle : ∀ i, i < numWolves.toNat →
        (optimizeIn ar draws s).1.alphaScore
          ≤ objectiveFunctionIn ar (initialPosition draws dim.toNat i) := by
      intro i hi
      rw [hfinal]
      have hmem := mem_runOffersIn_of_initial ar draws s maxIter.toNat 0 i (by rw [hnum]; exact hi)
      have hsc := initialScoredIn_score ar har draws h i hi
      have := hend.2.1 _ hmem hsc
      rw [initialScoredIn_eq ar draws h i hi] at this
      exact this
    refine ⟨?_, ?_⟩
    · rcases hend.2.2 with hinf | hex
      · have h0 := hle 0 hpos
        rw [hfinal, hinf] at h0
        refine ⟨_, mem_runOffersIn_of_initial ar draws s maxIter.toNat 0 0
          (by rw [hnum]; exact hpos), ?_⟩
        rw [hfinal, hinf, initialScoredIn_eq ar draws h 0 hpos]
        exact (Dbl.eq_posInf_of_posInf_le h0).symm
      · rw [hfinal]
        exact hex
    · intro w hw
      rw [initializeWolvesIn_wolves ar draws h] at hw
      obtain ⟨i, hi, rfl⟩ := List.mem_map.mp hw
      exact hle i (List.mem_range.mp hi)
  · intro t k o ho
    rw [← hnum]
    rcases mem_runOffersIn ho with ⟨i, hi, ho⟩ | ⟨t', i, hti, ho⟩
    · exact ⟨_, ho, Or.inl ⟨i, hi, rfl⟩⟩
    · exact ⟨_, ho, Or.inr ⟨t', i, hti, rfl⟩⟩

theorem alphaScore_is_running_minimum_witness :
    construct 1 1 2 (Dbl.fin 0) (Dbl.fin (3 * 2 ^ 1022)) = some nanPack ∧
      (optimizeIn Arith.binary64 nanDraws nanPack).1.alphaScore = Dbl.posInf ∧
      (initializeWolvesIn Arith.binary64 nanDraws nanPack).wolves = [[Dbl.fin (2 ^ 1023)]] ∧
      ∀ w ∈ (initializeWolvesIn Arith.binary64 nanDraws nanPack).wolves,
        (optimizeIn Arith.binary64 nanDraws nanPack).1.alphaScore
          ≤ objectiveFunctionIn Arith.binary64 w :=
  ⟨by decide!, by decide!, by decide!,
    ((alphaScore_is_running_minimum Arith.binary64 nanDraws 1 1 2 (Dbl.fin 0)
      (Dbl.fin (3 * 2 ^ 1022)) nanPack (by decide!)).2.2.2.1 (Or.inr rfl) (by decide)).2⟩
